import Mathlib

/-!
Validation rules and flowchart parser of `mermaid-check`.

A shallow embedding of `validator/state.go` together with the part of the
`ast` package it reads, followed by theorems about the two state rules
(`no-duplicate-states`, `valid-state-references`) and their catalogs.

The flowchart rules, the class rules and the flowchart parser are known only
through their tests and the specification; their definitions here carry a doc
comment starting `Modelled from the spec:` and follow the specification's
wording, with the message texts it leaves open as parameters.

Conventions of the embedding:

* Go `int` fields are `Int`; the rules only copy and print them.
* A Go `map[string]V` is an association list read with `mapLookup` and
  written with `mapStore`; a key is stored at most once.
* `fmt.Sprintf` is string concatenation; `%d` of an `int` is `toString`, and
  the `%q` verb (`strconv.Quote`, standard-library code that relies on the
  Unicode tables) is the parameter `quote` of every definition that formats
  a message.
* A `nil` slice and an empty slice are both `[]`.
-/

namespace MermaidCheck

/-! ## The `ast` package: positions and state-diagram statements -/

/-- Source position `ast.Position`. -/
structure Position where
  Line : Int
  Column : Int
deriving DecidableEq, Repr

/-- Statement `ast.State`: a state declaration. -/
structure State where
  ID : String
  Pos : Position
deriving DecidableEq, Repr

/-- Statement `ast.Transition`: `From --> To`. -/
structure Transition where
  From : String
  To : String
  Pos : Position
deriving DecidableEq, Repr

/-- Statement `ast.StartState`: `[*] --> X`. -/
structure StartState where
  Pos : Position
deriving DecidableEq, Repr

/-- Statement `ast.EndState`: `X --> [*]`. -/
structure EndState where
  Pos : Position
deriving DecidableEq, Repr

/-- Statement `ast.Fork`. -/
structure Fork where
  ID : String
  Pos : Position
deriving DecidableEq, Repr

/-- Statement `ast.Join`. -/
structure Join where
  ID : String
  Pos : Position
deriving DecidableEq, Repr

/-- Statement `ast.Choice`. -/
structure Choice where
  ID : String
  Pos : Position
deriving DecidableEq, Repr

/-- Statement `ast.StateNote`. -/
structure StateNote where
  Pos : Position
deriving DecidableEq, Repr

/-- Statement `ast.StateComment`. -/
structure StateComment where
  Pos : Position
deriving DecidableEq, Repr

/-- The interface `ast.StateStmt` as the closed union of its nine
implementations (the dynamic type of an interface value is the constructor);
a statement is a non-nil pointer, as the parser builds it. -/
inductive StateStmt where
  | state (s : State)
  | transition (t : Transition)
  | startState (s : StartState)
  | endState (s : EndState)
  | fork (s : Fork)
  | join (s : Join)
  | choice (s : Choice)
  | stateNote (s : StateNote)
  | stateComment (s : StateComment)
deriving DecidableEq, Repr

/-- Root node `ast.StateDiagram`; `Type_` is the Go field `Type`. -/
structure StateDiagram where
  Type_ : String
  Source : String
  Pos : Position
  Statements : List StateStmt
deriving DecidableEq, Repr

/-! ## The `validator` package: diagnostics -/

/-- Severity levels `SeverityError`, `SeverityWarning`, `SeverityInfo`. -/
inductive Severity where
  | SeverityError
  | SeverityWarning
  | SeverityInfo
deriving DecidableEq, Repr

/-- A diagnostic, `validator.ValidationError`. -/
structure ValidationError where
  Line : Int
  Column : Int
  Message : String
  Severity : Severity
deriving DecidableEq, Repr

/-! ## Go maps with string keys -/

/-- The comma-ok read `v, exists := m[k]`. -/
def mapLookup {V : Type} (m : List (String × V)) (k : String) : Option V :=
  match m with
  | [] => none
  | (k', v) :: rest => if k' = k then some v else mapLookup rest k

/-- The assignment `m[k] = v`, replacing an earlier entry for `k`. -/
def mapStore {V : Type} (m : List (String × V)) (k : String) (v : V) : List (String × V) :=
  (k, v) :: m.filter (fun e => decide (e.1 ≠ k))

/-! ## `validator/state.go` -/

/-- The interface `StateRule`: a name and a validation function. -/
structure StateRule where
  Name : String
  ValidateState : StateDiagram → List ValidationError

/-- The format `"duplicate state ID %q (first defined at line %d)"` applied to
`state.ID` and `pos.Line`. -/
def duplicateStateMessage (quote : String → String) (id : String) (line : Int) : String :=
  "duplicate state ID " ++ quote id ++ " (first defined at line " ++ toString line ++ ")"

/-- The two locals of the loop in `NoDuplicateStates.ValidateState`. -/
structure DupScan where
  errors : List ValidationError
  seen : List (String × Position)

/-- One iteration of the loop in `NoDuplicateStates.ValidateState`. -/
def NoDuplicateStates.visit (quote : String → String) (acc : DupScan) (stmt : StateStmt) : DupScan :=
  match stmt with
  | .state state =>
    match mapLookup acc.seen state.ID with
    | some pos =>
      { acc with errors := acc.errors ++ [{
          Line := state.Pos.Line,
          Column := state.Pos.Column,
          Message := duplicateStateMessage quote state.ID pos.Line,
          Severity := Severity.SeverityError }] }
    | none => { acc with seen := mapStore acc.seen state.ID state.Pos }
  | _ => acc

/-- Rule name of `NoDuplicateStates`. -/
def NoDuplicateStates.Name : String := "no-duplicate-states"

/-- The method `NoDuplicateStates.ValidateState`. -/
def NoDuplicateStates.ValidateState (quote : String → String) (diagram : StateDiagram) :
    List ValidationError :=
  (diagram.Statements.foldl (NoDuplicateStates.visit quote) ⟨[], []⟩).errors

/-- One iteration of the first loop of `ValidStateReferences.ValidateState`. -/
def ValidStateReferences.collectDeclared (definedStates : List (String × Bool))
    (stmt : StateStmt) : List (String × Bool) :=
  match stmt with
  | .state s => mapStore definedStates s.ID true
  | .fork s => mapStore definedStates s.ID true
  | .join s => mapStore definedStates s.ID true
  | .choice s => mapStore definedStates s.ID true
  | _ => definedStates

/-- One iteration of the second loop of `ValidStateReferences.ValidateState`. -/
def ValidStateReferences.collectEndpoints (definedStates : List (String × Bool))
    (stmt : StateStmt) : List (String × Bool) :=
  match stmt with
  | .transition tr => mapStore (mapStore definedStates tr.From true) tr.To true
  | _ => definedStates

/-- Rule name of `ValidStateReferences`. -/
def ValidStateReferences.Name : String := "valid-state-references"

/-- The map `definedStates` as it stands when `ValidStateReferences.ValidateState`
returns. -/
def ValidStateReferences.definedStates (diagram : StateDiagram) : List (String × Bool) :=
  diagram.Statements.foldl ValidStateReferences.collectEndpoints
    (diagram.Statements.foldl ValidStateReferences.collectDeclared [])

/-- The method `ValidStateReferences.ValidateState`: both passes fill
`definedStates`; `errors` is returned as declared. -/
def ValidStateReferences.ValidateState (diagram : StateDiagram) : List ValidationError :=
  let errors : List ValidationError := []
  let _definedStates := ValidStateReferences.definedStates diagram
  errors

/-- The function `StateDefaultRules`. -/
def StateDefaultRules (quote : String → String) : List StateRule :=
  [ { Name := NoDuplicateStates.Name, ValidateState := NoDuplicateStates.ValidateState quote },
    { Name := ValidStateReferences.Name, ValidateState := ValidStateReferences.ValidateState } ]

/-- The function `StateStrictRules`. -/
def StateStrictRules (quote : String → String) : List StateRule :=
  StateDefaultRules quote

/-- The struct `Validator`, whose declaration is in `validator.go`, not among
the files: it holds the field `stateRules` that `NewState` sets; its other
rule-list fields are taken as they come, `ι` being the type of their names and
`R f` the type of the rules in the field `f`. -/
structure Validator (ι : Type) (R : ι → Type) where
  stateRules : List StateRule
  otherRules : (f : ι) → List (R f)

/-- The function `NewState`: the composite literal `&Validator{stateRules:
rules}` sets `stateRules` and leaves every other field at its zero value,
which for a slice is the empty one. Called without arguments, `rules` is the
empty slice. -/
def NewState {ι : Type} {R : ι → Type} (rules : List StateRule) : Validator ι R :=
  { stateRules := rules,
    otherRules := fun _ => [] }

/-! ## Vocabulary of the properties -/

/-- IDs of the State statements of a statement list, in statement order. -/
def stateIDs (stmts : List StateStmt) : List String :=
  stmts.filterMap (fun t => match t with
    | .state s => some s.ID
    | _ => none)

/-- The dynamic type of a statement is `*ast.State`. -/
def isStateStmt (t : StateStmt) : Bool :=
  match t with
  | .state _ => true
  | _ => false

/-- The earliest State statement of `stmts` whose ID is `x`, if there is one. -/
def firstState (stmts : List StateStmt) (x : String) : Option State :=
  stmts.findSome? (fun t => match t with
    | .state s => if s.ID = x then some s else none
    | _ => none)

/-- Statement `i` is a State statement and some earlier statement is a State
statement with the same ID. -/
def RepeatsAt (stmts : List StateStmt) (i : Nat) : Prop :=
  ∃ s : State, stmts[i]? = some (StateStmt.state s) ∧
    ∃ (j : Nat) (s' : State), j < i ∧ stmts[j]? = some (StateStmt.state s') ∧ s'.ID = s.ID

/-- Decision procedure for `RepeatsAt`. -/
def repeatsAt (stmts : List StateStmt) (i : Nat) : Bool :=
  match stmts[i]? with
  | some (.state s) => (stmts.take i).any (fun t => match t with
      | .state s' => decide (s'.ID = s.ID)
      | _ => false)
  | _ => false

/-- Indices of the repeating State statements, in increasing order. -/
def dupIndices (stmts : List StateStmt) : List Nat :=
  (List.range stmts.length).filter (repeatsAt stmts)

/-- The diagnostic owed to statement `i`: none unless it is a State statement
preceded by a State statement with the same ID, and then the one citing the
earliest of these. -/
def reportAt (quote : String → String) (stmts : List StateStmt) (i : Nat) :
    Option ValidationError :=
  match stmts[i]? with
  | some (.state s) => (firstState (stmts.take i) s.ID).map (fun f =>
      { Line := s.Pos.Line,
        Column := s.Pos.Column,
        Message := duplicateStateMessage quote s.ID f.Pos.Line,
        Severity := Severity.SeverityError })
  | _ => none

/-- Quoting of a string of printable ASCII characters other than the double
quote and the backslash: `strconv.Quote` only adds the delimiters. -/
def plainQuote (s : String) : String := "\"" ++ s ++ "\""

/-- State statement with the given ID at the given line, column 1. -/
def stateAt (id : String) (line : Int) : StateStmt :=
  .state { ID := id, Pos := { Line := line, Column := 1 } }

/-- Diagram with three declarations of `Still`, two of `Moving`, and a
transition between them. -/
def sampleDiagram : StateDiagram :=
  { Type_ := "stateDiagram-v2",
    Source := "",
    Pos := { Line := 1, Column := 1 },
    Statements := [
      stateAt "Still" 2,
      stateAt "Moving" 3,
      .transition { From := "Still", To := "Moving", Pos := { Line := 4, Column := 5 } },
      stateAt "Still" 5,
      stateAt "Moving" 6,
      stateAt "Still" 7 ] }


/-- The statements of `sampleDiagram` under another type tag, source text and
header position. -/
def relabelledDiagram : StateDiagram :=
  { Type_ := "state",
    Source := "state\n    Still --> Moving",
    Pos := { Line := 12, Column := 3 },
    Statements := sampleDiagram.Statements }

/-- Diagram with three declarations of `Still`, one of `Moving`, and a fork
whose ID is also `Moving`. -/
def tripleDiagram : StateDiagram :=
  { Type_ := "stateDiagram-v2",
    Source := "",
    Pos := { Line := 1, Column := 1 },
    Statements := [
      stateAt "Still" 2,
      stateAt "Still" 3,
      .fork { ID := "Moving", Pos := { Line := 4, Column := 1 } },
      stateAt "Moving" 5,
      stateAt "Still" 6 ] }

/-- Diagram whose only statement is a transition between two states that no
State, Fork, Join or Choice statement declares. -/
def danglingDiagram : StateDiagram :=
  { Type_ := "stateDiagram-v2",
    Source := "stateDiagram-v2\n    A --> B",
    Pos := { Line := 1, Column := 1 },
    Statements := [ .transition { From := "A", To := "B", Pos := { Line := 2, Column := 5 } } ] }

/-- Concatenation, in list order, of the diagnostics that each rule of a rule
list returns for a diagram. -/
def concatRuleDiagnostics (rules : List StateRule) (diagram : StateDiagram) :
    List ValidationError :=
  rules.flatMap (fun r => r.ValidateState diagram)

/-! ## The `ast` package: flowcharts

The types below are those the tests of the `ast`, `parser` and `validator`
packages build and inspect. -/

/-- Statement `ast.NodeDef`: a node definition; `Shape` holds the delimiter
pair, such as `[]`. -/
structure NodeDef where
  ID : String
  Label : String
  Shape : String
  Pos : Position
deriving DecidableEq, Repr

/-- Statement `ast.Link`: a connector between two node identifiers. -/
structure Link where
  From : String
  To : String
  Arrow : String
  Label : String
  BiDir : Bool
  Pos : Position
deriving DecidableEq, Repr

/-- The interface `ast.Statement` as the closed union of its six
implementations; `subgraph` carries the fields of `ast.Subgraph`, whose
`Statements` are the nested scope. -/
inductive Statement where
  | nodeDef (n : NodeDef)
  | link (l : Link)
  | subgraph (Title : String) (Statements : List Statement) (Pos : Position)
  | classDef (Pos : Position)
  | classAssignment (Pos : Position)
  | comment (Pos : Position)
deriving Repr

/-- Root node `ast.Flowchart`; `Type_` is the Go field `Type`. -/
structure Flowchart where
  Type_ : String
  Direction : String
  Source : String
  Pos : Position
  Statements : List Statement
deriving Repr

/-! ## The flowchart rules -/

/-- Modelled from the spec: the message texts of the flowchart rules, whose
source (`validator.go`) is not among the files. The spec and the tests fix of
the texts only that a `no-duplicate-node-ids` message names the duplicate and
contains the word `duplicate`; everything else is a field here. -/
structure FlowchartWording where
  invalidDirection : String → String
  beforeDuplicate : NodeDef → String
  afterDuplicate : NodeDef → String
  parenthesis : NodeDef → String

/-- Modelled from the spec: the interface `Rule` of the flowchart validator, a
name and a function from a flowchart to its diagnostics. -/
structure Rule where
  Name : String
  Validate : Flowchart → List ValidationError

/-- Modelled from the spec: the direction tokens the rule `valid-direction`
accepts, "direction token ∈ {TB,TD,BT,RL,LR}". -/
def validDirections : List String := ["TB", "TD", "BT", "RL", "LR"]

/-- Modelled from the spec: `ValidDirection.Validate`, the rule
`valid-direction` (source not among the files): no diagnostic when the
direction token is one of the five, one error otherwise, located at the
flowchart header. -/
def ValidDirection.Validate (w : FlowchartWording) (flowchart : Flowchart) :
    List ValidationError :=
  if flowchart.Direction ∈ validDirections then []
  else [{ Line := flowchart.Pos.Line,
          Column := flowchart.Pos.Column,
          Message := w.invalidDirection flowchart.Direction,
          Severity := Severity.SeverityError }]

/-- Modelled from the spec: `NoUndefinedNodes.Validate`, the rule
`no-undefined-nodes` (source not among the files): "every identifier used in a
link is treated as implicitly valid even without a node-definition", so the
rule "currently never emits". -/
def NoUndefinedNodes.Validate (_flowchart : Flowchart) : List ValidationError := []

mutual
/-- The node definitions of one statement in traversal order: the statement
itself, or those of the body of a subgraph. -/
def Statement.nodeDefs : Statement → List NodeDef
  | .nodeDef n => [n]
  | .subgraph _ body _ => nodeDefsOf body
  | _ => []
/-- The node definitions of a statement list in traversal order, nested
subgraphs included. -/
def nodeDefsOf : List Statement → List NodeDef
  | [] => []
  | s :: rest => s.nodeDefs ++ nodeDefsOf rest
end

/-- A label contains an opening or a closing parenthesis. -/
def hasParenthesis (label : String) : Bool :=
  label.data.any (fun c => c = '(' || c = ')')

/-- Modelled from the spec: `NoParenthesesInLabels.Validate`, the rule
`no-parentheses-in-labels` (source not among the files): one error for "any
node-definition label containing an opening or closing parenthesis, recursing
into nested subgraphs", located at the node definition. -/
def NoParenthesesInLabels.Validate (w : FlowchartWording) (flowchart : Flowchart) :
    List ValidationError :=
  ((nodeDefsOf flowchart.Statements).filter (fun n => hasParenthesis n.Label)).map (fun n =>
    { Line := n.Pos.Line,
      Column := n.Pos.Column,
      Message := w.parenthesis n,
      Severity := Severity.SeverityError })

/-- The node definitions of a list whose identifier is in `seen` or occurs
earlier in the list: the second and later definitions of an identifier. -/
def repeatedNodeDefs (seen : List String) : List NodeDef → List NodeDef
  | [] => []
  | n :: rest =>
    if n.ID ∈ seen then n :: repeatedNodeDefs seen rest
    else repeatedNodeDefs (n.ID :: seen) rest

/-- Modelled from the spec: the diagnostic of `no-duplicate-node-ids` for a
repeated node definition; its message contains the word `duplicate`. -/
def duplicateNodeError (w : FlowchartWording) (n : NodeDef) : ValidationError :=
  { Line := n.Pos.Line,
    Column := n.Pos.Column,
    Message := w.beforeDuplicate n ++ "duplicate" ++ w.afterDuplicate n,
    Severity := Severity.SeverityError }

/-- Modelled from the spec: `NoDuplicateNodeIDs.Validate`, the rule
`no-duplicate-node-ids` (source not among the files): "second and later
node-definitions for the same identifier anywhere, including nested subgraphs
(flat, diagram-wide namespace); one diagnostic per extra occurrence". -/
def NoDuplicateNodeIDs.Validate (w : FlowchartWording) (flowchart : Flowchart) :
    List ValidationError :=
  (repeatedNodeDefs [] (nodeDefsOf flowchart.Statements)).map (duplicateNodeError w)

/-- Modelled from the spec: `DefaultRules`, the default flowchart catalog
(source not among the files): the rules of the spec's table that are not
marked strict-only, in table order. -/
def DefaultRules (w : FlowchartWording) : List Rule :=
  [ { Name := "valid-direction", Validate := ValidDirection.Validate w },
    { Name := "no-undefined-nodes", Validate := NoUndefinedNodes.Validate },
    { Name := "no-duplicate-node-ids", Validate := NoDuplicateNodeIDs.Validate w } ]

/-- Modelled from the spec: `StrictRules`, the strict flowchart catalog (source
not among the files): all four rules of the spec's table, in table order;
"strict additionally enables the style rule". -/
def StrictRules (w : FlowchartWording) : List Rule :=
  [ { Name := "valid-direction", Validate := ValidDirection.Validate w },
    { Name := "no-undefined-nodes", Validate := NoUndefinedNodes.Validate },
    { Name := "no-parentheses-in-labels", Validate := NoParenthesesInLabels.Validate w },
    { Name := "no-duplicate-node-ids", Validate := NoDuplicateNodeIDs.Validate w } ]

/-- Modelled from the spec: `Validator.Validate` for a flowchart rule list
(source not among the files): it "concatenates each rule's diagnostics in
rule-list order". -/
def validateFlowchart (rules : List Rule) (flowchart : Flowchart) : List ValidationError :=
  rules.flatMap (fun r => r.Validate flowchart)

/-- A statement list contains the node definition `n`, at top level or inside
a subgraph nested to any depth. -/
inductive Defines : List Statement → NodeDef → Prop where
  | here {stmts : List Statement} {n : NodeDef} :
      Statement.nodeDef n ∈ stmts → Defines stmts n
  | nested {stmts body : List Statement} {title : String} {pos : Position} {n : NodeDef} :
      Statement.subgraph title body pos ∈ stmts → Defines body n → Defines stmts n

/-- Message texts used in the worked examples. -/
def sampleWording : FlowchartWording :=
  { invalidDirection := fun d => "invalid direction " ++ d,
    beforeDuplicate := fun _ => "",
    afterDuplicate := fun n => " node ID " ++ n.ID,
    parenthesis := fun n => "parentheses in label of " ++ n.ID }

/-- Node definition with a rectangle shape at the given line. -/
def nodeAt (id label : String) (line : Int) : NodeDef :=
  { ID := id, Label := label, Shape := "[]", Pos := { Line := line, Column := 0 } }

/-- Flowchart with the given direction token and statements. -/
def flowchartOf (direction : String) (stmts : List Statement) : Flowchart :=
  { Type_ := "flowchart",
    Direction := direction,
    Source := "",
    Pos := { Line := 1, Column := 1 },
    Statements := stmts }

/-- Flowchart of the test "duplicates in subgraph": a definition of `A` at top
level and another inside a subgraph. -/
def nestedDuplicateChart : Flowchart :=
  flowchartOf "TD" [
    .nodeDef (nodeAt "A" "Outer A" 2),
    .subgraph "Test" [ .nodeDef (nodeAt "A" "Inner A" 4) ] { Line := 3, Column := 0 } ]

/-- Flowchart of the test "strict rules": its only defect is the label of `A`,
which contains parentheses. -/
def parenthesisChart : Flowchart :=
  flowchartOf "TD" [ .nodeDef (nodeAt "A" "Node (with paren)" 2) ]

/-- Flowchart with one node definition carrying the given label. -/
def labelChart (label : String) : Flowchart :=
  flowchartOf "TD" [ .nodeDef (nodeAt "A" label 2) ]

/-- Flowchart of the test "nested in subgraph": the label with a parenthesis is
inside a subgraph. -/
def nestedLabelChart : Flowchart :=
  flowchartOf "TD" [
    .subgraph "Test Subgraph" [ .nodeDef (nodeAt "A" "Label (with paren)" 3) ]
      { Line := 2, Column := 0 } ]

/-! ## The `ast` package: class diagrams

The types below are those the tests of the `ast` and `validator` packages build
and inspect. -/

/-- A class member, `ast.ClassMember`; `Visibility` is the raw token. -/
structure ClassMember where
  Visibility : String
  Name : String
  Pos : Position
deriving DecidableEq, Repr

/-- Statement `ast.Class`: a class declaration with its members. -/
structure Class where
  Name : String
  Members : List ClassMember
  Pos : Position
deriving DecidableEq, Repr

/-- Statement `ast.Relationship`; `Type_` is the Go field `Type`, the kind of
the relationship. -/
structure Relationship where
  From : String
  To : String
  Type_ : String
  Pos : Position
deriving DecidableEq, Repr

/-- Statement `ast.ClassNote`: a note attached to a named class. -/
structure ClassNote where
  ClassName : String
  Text : String
  Pos : Position
deriving DecidableEq, Repr

/-- Statement `ast.ClassComment`. -/
structure ClassComment where
  Pos : Position
deriving DecidableEq, Repr

/-- The interface `ast.ClassStmt` as the closed union of its four
implementations. -/
inductive ClassStmt where
  | classDecl (c : Class)
  | relationship (r : Relationship)
  | classNote (n : ClassNote)
  | classComment (c : ClassComment)
deriving DecidableEq, Repr

/-- Root node `ast.ClassDiagram`; `Type_` is the Go field `Type`. -/
structure ClassDiagram where
  Type_ : String
  Source : String
  Pos : Position
  Statements : List ClassStmt
deriving DecidableEq, Repr

/-! ## The class rules -/

/-- Modelled from the spec: the message texts of the class rules, whose source
(`validator/class.go`) is not among the files; the spec does not fix them. -/
structure ClassWording where
  undefinedClass : ClassNote → String
  invalidVisibility : Class → ClassMember → String
  invalidRelationship : Relationship → String

/-- Modelled from the spec: the names a note may refer to, those of the
"explicitly declared" classes and the "relationship endpoints", collected over
the whole diagram. -/
def knownClassNames (stmts : List ClassStmt) : List String :=
  stmts.flatMap (fun t => match t with
    | .classDecl c => [c.Name]
    | .relationship r => [r.From, r.To]
    | _ => [])

/-- Modelled from the spec: the diagnostic of `valid-class-references` for a
note, an error located at the note. -/
def undefinedClassError (w : ClassWording) (n : ClassNote) : ValidationError :=
  { Line := n.Pos.Line,
    Column := n.Pos.Column,
    Message := w.undefinedClass n,
    Severity := Severity.SeverityError }

/-- Modelled from the spec: `ValidClassReferences.ValidateClass`, the rule
`valid-class-references` (source not among the files): "every note's
referenced class name must be an explicitly declared class OR a relationship
endpoint"; one error per note that refers to neither, located at the note. -/
def ValidClassReferences.ValidateClass (w : ClassWording) (diagram : ClassDiagram) :
    List ValidationError :=
  diagram.Statements.filterMap (fun t => match t with
    | .classNote n =>
      if n.ClassName ∈ knownClassNames diagram.Statements then none
      else some (undefinedClassError w n)
    | _ => none)

/-- Modelled from the spec: the "four recognized symbols" of member visibility. -/
def validVisibilities : List String := ["+", "-", "#", "~"]

/-- Modelled from the spec: the diagnostic of `valid-member-visibility` for a
member of a class, an error located at the member. -/
def visibilityError (w : ClassWording) (c : Class) (m : ClassMember) : ValidationError :=
  { Line := m.Pos.Line,
    Column := m.Pos.Column,
    Message := w.invalidVisibility c m,
    Severity := Severity.SeverityError }

/-- Modelled from the spec: the diagnostics of `valid-member-visibility` for
the members of one class, one error per member whose raw visibility token is
not recognized, located at the member. -/
def ValidMemberVisibility.checkClass (w : ClassWording) (c : Class) : List ValidationError :=
  c.Members.filterMap (fun m =>
    if m.Visibility ∈ validVisibilities then none
    else some (visibilityError w c m))

/-- Modelled from the spec: `ValidMemberVisibility.ValidateClass`, the rule
`valid-member-visibility` (source not among the files): "visibility token must
be one of four recognized symbols", checked for every member of every class in
statement order. -/
def ValidMemberVisibility.ValidateClass (w : ClassWording) (diagram : ClassDiagram) :
    List ValidationError :=
  diagram.Statements.flatMap (fun t => match t with
    | .classDecl c => ValidMemberVisibility.checkClass w c
    | _ => [])

/-- Modelled from the spec: the "six recognized kinds" of relationship, under
the names the tests give them. -/
def validRelationshipTypes : List String :=
  ["inheritance", "composition", "aggregation", "association", "dependency", "realization"]

/-- Modelled from the spec: the diagnostic of `valid-relationship-type` for a
relationship, an error located at the relationship. -/
def relationshipError (w : ClassWording) (r : Relationship) : ValidationError :=
  { Line := r.Pos.Line,
    Column := r.Pos.Column,
    Message := w.invalidRelationship r,
    Severity := Severity.SeverityError }

/-- Modelled from the spec: `ValidRelationshipType.ValidateClass`, the rule
`valid-relationship-type` (source not among the files): "relationship kind must
be one of the six recognized kinds"; one error per relationship of another
kind, located at the relationship. -/
def ValidRelationshipType.ValidateClass (w : ClassWording) (diagram : ClassDiagram) :
    List ValidationError :=
  diagram.Statements.filterMap (fun t => match t with
    | .relationship r =>
      if r.Type_ ∈ validRelationshipTypes then none
      else some (relationshipError w r)
    | _ => none)

/-- The notes of a statement list, in statement order. -/
def notesOf (stmts : List ClassStmt) : List ClassNote :=
  stmts.filterMap (fun t => match t with
    | .classNote n => some n
    | _ => none)

/-- The members of the classes of a statement list, in statement order. -/
def membersOf (stmts : List ClassStmt) : List ClassMember :=
  stmts.flatMap (fun t => match t with
    | .classDecl c => c.Members
    | _ => [])

/-- The relationships of a statement list, in statement order. -/
def relationshipsOf (stmts : List ClassStmt) : List Relationship :=
  stmts.filterMap (fun t => match t with
    | .relationship r => some r
    | _ => none)

/-- The name is that of a declared class of the statement list, or the `From`
or `To` of one of its relationships. -/
def Declared (stmts : List ClassStmt) (name : String) : Prop :=
  (∃ c : Class, ClassStmt.classDecl c ∈ stmts ∧ c.Name = name) ∨
  ∃ r : Relationship, ClassStmt.relationship r ∈ stmts ∧ (r.From = name ∨ r.To = name)

/-- Message texts used in the worked examples. -/
def sampleClassWording : ClassWording :=
  { undefinedClass := fun n => "note references undefined class " ++ n.ClassName,
    invalidVisibility := fun c m => "invalid visibility " ++ m.Visibility ++ " in " ++ c.Name,
    invalidRelationship := fun r => "invalid relationship type " ++ r.Type_ }

/-- Class diagram with the given statements. -/
def classDiagramOf (stmts : List ClassStmt) : ClassDiagram :=
  { Type_ := "class", Source := "", Pos := { Line := 1, Column := 1 }, Statements := stmts }

/-- Diagram of the test "implicit class from relationship", followed by a note
on a class that nothing declares. -/
def implicitClassDiagram : ClassDiagram :=
  classDiagramOf [
    .relationship { From := "A", To := "B", Type_ := "inheritance",
                    Pos := { Line := 2, Column := 1 } },
    .classNote { ClassName := "A", Text := "Note", Pos := { Line := 3, Column := 1 } },
    .classNote { ClassName := "UndefinedClass", Text := "Note text",
                 Pos := { Line := 4, Column := 1 } } ]

/-- Diagram of the test "implicit class from relationship": a note on `A`,
which occurs only as a relationship endpoint. -/
def endpointNoteDiagram : ClassDiagram :=
  classDiagramOf [
    .relationship { From := "A", To := "B", Type_ := "inheritance",
                    Pos := { Line := 2, Column := 1 } },
    .classNote { ClassName := "A", Text := "Note", Pos := { Line := 3, Column := 1 } } ]

/-- Diagram of the tests of `valid-member-visibility`: the four recognized
tokens and the token `*`. -/
def visibilityDiagram : ClassDiagram :=
  classDiagramOf [
    .classDecl { Name := "Animal",
                 Members := [
                   { Visibility := "+", Name := "name", Pos := { Line := 3, Column := 5 } },
                   { Visibility := "-", Name := "age", Pos := { Line := 4, Column := 5 } },
                   { Visibility := "#", Name := "weight", Pos := { Line := 5, Column := 5 } },
                   { Visibility := "~", Name := "height", Pos := { Line := 6, Column := 5 } },
                   { Visibility := "*", Name := "tail", Pos := { Line := 7, Column := 5 } } ],
                 Pos := { Line := 2, Column := 1 } } ]

/-- Relationship of the given kind from `A` to `B` at the given line. -/
def relationAt (kind : String) (line : Int) : ClassStmt :=
  .relationship { From := "A", To := "B", Type_ := kind, Pos := { Line := line, Column := 1 } }

/-- Diagram of the tests of `valid-relationship-type`: the six recognized kinds
and the kind `invalid`. -/
def relationshipDiagram : ClassDiagram :=
  classDiagramOf [
    relationAt "inheritance" 2, relationAt "composition" 3, relationAt "aggregation" 4,
    relationAt "association" 5, relationAt "dependency" 6, relationAt "realization" 7,
    relationAt "invalid" 8 ]

/-! ## The flowchart parser -/

/-- Modelled from the spec: a parse failure, `ParseError`, with the
approximate position the spec asks for. -/
structure ParseError where
  Pos : Position
  Message : String
deriving DecidableEq, Repr

/-- Blank characters between the tokens of a line. -/
def isBlank (c : Char) : Bool := c = ' ' || c = '\t' || c = '\r'

/-- Characters of an identifier: letters, digits and the underscore. -/
def isIdentChar (c : Char) : Bool := c.isAlphanum || c = '_'

/-- The text up to the first occurrence of `closer` and the text after it. -/
def splitAtFirst (closer : List Char) : List Char → Option (List Char × List Char)
  | [] => none
  | c :: rest =>
    if closer.isPrefixOf (c :: rest) then some ([], (c :: rest).drop closer.length)
    else (splitAtFirst closer rest).map (fun p => (c :: p.1, p.2))

/-- Modelled from the spec: an endpoint of a link as written at its point of
use: the identifier and, when a bracketed label follows it immediately, the
label (verbatim) and the shape tag of its delimiters. -/
structure Endpoint where
  ID : String
  Inline : Option (String × String)
deriving DecidableEq, Repr

/-- Modelled from the spec: the bracket pairs of the node shapes, `[[ ]]`
(subroutine) before `[ ]` (rectangle), then `( )` (rounded) and `{ }`
(diamond), each with the shape tag the tests expect. -/
def shapeDelimiters : List (List Char × List Char × String) :=
  [ (['[', '['], [']', ']'], "[[]]"),
    (['['], [']'], "[]"),
    (['('], [')'], "()"),
    (['{'], ['}'], "{}") ]

/-- The bracketed label at the head of the text under the given delimiter
pairs: `none` when an opened bracket is not closed, otherwise the label with
its shape tag (or no label when the text starts with no opener) and the text
that follows. -/
def takeLabelWith : List (List Char × List Char × String) → List Char →
    Option (Option (String × String) × List Char)
  | [], s => some (none, s)
  | (opener, closer, shape) :: more, s =>
    if opener.isPrefixOf s then
      (splitAtFirst closer (s.drop opener.length)).map
        (fun p => (some (String.mk p.1, shape), p.2))
    else takeLabelWith more s

/-- The optional bracketed label at the head of the text. -/
def takeLabel (s : List Char) : Option (Option (String × String) × List Char) :=
  takeLabelWith shapeDelimiters s

/-- An endpoint at the head of the text: a non-empty identifier and its
optional bracketed label. -/
def takeEndpoint (s : List Char) : Option (Endpoint × List Char) :=
  match s.span isIdentChar with
  | ([], _) => none
  | (id, rest) =>
    (takeLabel rest).map (fun p => ({ ID := String.mk id, Inline := p.1 }, p.2))

/-- Modelled from the spec: the arrow tokens the spec names, `<-->`, `-.->`,
`-->` and `==>`; its "similarly-shaped variants" are not enumerated there. -/
def arrowTokens : List (List Char) :=
  [ ['<', '-', '-', '>'], ['-', '.', '-', '>'], ['-', '-', '>'], ['=', '=', '>'] ]

/-- The arrow token at the head of the text, first match in the given list. -/
def takeArrowFrom : List (List Char) → List Char → Option (List Char × List Char)
  | [], _ => none
  | a :: more, s =>
    if a.isPrefixOf s then some (a, s.drop a.length) else takeArrowFrom more s

/-- Modelled from the spec: "an arrow with heads on both ends sets a
bidirectional flag". -/
def isBidirectional (arrow : List Char) : Bool :=
  arrow.head? = some '<' && arrow.getLast? = some '>'

/-- Modelled from the spec: the "optional pipe-delimited label" after the
arrow; `none` when the pipe is not closed. -/
def takePipeLabel (s : List Char) : Option (String × List Char) :=
  match s with
  | [] => some ("", [])
  | c :: rest =>
    if c = '|' then (splitAtFirst ['|'] rest).map (fun p => (String.mk p.1, p.2))
    else some ("", c :: rest)

/-- Modelled from the spec: a link line as read, `X<lx> arrow |label| Y<ly>`;
`ToColumn` is the 1-based column of `Y`. -/
structure LinkLine where
  From : Endpoint
  Arrow : String
  BiDir : Bool
  Label : String
  To : Endpoint
  ToColumn : Nat
deriving DecidableEq, Repr

/-- What a line of a flowchart body is read as. -/
inductive Line where
  | blank
  | comment
  | subgraphOpen (title : String)
  | subgraphEnd
  | classDef
  | classAssignment
  | node (id label shape : String)
  | link (l : LinkLine)
deriving DecidableEq, Repr

/-- The rest of a link line of `width` characters after its first endpoint and
the blanks that follow it. -/
def takeLinkRest (width : Nat) (src : Endpoint) (s : List Char) : Option LinkLine :=
  match takeArrowFrom arrowTokens s with
  | none => none
  | some (arrow, s₁) =>
    match takePipeLabel (s₁.dropWhile isBlank) with
    | none => none
    | some (label, s₂) =>
      match takeEndpoint (s₂.dropWhile isBlank) with
      | none => none
      | some (dst, s₃) =>
        if s₃.dropWhile isBlank = [] then
          some { From := src, Arrow := String.mk arrow, BiDir := isBidirectional arrow,
                 Label := label, To := dst,
                 ToColumn := width - (s₂.dropWhile isBlank).length + 1 }
        else none

/-- A node-definition line or a link line, the end of a line of `width`
characters; `none` for a malformed one. -/
def readNodeOrLink (width : Nat) (s : List Char) : Option Line :=
  match takeEndpoint s with
  | none => none
  | some (src, rest) =>
    match rest.dropWhile isBlank with
    | [] =>
      match src.Inline with
      | some (label, shape) => some (Line.node src.ID label shape)
      | none => none
    | more => (takeLinkRest width src more).map Line.link

/-- The text without its trailing blanks. -/
def dropTrailingBlanks (s : List Char) : List Char :=
  (s.reverse.dropWhile isBlank).reverse

/-- Modelled from the spec: the reading of one line of a flowchart body
(leading blanks removed): blank line, comment line (`%%`), `subgraph Title`,
`end`, style and class-assignment statements, node definition or link;
`none` for a malformed line. -/
def readLine (text : List Char) : Option Line :=
  let s := text.dropWhile isBlank
  if s = [] then some Line.blank
  else if ['%', '%'].isPrefixOf s then some Line.comment
  else
    match s.span isIdentChar with
    | (word, rest) =>
      if word = "subgraph".data then
        some (Line.subgraphOpen (String.mk (dropTrailingBlanks (rest.dropWhile isBlank))))
      else if word = "end".data ∧ rest.dropWhile isBlank = [] then some Line.subgraphEnd
      else if word = "classDef".data ∨ word = "style".data then some Line.classDef
      else if word = "class".data then some Line.classAssignment
      else readNodeOrLink text.length s

/-- The lines of a text, split at line feeds. -/
def splitLines : List Char → List (List Char)
  | [] => [[]]
  | c :: rest =>
    if c = '\n' then [] :: splitLines rest
    else
      match splitLines rest with
      | [] => [[c]]
      | l :: ls => (c :: l) :: ls

/-- Modelled from the spec: a scope of the parser's "explicit scope stack":
the title and position of its opener, the identifiers that "already have a
definition (standalone or inline)" in it, and its statements so far. -/
structure Scope where
  Title : String
  Pos : Position
  defined : List String
  stmts : List Statement

/-- Modelled from the spec: the parser state, the innermost open scope and the
scopes enclosing it. -/
structure ParserState where
  current : Scope
  outer : List Scope

/-- Modelled from the spec: the node definition synthesized for an endpoint:
one statement when the endpoint is inline-labeled and its identifier has no
definition in the scope yet, none otherwise, with the identifiers defined
afterwards. -/
def emitInline (defined : List String) (ep : Endpoint) (pos : Position) :
    List Statement × List String :=
  match ep.Inline with
  | some (label, shape) =>
    if ep.ID ∈ defined then ([], defined)
    else ([Statement.nodeDef { ID := ep.ID, Label := label, Shape := shape, Pos := pos }],
          ep.ID :: defined)
  | none => ([], defined)

/-- Modelled from the spec: the statements of a link line, "node-definition
for the from endpoint (if inline-labeled) immediately before the link
statement, the link statement itself, then node-definition for the to endpoint
(if inline-labeled) immediately after", with the identifiers defined
afterwards; each statement is located at its first token. -/
def emitLink (defined : List String) (l : LinkLine) (pos : Position) :
    List Statement × List String :=
  let before := emitInline defined l.From pos
  let after := emitInline before.2 l.To { Line := pos.Line, Column := l.ToColumn }
  (before.1 ++
    [Statement.link { From := l.From.ID, To := l.To.ID, Arrow := l.Arrow, Label := l.Label,
                      BiDir := l.BiDir, Pos := pos }] ++
    after.1,
   after.2)

/-- Appending statements to the innermost scope. -/
def ParserState.push (st : ParserState) (added : List Statement) (defined : List String) :
    ParserState :=
  { st with current := { st.current with stmts := st.current.stmts ++ added,
                                          defined := defined } }

/-- Modelled from the spec: the effect of one line on the parser state. A
standalone node definition is always recorded; `subgraph` opens a scope with no
identifier defined; `end` closes the innermost scope into a subgraph statement
of the enclosing one and fails when no scope is open. -/
def parseStep (st : ParserState) (pos : Position) (line : Line) :
    Except ParseError ParserState :=
  match line with
  | .blank => .ok st
  | .comment => .ok (st.push [Statement.comment pos] st.current.defined)
  | .classDef => .ok (st.push [Statement.classDef pos] st.current.defined)
  | .classAssignment => .ok (st.push [Statement.classAssignment pos] st.current.defined)
  | .node id label shape =>
    .ok (st.push [Statement.nodeDef { ID := id, Label := label, Shape := shape, Pos := pos }]
      (id :: st.current.defined))
  | .link l =>
    .ok (st.push (emitLink st.current.defined l pos).1 (emitLink st.current.defined l pos).2)
  | .subgraphOpen title =>
    .ok { current := { Title := title, Pos := pos, defined := [], stmts := [] },
          outer := st.current :: st.outer }
  | .subgraphEnd =>
    match st.outer with
    | [] => .error { Pos := pos, Message := "end without subgraph" }
    | parent :: rest =>
      .ok { current := { parent with
              stmts := parent.stmts ++
                [Statement.subgraph st.current.Title st.current.stmts st.current.Pos] },
            outer := rest }

/-- The position of a line: its 1-based number and the 1-based column of its
first token. -/
def linePos (number : Nat) (text : List Char) : Position :=
  { Line := number, Column := (text.takeWhile isBlank).length + 1 }

/-- Modelled from the spec: the body lines read in order from line `number`
on; a malformed line fails at its position. -/
def parseBody : List (List Char) → Nat → ParserState → Except ParseError ParserState
  | [], _, st => .ok st
  | text :: rest, number, st =>
    match readLine text with
    | none => .error { Pos := linePos number text, Message := "malformed statement" }
    | some line =>
      match parseStep st (linePos number text) line with
      | .error e => .error e
      | .ok st' => parseBody rest (number + 1) st'

/-- Modelled from the spec: the header line, its keyword (`graph` or
`flowchart`) and its direction token, which is "not validated at parse time". -/
def readHeader (text : List Char) : Option (String × String) :=
  match (text.dropWhile isBlank).span isIdentChar with
  | (word, rest) =>
    if word = "graph".data ∨ word = "flowchart".data then
      match (rest.dropWhile isBlank).span isIdentChar with
      | (direction, tail) =>
        if tail.dropWhile isBlank = [] then some (String.mk word, String.mk direction) else none
    else none

/-- Modelled from the spec: `FlowchartParser.Parse` (source not among the
files): the header on the first line, then the body; an `end` without opener,
a subgraph left open and a malformed line are parse failures, and "on failure
no partial tree is returned". -/
def parseFlowchart (source : String) : Except ParseError Flowchart :=
  match splitLines source.data with
  | [] => .error { Pos := { Line := 1, Column := 1 }, Message := "empty source" }
  | header :: body =>
    match readHeader header with
    | none => .error { Pos := linePos 1 header, Message := "malformed header" }
    | some (keyword, direction) =>
      match parseBody body 2
          { current := { Title := "", Pos := linePos 1 header, defined := [], stmts := [] },
            outer := [] } with
      | .error e => .error e
      | .ok st =>
        match st.outer with
        | [] => .ok { Type_ := keyword, Direction := direction, Source := source,
                      Pos := linePos 1 header, Statements := st.current.stmts }
        | _ :: _ => .error { Pos := st.current.Pos, Message := "subgraph without end" }

/-- What the tests of the parser compare of a statement: the identifier, label
and shape of a node definition; the endpoints, arrow, label and direction flag
of a link. -/
inductive Emitted where
  | nodeDef (id label shape : String)
  | link (src dst arrow label : String) (bidir : Bool)
  | other
deriving DecidableEq, Repr

/-- The compared part of a statement. -/
def Statement.emitted : Statement → Emitted
  | .nodeDef n => Emitted.nodeDef n.ID n.Label n.Shape
  | .link l => Emitted.link l.From l.To l.Arrow l.Label l.BiDir
  | _ => Emitted.other

/-- The compared parts of the top-level statements of a parse, `none` on a
parse failure. -/
def parsedStatements (source : String) : Option (List Emitted) :=
  match parseFlowchart source with
  | .ok flowchart => some (flowchart.Statements.map Statement.emitted)
  | .error _ => none


/-- The identifiers with a definition recorded in a scope are those of the
node-definition statements of the scope. -/
def ScopeOK (sc : Scope) : Prop :=
  ∀ id : String, id ∈ sc.defined ↔ ∃ n : NodeDef, Statement.nodeDef n ∈ sc.stmts ∧ n.ID = id

/-- The scope at which a parse starts: nothing defined, no statement. -/
def rootScope (pos : Position) : Scope :=
  { Title := "", Pos := pos, defined := [], stmts := [] }

/-- The words that start a statement other than a node definition or a link. -/
def reservedWords : List (List Char) :=
  ["subgraph".data, "end".data, "classDef".data, "style".data, "class".data]

/-- A written identifier: non-empty, of identifier characters, not reserved. -/
def IsIdentifier (x : List Char) : Prop :=
  x ≠ [] ∧ (∀ c ∈ x, isIdentChar c = true) ∧ x ∉ reservedWords

/-- A label text free of line feeds, brackets and pipes. -/
def IsPlainLabel (label : List Char) : Prop :=
  ∀ c ∈ label, c ∉ ['\n', '[', ']', '(', ')', '{', '}', '|']

/-- An inline label as written: the label between the delimiters of a shape. -/
def writtenLabel (inline : Option (List Char × (List Char × List Char × String))) :
    List Char :=
  match inline with
  | some (label, opener, closer, _) => opener ++ label ++ closer
  | none => []

/-- The inline label an endpoint is read with. -/
def readLabel (inline : Option (List Char × (List Char × List Char × String))) :
    Option (String × String) :=
  inline.map (fun p => (String.mk p.1, p.2.2.2))

/-- The node definition expected for an endpoint written with the given inline
label: one when there is a label, none for a bare endpoint. -/
def expectedNodeDef (x : List Char)
    (inline : Option (List Char × (List Char × List Char × String))) : List Emitted :=
  match inline with
  | some (label, _, _, shape) => [Emitted.nodeDef (String.mk x) (String.mk label) shape]
  | none => []

/-- An inline label is written with one of the four delimiter pairs around a
plain label. -/
def IsInline (inline : Option (List Char × (List Char × List Char × String))) : Prop :=
  ∀ p ∈ inline, p.2 ∈ shapeDelimiters ∧ IsPlainLabel p.1

/-- The node definition expected for an endpoint as read: one when it is
inline-labeled, none when it is bare. -/
def inlineNodeDef (ep : Endpoint) : List Emitted :=
  match ep.Inline with
  | some (label, shape) => [Emitted.nodeDef ep.ID label shape]
  | none => []

/-- The node definitions with the given identifier among the statements of a
scope, in statement order. -/
def scopeNodeDefs (stmts : List Statement) (id : String) : List NodeDef :=
  stmts.filterMap (fun t => match t with
    | .nodeDef n => if n.ID = id then some n else none
    | _ => none)

/-- Source of the test `TestInlineNodesDoNotDuplicate`. -/
def duplicateAttemptSource : String :=
  "graph LR\n    A[First Definition]\n    A --> B[Second]\n    B --> A[Duplicate Attempt]"

/-! ## Vocabulary of further properties of the state rules -/

/-- Some State, Fork, Join or Choice statement of the list has the ID `x`. -/
def DeclaresID (stmts : List StateStmt) (x : String) : Prop :=
  (∃ s : State, StateStmt.state s ∈ stmts ∧ s.ID = x) ∨
  (∃ s : Fork, StateStmt.fork s ∈ stmts ∧ s.ID = x) ∨
  (∃ s : Join, StateStmt.join s ∈ stmts ∧ s.ID = x) ∨
  (∃ s : Choice, StateStmt.choice s ∈ stmts ∧ s.ID = x)

/-- The statement list without the statements at the reported occurrences,
the State statements preceded by a State statement with the same ID. -/
def removeReported (stmts : List StateStmt) : List StateStmt :=
  (List.range stmts.length).filterMap (fun i =>
    if repeatsAt stmts i then none else stmts[i]?)

/-- State diagram with the given statements. -/
def stateDiagramOf (stmts : List StateStmt) : StateDiagram :=
  { Type_ := "stateDiagram-v2", Source := "", Pos := { Line := 1, Column := 1 },
    Statements := stmts }

/-- Diagram in which a fork, a join and a choice carry the ID of the one
declared state. -/
def pseudoStateDiagram : StateDiagram :=
  stateDiagramOf [
    .fork { ID := "A", Pos := { Line := 2, Column := 1 } },
    stateAt "A" 3,
    .join { ID := "A", Pos := { Line := 4, Column := 1 } },
    .choice { ID := "A", Pos := { Line := 5, Column := 1 } } ]

/-! ## Rendering of diagnostics and validation of any diagram -/

/-- Modelled from the spec: `Severity.String` (source `validator.go` not among
the files): "severity rendered as lowercase `error`/`warning`/`info`". -/
def Severity.String (s : Severity) : String :=
  match s with
  | .SeverityError => "error"
  | .SeverityWarning => "warning"
  | .SeverityInfo => "info"

/-- Modelled from the spec: `ValidationError.Error` (source `validator.go` not
among the files): the rendering "line <L>, col <C>: <severity>: <message>". -/
def ValidationError.Error (e : ValidationError) : String :=
  "line " ++ toString e.Line ++ ", col " ++ toString e.Column ++ ": " ++
    e.Severity.String ++ ": " ++ e.Message

/-- Root node `ast.SequenceDiagram`; its statements, which nothing here reads,
are left out. -/
structure SequenceDiagram where
  Type_ : String
  Source : String
  Pos : Position
deriving DecidableEq, Repr

/-- Root node `ast.GenericDiagram`, built by `ast.NewGenericDiagram` for an
unrecognized header: the tag, the whole source text, the position. -/
structure GenericDiagram where
  Type_ : String
  Source : String
  Pos : Position
deriving DecidableEq, Repr

/-- The interface `ast.Diagram` as the closed union of the five diagram types
(the dynamic type of an interface value is the constructor). -/
inductive Diagram where
  | flowchart (d : Flowchart)
  | sequence (d : SequenceDiagram)
  | classDiagram (d : ClassDiagram)
  | state (d : StateDiagram)
  | generic (d : GenericDiagram)

/-- The method `GetType` of `ast.Diagram`. -/
def Diagram.GetType (diagram : Diagram) : String :=
  match diagram with
  | .flowchart d => d.Type_
  | .sequence d => d.Type_
  | .classDiagram d => d.Type_
  | .state d => d.Type_
  | .generic d => d.Type_

/-- Modelled from the spec: the catalogs of the four recognized dialects, each
as the function from the strict flag and a diagram of the dialect to the
diagnostics of the selected rule list. -/
structure Catalogs where
  flowchart : Bool → Flowchart → List ValidationError
  sequence : Bool → SequenceDiagram → List ValidationError
  classDiagram : Bool → ClassDiagram → List ValidationError
  state : Bool → StateDiagram → List ValidationError

/-- Modelled from the spec: the top-level `Validate(diagram, strict)` (source
not among the files), which "inspects the diagram's dynamic dialect, selects
the matching catalog, and returns its diagnostics; a diagram of unrecognized
dialect always validates to an empty list". -/
def Validate (catalogs : Catalogs) (diagram : Diagram) (strict : Bool) :
    List ValidationError :=
  match diagram with
  | .flowchart d => catalogs.flowchart strict d
  | .sequence d => catalogs.sequence strict d
  | .classDiagram d => catalogs.classDiagram strict d
  | .state d => catalogs.state strict d
  | .generic _ => []

/-- Modelled from the spec: the catalogs with the flowchart and state rule
lists of this development; the sequence and class rule lists, which the spec
does not give in full, are arguments. -/
def catalogsWith (quote : String → String) (w : FlowchartWording)
    (sequence : Bool → SequenceDiagram → List ValidationError)
    (classDiagram : Bool → ClassDiagram → List ValidationError) : Catalogs :=
  { flowchart := fun strict d =>
      validateFlowchart (if strict then StrictRules w else DefaultRules w) d,
    sequence := sequence,
    classDiagram := classDiagram,
    state := fun strict d =>
      concatRuleDiagnostics (if strict then StateStrictRules quote else StateDefaultRules quote)
        d }

/-! ## `cmd/mermaid-check/main.go`

File contents are texts in UTF-8: a Go `string` is a Lean `String`, `len` is
the number of its UTF-8 bytes, a slice `s[i:j]` is taken on the bytes, and
`range` yields its characters. What the functions print to the console does
not feed back into what they return and is not part of the definitions. The
packages `inpututil`, `extractor` and `mermaid` and the file system are the
fields of `Env`. -/

/-- The UTF-8 encoding of a character, each byte as a number below 256. -/
def utf8Bytes (c : Char) : List Nat :=
  let n := c.toNat
  if n < 0x80 then [n]
  else if n < 0x800 then [0xC0 + n / 0x40, 0x80 + n % 0x40]
  else if n < 0x10000 then [0xE0 + n / 0x1000, 0x80 + n / 0x40 % 0x40, 0x80 + n % 0x40]
  else [0xF0 + n / 0x40000, 0x80 + n / 0x1000 % 0x40, 0x80 + n / 0x40 % 0x40,
        0x80 + n % 0x40]

/-- The bytes of a Go string. -/
def goBytes (s : String) : List Nat :=
  s.data.flatMap utf8Bytes

/-- The function `findSubstring`: the loop `for i := 0; i <= len(s)-len(substr);
i++` over Go `int`s, returning true at the first `i` with
`s[i:i+len(substr)] == substr`. -/
def findSubstring (s substr : String) : Bool :=
  (List.range (((goBytes s).length : Int) - ((goBytes substr).length : Int) + 1).toNat).any
    (fun i => decide (((goBytes s).drop i).take (goBytes substr).length = goBytes substr))

/-- The function `contains` of `main.go`. -/
def contains (s substr : String) : Bool :=
  decide ((goBytes s).length ≥ (goBytes substr).length) && findSubstring s substr

/-- The function `containsCodeBlocks`. -/
def containsCodeBlocks (content : String) : Bool :=
  decide ((goBytes content).length > 10) &&
    (contains content "```mermaid" ||
     contains content "```\nmermaid" ||
     contains content "# " ||
     contains content "## ")

/-- The function `containsMarkdownFences`. -/
def containsMarkdownFences (content : String) : Bool :=
  decide ((goBytes content).length > 10) &&
    (contains content "```mermaid" ||
     contains content "~~~mermaid" ||
     contains content "``` mermaid")

/-- The file kinds of `inpututil.DetectFileType` that `processFiles` tells
apart: markdown, Mermaid, and any other. -/
inductive FileType where
  | FileTypeMarkdown
  | FileTypeMermaid
  | other
deriving DecidableEq, Repr

/-- The fields of `extractor.DiagramBlock` that `main.go` reads. -/
structure DiagramBlock where
  DiagramType : String
  Source : String
  LineOffset : Int
  EndLine : Int
deriving DecidableEq, Repr

/-- The type `resultType` with its constants in `iota` order. -/
inductive resultType where
  | resultNoDiagrams
  | resultSuccess
  | resultValidationError
  | resultParseError
  | resultFileError
  | resultUnsupportedType
deriving DecidableEq, Repr

/-- The struct `blockResult`. -/
structure blockResult where
  diagramType : String
  lineRange : String
  isValid : Bool
  errors : List String
  blockNum : Int
deriving DecidableEq, Repr

/-- The struct `fileResult`. -/
structure fileResult where
  path : String
  resultType : resultType
  diagramCount : Int
  blocks : List blockResult
  stats : List (String × Int)
  errorMsg : String
deriving DecidableEq, Repr

/-- What `main.go` calls outside itself: `os.ReadFile` and the read of standard
input (content, or the text of the error), `inpututil.DetectFileType`,
`extractor.ExtractFromMarkdown`, `mermaid.Parse` (diagram, or the text of the
error), `mermaid.Validate`, and the `Error` text of a diagnostic. -/
structure Env where
  readFile : String → Except String String
  readStdin : Except String String
  detectFileType : String → FileType
  extractFromMarkdown : String → Except String (List DiagramBlock)
  parse : String → Except String Diagram
  validate : Diagram → Bool → List ValidationError
  errorText : ValidationError → String

/-- The function `validateDiagram`: true when there are validation errors. The
third argument is the prefix of the printed lines. -/
def validateDiagram (env : Env) (diagram : Diagram) (strict : Bool) (_pfx : String) : Bool :=
  let errors := env.validate diagram strict
  if errors.length = 0 then false else true

/-- The function `processBlock`: true when the block has errors. -/
def processBlock (env : Env) (block : DiagramBlock) (strict : Bool) : Bool :=
  match env.parse block.Source with
  | .error _ => true
  | .ok diagram => validateDiagram env diagram strict ""

/-- The function `processStdin`; the result is the exit code. -/
def processStdin (env : Env) (format : String) (strict errorOnEmpty : Bool) : Int :=
  match env.readStdin with
  | .error _ => 1
  | .ok content =>
    let isMarkdown :=
      if format = "" then containsCodeBlocks content else decide (format = "markdown")
    if isMarkdown then
      match env.extractFromMarkdown content with
      | .error _ => 1
      | .ok blocks =>
        if blocks.length = 0 then
          if errorOnEmpty then 1 else 0
        else
          let hasErrors := blocks.foldl
            (fun hasErrors block => if processBlock env block strict then true else hasErrors)
            false
          if hasErrors then 1 else 0
    else
      match env.parse content with
      | .error _ => 1
      | .ok diagram => if validateDiagram env diagram strict "" then 1 else 0

/-- The locals of the loop over the blocks of a markdown file in
`processFiles`. -/
structure BlockScan where
  blocks : List blockResult
  stats : List (String × Int)
  hasValidationErrors : Bool

/-- The increment `stats[key]++` of a `map[string]int`. -/
def countUp (stats : List (String × Int)) (key : String) : List (String × Int) :=
  mapStore stats key ((mapLookup stats key).getD 0 + 1)

/-- One iteration of the loop over the blocks of a markdown file in
`processFiles`, for the block `block` at index `i`. -/
def checkBlock (env : Env) (strict : Bool) (acc : BlockScan) (entry : Nat × DiagramBlock) :
    BlockScan :=
  let i := entry.1
  let block := entry.2
  let stats := countUp acc.stats block.DiagramType
  let lineRange := "(L" ++ toString block.LineOffset ++ "-L" ++ toString block.EndLine ++ ")"
  let blockRes : blockResult :=
    { diagramType := block.DiagramType, lineRange := lineRange, isValid := false,
      errors := [], blockNum := (i : Int) + 1 }
  match env.parse block.Source with
  | .error err =>
    { blocks := acc.blocks ++
        [{ blockRes with isValid := false, errors := ["parse error: " ++ err] }],
      stats := stats,
      hasValidationErrors := true }
  | .ok diagram =>
    let validationErrors := env.validate diagram strict
    if validationErrors.length = 0 then
      { blocks := acc.blocks ++ [{ blockRes with isValid := true }],
        stats := stats,
        hasValidationErrors := acc.hasValidationErrors }
    else
      { blocks := acc.blocks ++
          [{ blockRes with isValid := false,
                           errors := validationErrors.map env.errorText }],
        stats := stats,
        hasValidationErrors := true }

/-- The characters of the content other than space, tab, line feed and
carriage return: `trimmedContent` in `processFiles`. -/
def trimmedContent (content : String) : String :=
  String.mk (content.data.filter
    (fun ch => decide (ch ≠ ' ' ∧ ch ≠ '\t' ∧ ch ≠ '\n' ∧ ch ≠ '\r')))

/-- The body of the loop over the paths in `processFiles`: the result recorded
for the file, and whether the iteration sets `hasErrors`. -/
def processFile (env : Env) (strict errorOnEmpty : Bool) (path : String) : fileResult × Bool :=
  let result : fileResult :=
    { path := path, resultType := resultType.resultNoDiagrams, diagramCount := 0,
      blocks := [], stats := [], errorMsg := "" }
  match env.readFile path with
  | .error err =>
    ({ result with resultType := resultType.resultFileError, errorMsg := err }, true)
  | .ok content =>
    let detected := env.detectFileType path
    let fileType :=
      if detected = FileType.FileTypeMermaid ∧ containsMarkdownFences content = true then
        FileType.FileTypeMarkdown
      else detected
    match fileType with
    | .FileTypeMarkdown =>
      match env.extractFromMarkdown content with
      | .error err =>
        ({ result with resultType := resultType.resultParseError, errorMsg := err }, true)
      | .ok blocks =>
        if blocks.length = 0 then
          ({ result with resultType := resultType.resultNoDiagrams }, errorOnEmpty)
        else
          let scan := blocks.enum.foldl (checkBlock env strict)
            { blocks := [], stats := [], hasValidationErrors := false }
          if scan.hasValidationErrors then
            ({ result with diagramCount := blocks.length, stats := scan.stats,
                           blocks := scan.blocks,
                           resultType := resultType.resultValidationError }, true)
          else
            ({ result with diagramCount := blocks.length, stats := scan.stats,
                           blocks := scan.blocks,
                           resultType := resultType.resultSuccess }, false)
    | .FileTypeMermaid =>
      if trimmedContent content = "" then
        ({ result with resultType := resultType.resultNoDiagrams,
                       errorMsg := "empty .mmd file" }, true)
      else
        match env.parse content with
        | .error err =>
          ({ result with resultType := resultType.resultParseError, errorMsg := err }, true)
        | .ok diagram =>
          let diagramType := diagram.GetType
          let blockRes : blockResult :=
            { diagramType := diagramType, lineRange := "", isValid := false, errors := [],
              blockNum := 1 }
          let validationErrors := env.validate diagram strict
          if validationErrors.length = 0 then
            ({ result with stats := [(diagramType, 1)], diagramCount := 1,
                           resultType := resultType.resultSuccess,
                           blocks := [{ blockRes with isValid := true }] }, false)
          else
            ({ result with stats := [(diagramType, 1)], diagramCount := 1,
                           resultType := resultType.resultValidationError,
                           blocks := [{ blockRes with
                             isValid := false,
                             errors := validationErrors.map env.errorText }] }, true)
    | .other =>
      ({ result with resultType := resultType.resultUnsupportedType }, true)

/-- The locals `hasErrors` and `results` of `processFiles`. -/
structure FilesScan where
  hasErrors : Bool
  results : List fileResult

/-- One iteration of the loop over the paths in `processFiles`. -/
def processFiles.visit (env : Env) (strict errorOnEmpty : Bool) (acc : FilesScan)
    (path : String) : FilesScan :=
  let r := processFile env strict errorOnEmpty path
  { hasErrors := if r.2 then true else acc.hasErrors, results := acc.results ++ [r.1] }

/-- The results that `processFiles` collects and hands to
`printGroupedResults`. -/
def processFiles.results (env : Env) (paths : List String) (strict errorOnEmpty : Bool) :
    List fileResult :=
  (paths.foldl (processFiles.visit env strict errorOnEmpty)
    { hasErrors := false, results := [] }).results

/-- The function `processFiles`; the result is the exit code. -/
def processFiles (env : Env) (paths : List String) (strict errorOnEmpty : Bool) : Int :=
  let scan := paths.foldl (processFiles.visit env strict errorOnEmpty)
    { hasErrors := false, results := [] }
  if scan.hasErrors then 1 else 0

/-- A file that `processFiles` handles as markdown and in which the extractor
finds no block: it can be read, it is detected as markdown or it is a Mermaid
file that contains a markdown fence, and the extraction gives zero blocks. -/
def MarkdownWithoutBlocks (env : Env) (path : String) : Prop :=
  ∃ content : String, env.readFile path = .ok content ∧
    (env.detectFileType path = FileType.FileTypeMarkdown ∨
      (env.detectFileType path = FileType.FileTypeMermaid ∧
        containsMarkdownFences content = true)) ∧
    env.extractFromMarkdown content = .ok []

/-- A diagnostic of severity warning. -/
def styleWarning : ValidationError :=
  { Line := 2, Column := 5, Message := "prefer an explicit participant",
    Severity := Severity.SeverityWarning }

/-- A sequence diagram, as parsed from the source `sequenceDiagram`. -/
def sampleSequence : Diagram :=
  .sequence { Type_ := "sequence", Source := "sequenceDiagram",
              Pos := { Line := 1, Column := 1 } }

/-- A generic diagram, as parsed from the source `pie`. -/
def samplePie : Diagram :=
  .generic { Type_ := "pie", Source := "pie", Pos := { Line := 1, Column := 1 } }

/-- The two blocks of the markdown file `guide.md` of `sampleEnv`. -/
def sampleBlocks : List DiagramBlock :=
  [ { DiagramType := "pie", Source := "pie", LineOffset := 3, EndLine := 5 },
    { DiagramType := "sequence", Source := "sequenceDiagram", LineOffset := 9,
      EndLine := 11 } ]

/-- A small environment: five files, a parser that knows two sources, and a
validation in which every sequence diagram gets the one warning `styleWarning`
and every class diagram gets nothing. -/
def sampleEnv : Env :=
  { readFile := fun path =>
      if path = "empty.mmd" then .ok ""
      else if path = "blank.mmd" then .ok " \t\r\n\n"
      else if path = "notes.md" then .ok "# Notes\n\nNothing to draw.\n"
      else if path = "guide.md" then .ok "# Guide\n"
      else if path = "warn.mmd" then .ok "sequenceDiagram"
      else .error "no such file",
    readStdin := .ok "# Notes\n\nNothing to draw.\n",
    detectFileType := fun path =>
      if path = "empty.mmd" ∨ path = "blank.mmd" ∨ path = "warn.mmd" then
        FileType.FileTypeMermaid
      else if path = "notes.md" ∨ path = "guide.md" then FileType.FileTypeMarkdown
      else FileType.other,
    extractFromMarkdown := fun content =>
      if content = "# Guide\n" then .ok sampleBlocks else .ok [],
    parse := fun source =>
      if source = "sequenceDiagram" then .ok sampleSequence
      else if source = "pie" then .ok samplePie
      else .error "unexpected token",
    validate := Validate
      (catalogsWith plainQuote sampleWording (fun _ _ => [styleWarning]) (fun _ _ => [])),
    errorText := ValidationError.Error }

/-- The map literal `displayNames` of `diagramTypeDisplayName`, entry by entry
(a map literal cannot repeat a key). -/
def displayNames : List (String × String) :=
  [ ("flowchart", "Flowchart"),
    ("graph", "Flow Chart"),
    ("sequence", "Sequence Diagram"),
    ("class", "Class Diagram"),
    ("state", "State Diagram"),
    ("stateDiagram-v2", "State Diagram"),
    ("er", "ER Diagram"),
    ("gantt", "Gantt Chart"),
    ("pie", "Pie Chart"),
    ("journey", "User Journey"),
    ("timeline", "Timeline"),
    ("gitGraph", "Git Graph"),
    ("mindmap", "Mindmap"),
    ("sankey", "Sankey Diagram"),
    ("quadrantChart", "Quadrant Chart"),
    ("xyChart", "XY Chart"),
    ("c4Context", "C4 Context Diagram"),
    ("c4Container", "C4 Container Diagram"),
    ("c4Component", "C4 Component Diagram"),
    ("c4Dynamic", "C4 Dynamic Diagram"),
    ("c4Deployment", "C4 Deployment Diagram") ]

/-- The function `diagramTypeDisplayName`. -/
def diagramTypeDisplayName (diagType : String) : String :=
  match mapLookup displayNames diagType with
  | some displayName => displayName
  | none => diagType

/-- The slice expression `s[low:high]` on the bytes of a string: it panics,
which is `none` here, unless `0 ≤ low ≤ high ≤ len(s)`. -/
def goSlice (s : List Nat) (low high : Int) : Option (List Nat) :=
  if 0 ≤ low ∧ low ≤ high ∧ high ≤ (s.length : Int) then
    some ((s.drop low.toNat).take (high - low).toNat)
  else none

/-- The loop of `findSubstring` from the value `i` of its counter on, on the
bytes of `s` and `substr`, with every slice checked: `none` is a panic of
`s[i:i+len(substr)]`. -/
def findSubstring.loop (s substr : List Nat) (i : Int) : Option Bool :=
  if i ≤ (s.length : Int) - (substr.length : Int) then
    match goSlice s i (i + (substr.length : Int)) with
    | none => none
    | some window =>
      if window = substr then some true else findSubstring.loop s substr (i + 1)
  else some false
termination_by ((s.length : Int) - (substr.length : Int) + 1 - i).toNat
decreasing_by omega

/-- The function `findSubstring` with every slice checked: `none` is a panic,
`some b` is the return of `b`. -/
def findSubstring.checked (s substr : String) : Option Bool :=
  findSubstring.loop (goBytes s) (goBytes substr) 0

/-- The file `fenced.mmd` of `fencedEnv`: a Mermaid file that wraps its diagram
in a markdown fence. -/
def fencedContent : String :=
  "```mermaid\nsequenceDiagram\n```\n"

/-- The environment `sampleEnv` with one more file, `fenced.mmd`, detected as a
Mermaid file, from which the extractor takes the one block between the fences;
the parser does not accept the content with its fences. -/
def fencedEnv : Env :=
  { sampleEnv with
    readFile := fun path =>
      if path = "fenced.mmd" then .ok fencedContent else sampleEnv.readFile path,
    detectFileType := fun path =>
      if path = "fenced.mmd" then FileType.FileTypeMermaid
      else sampleEnv.detectFileType path,
    extractFromMarkdown := fun content =>
      if content = fencedContent then
        .ok [{ DiagramType := "sequence", Source := "sequenceDiagram", LineOffset := 1,
               EndLine := 3 }]
      else sampleEnv.extractFromMarkdown content }

/-! ## The state rules on Go values: nil pointers and panics -/

/-- How a run of a Go function fails. -/
inductive Panic where
  | nilDereference
deriving DecidableEq, Repr

/-- A value of the interface `ast.StateStmt` as Go has it: the nil interface,
or a pointer of one of the nine statement types, `none` being the nil pointer
of that type (`(*State)(nil)` is such a value). -/
inductive StmtValue where
  | nilInterface
  | state (p : Option State)
  | transition (p : Option Transition)
  | startState (p : Option StartState)
  | endState (p : Option EndState)
  | fork (p : Option Fork)
  | join (p : Option Join)
  | choice (p : Option Choice)
  | stateNote (p : Option StateNote)
  | stateComment (p : Option StateComment)
deriving DecidableEq, Repr

/-- What a non-nil `*ast.StateDiagram` points to, its statements being any
values of the interface; the argument of `ValidateState` is an
`Option StateDiagramValue`, `none` being the nil pointer. -/
structure StateDiagramValue where
  Type_ : String
  Source : String
  Pos : Position
  Statements : List StmtValue
deriving DecidableEq, Repr

/-- A loop `for _, stmt := range statements` whose body may panic: the body
runs once per element, in order, and a panic ends the run. -/
def rangeLoop {σ : Type} (body : σ → StmtValue → Except Panic σ) :
    List StmtValue → σ → Except Panic σ
  | [], acc => .ok acc
  | stmt :: rest, acc =>
    match body acc stmt with
    | .error e => .error e
    | .ok acc' => rangeLoop body rest acc'

/-- One iteration of the loop in `NoDuplicateStates.ValidateState` on a Go
value: the assertion `stmt.(*ast.State)` succeeds for every pointer of that
type, the nil one included, and `state.ID` then dereferences it. -/
def NoDuplicateStates.visitValue (quote : String → String) (acc : DupScan)
    (stmt : StmtValue) : Except Panic DupScan :=
  match stmt with
  | .state none => .error Panic.nilDereference
  | .state (some state) => .ok (NoDuplicateStates.visit quote acc (.state state))
  | _ => .ok acc

/-- The method `NoDuplicateStates.ValidateState` on Go values: `diagram.Statements`
dereferences the diagram, the loop dereferences every `*ast.State`. -/
def NoDuplicateStates.runValidateState (quote : String → String)
    (diagram : Option StateDiagramValue) : Except Panic (List ValidationError) :=
  match diagram with
  | none => .error Panic.nilDereference
  | some d =>
    match rangeLoop (NoDuplicateStates.visitValue quote) d.Statements ⟨[], []⟩ with
    | .error e => .error e
    | .ok acc => .ok acc.errors

/-- One iteration of the first loop of `ValidStateReferences.ValidateState` on
a Go value: each case of the type switch dereferences its pointer with `s.ID`;
a value of another type, or the nil interface, matches no case. -/
def ValidStateReferences.collectDeclaredValue (definedStates : List (String × Bool))
    (stmt : StmtValue) : Except Panic (List (String × Bool)) :=
  match stmt with
  | .state (some s) => .ok (mapStore definedStates s.ID true)
  | .fork (some s) => .ok (mapStore definedStates s.ID true)
  | .join (some s) => .ok (mapStore definedStates s.ID true)
  | .choice (some s) => .ok (mapStore definedStates s.ID true)
  | .state none => .error Panic.nilDereference
  | .fork none => .error Panic.nilDereference
  | .join none => .error Panic.nilDereference
  | .choice none => .error Panic.nilDereference
  | _ => .ok definedStates

/-- One iteration of the second loop of `ValidStateReferences.ValidateState` on
a Go value: `trans.From` dereferences every `*ast.Transition`. -/
def ValidStateReferences.collectEndpointsValue (definedStates : List (String × Bool))
    (stmt : StmtValue) : Except Panic (List (String × Bool)) :=
  match stmt with
  | .transition (some tr) => .ok (mapStore (mapStore definedStates tr.From true) tr.To true)
  | .transition none => .error Panic.nilDereference
  | _ => .ok definedStates

/-- The method `ValidStateReferences.ValidateState` on Go values: the two
loops one after the other, then `errors` as declared. -/
def ValidStateReferences.runValidateState (diagram : Option StateDiagramValue) :
    Except Panic (List ValidationError) :=
  match diagram with
  | none => .error Panic.nilDereference
  | some d =>
    match rangeLoop ValidStateReferences.collectDeclaredValue d.Statements [] with
    | .error e => .error e
    | .ok declared =>
      match rangeLoop ValidStateReferences.collectEndpointsValue d.Statements declared with
      | .error e => .error e
      | .ok _ => .ok []

/-- The Go value of a statement: the non-nil pointer to it. -/
def StateStmt.toValue : StateStmt → StmtValue
  | .state s => .state (some s)
  | .transition t => .transition (some t)
  | .startState s => .startState (some s)
  | .endState s => .endState (some s)
  | .fork s => .fork (some s)
  | .join s => .join (some s)
  | .choice s => .choice (some s)
  | .stateNote s => .stateNote (some s)
  | .stateComment s => .stateComment (some s)

/-- The Go value of a diagram: the non-nil pointer to it, its statements
non-nil pointers. -/
def StateDiagram.toValue (diagram : StateDiagram) : Option StateDiagramValue :=
  some { Type_ := diagram.Type_, Source := diagram.Source, Pos := diagram.Pos,
         Statements := diagram.Statements.map StateStmt.toValue }

/-- The nil pointers that `NoDuplicateStates.ValidateState` dereferences. -/
def NoDuplicateStates.Dereferences (stmt : StmtValue) : Prop :=
  stmt = .state none

/-- The nil pointers that `ValidStateReferences.ValidateState` dereferences. -/
def ValidStateReferences.Dereferences (stmt : StmtValue) : Prop :=
  stmt = .state none ∨ stmt = .fork none ∨ stmt = .join none ∨ stmt = .choice none ∨
    stmt = .transition none

/-- Diagram whose one statement is the nil pointer `(*ast.State)(nil)`. -/
def nilStateDiagram : Option StateDiagramValue :=
  some { Type_ := "stateDiagram-v2", Source := "", Pos := { Line := 1, Column := 1 },
         Statements := [.state none] }

/-! ## Link lines as written -/

/-- A run of blanks between two tokens of a line. -/
def IsBlanks (b : List Char) : Prop :=
  ∀ c ∈ b, isBlank c = true

/-- A pipe-delimited link label as written, `|text|`; nothing when the link
has no label. -/
def writtenPipe (label : Option (List Char)) : List Char :=
  match label with
  | some text => '|' :: (text ++ ['|'])
  | none => []

/-- The label a link is read with: the text between the pipes, verbatim. -/
def readPipe (label : Option (List Char)) : String :=
  match label with
  | some text => String.mk text
  | none => ""

/-- A link label is written without a pipe or a line feed in its text. -/
def IsPipeText (label : Option (List Char)) : Prop :=
  ∀ text ∈ label, ∀ c ∈ text, c ≠ '|' ∧ c ≠ '\n'

/-- A link line as written, `X<lx> arrow |label| Y<ly>`, with the blanks `b₁`
to `b₄` between and after its tokens (any of them may be empty). -/
def writtenLine (x : List Char) (lx : Option (List Char × (List Char × List Char × String)))
    (b₁ arrow b₂ : List Char) (label : Option (List Char)) (b₃ y : List Char)
    (ly : Option (List Char × (List Char × List Char × String))) (b₄ : List Char) :
    List Char :=
  x ++ (writtenLabel lx ++ (b₁ ++ (arrow ++ (b₂ ++ (writtenPipe label ++
    (b₃ ++ (y ++ (writtenLabel ly ++ b₄))))))))

/-- The text starts with no identifier character and no opening bracket, or is
empty: an identifier and a missing label end before it. -/
def EndsToken (tail : List Char) : Prop :=
  ∀ c ∈ tail.head?, isIdentChar c = false ∧ c ≠ '[' ∧ c ≠ '(' ∧ c ≠ '{'

/-- The node definition that follows a link from `X` to `Y`: the one of `Y`,
unless `Y` is `X` and `X` has just been defined by its own inline label. -/
def nodeDefAfter (x : List Char)
    (lx : Option (List Char × (List Char × List Char × String))) (y : List Char)
    (ly : Option (List Char × (List Char × List Char × String))) : List Emitted :=
  if x = y ∧ lx.isSome = true then [] else expectedNodeDef y ly

/-! ## Lemmas on maps and on the earliest State statement -/

theorem mapLookup_filter_ne {V : Type} (m : List (String × V)) (k x : String) (h : k ≠ x) :
    mapLookup (m.filter (fun e => decide (e.1 ≠ k))) x = mapLookup m x := by
  induction m with
  | nil => rfl
  | cons e rest ih =>
    obtain ⟨k', v⟩ := e
    by_cases hk : k' = k
    · subst hk
      rw [List.filter_cons_of_neg (by simp)]
      rw [ih]
      simp [mapLookup, h]
    · rw [List.filter_cons_of_pos (by simp [hk])]
      simp only [mapLookup, ih]

theorem mapLookup_mapStore {V : Type} (m : List (String × V)) (k x : String) (v : V) :
    mapLookup (mapStore m k v) x = if k = x then some v else mapLookup m x := by
  by_cases h : k = x
  · simp [mapStore, mapLookup, h]
  · simp only [mapStore, mapLookup, h, if_false, mapLookup_filter_ne m k x h]

theorem firstState_snoc (l : List StateStmt) (a : StateStmt) (x : String) :
    firstState (l ++ [a]) x = (firstState l x).or (firstState [a] x) := by
  simp [firstState, List.findSome?_append]

theorem stateIDs_snoc (l : List StateStmt) (a : StateStmt) :
    stateIDs (l ++ [a]) = stateIDs l ++ stateIDs [a] := by
  simp [stateIDs, List.filterMap_append]

theorem length_stateIDs (l : List StateStmt) :
    (stateIDs l).length = l.countP isStateStmt := by
  induction l with
  | nil => rfl
  | cons a l ih =>
    cases a <;> simp [stateIDs, isStateStmt, List.filterMap_cons] at ih ⊢ <;> exact ih

theorem firstState_isSome_iff (l : List StateStmt) (x : String) :
    (firstState l x).isSome ↔ x ∈ stateIDs l := by
  unfold firstState stateIDs
  rw [List.findSome?_isSome_iff, List.mem_filterMap]
  constructor
  · rintro ⟨t, ht, h⟩
    refine ⟨t, ht, ?_⟩
    cases t <;> simp at h ⊢
    exact h
  · rintro ⟨t, ht, h⟩
    refine ⟨t, ht, ?_⟩
    cases t <;> simp at h ⊢
    exact h

theorem firstState_eq_none_iff (l : List StateStmt) (x : String) :
    firstState l x = none ↔ x ∉ stateIDs l := by
  rw [← firstState_isSome_iff]
  cases firstState l x <;> simp

/-! ## The loop invariant of `NoDuplicateStates.ValidateState` -/

theorem reportAt_snoc_lt (quote : String → String) (l : List StateStmt) (a : StateStmt)
    (i : Nat) (h : i < l.length) : reportAt quote (l ++ [a]) i = reportAt quote l i := by
  unfold reportAt
  rw [List.getElem?_append_left h, List.take_append_of_le_length (Nat.le_of_lt h)]

theorem reportAt_snoc_length (quote : String → String) (l : List StateStmt) (a : StateStmt) :
    reportAt quote (l ++ [a]) l.length =
      match a with
      | .state s => (firstState l s.ID).map (fun f =>
          { Line := s.Pos.Line,
            Column := s.Pos.Column,
            Message := duplicateStateMessage quote s.ID f.Pos.Line,
            Severity := Severity.SeverityError })
      | _ => none := by
  unfold reportAt
  rw [List.getElem?_append_right (Nat.le_refl _)]
  cases a <;> simp [List.take_left]

theorem reported_snoc (quote : String → String) (l : List StateStmt) (a : StateStmt) :
    (List.range (l ++ [a]).length).filterMap (reportAt quote (l ++ [a])) =
      (List.range l.length).filterMap (reportAt quote l) ++
        (reportAt quote (l ++ [a]) l.length).toList := by
  rw [List.length_append, List.length_singleton, List.range_succ, List.filterMap_append]
  congr 1
  · apply List.filterMap_congr
    intro i hi
    exact reportAt_snoc_lt quote l a i (List.mem_range.mp hi)

theorem visit_state_none (quote : String → String) (acc : DupScan) (s : State)
    (h : mapLookup acc.seen s.ID = none) :
    NoDuplicateStates.visit quote acc (.state s) =
      { errors := acc.errors, seen := mapStore acc.seen s.ID s.Pos } := by
  simp only [NoDuplicateStates.visit, h]

theorem visit_state_some (quote : String → String) (acc : DupScan) (s : State)
    (pos : Position) (h : mapLookup acc.seen s.ID = some pos) :
    NoDuplicateStates.visit quote acc (.state s) =
      { errors := acc.errors ++ [{
          Line := s.Pos.Line,
          Column := s.Pos.Column,
          Message := duplicateStateMessage quote s.ID pos.Line,
          Severity := Severity.SeverityError }],
        seen := acc.seen } := by
  simp only [NoDuplicateStates.visit, h]

theorem toFinset_snoc (l : List String) (x : String) :
    (l ++ [x]).toFinset = insert x l.toFinset := by
  ext y
  simp [or_comm]

/-- After the loop has visited the statements `pre`: `seen` holds, for each ID,
the position of its earliest State statement; `errors` is the list of
diagnostics owed to the statements visited; and the diagnostics and the
distinct IDs together count the State statements. -/
theorem scan_invariant (quote : String → String) (pre : List StateStmt) :
    (∀ x, mapLookup (pre.foldl (NoDuplicateStates.visit quote) ⟨[], []⟩).seen x =
        (firstState pre x).map (fun f => f.Pos)) ∧
    (pre.foldl (NoDuplicateStates.visit quote) ⟨[], []⟩).errors =
        (List.range pre.length).filterMap (reportAt quote pre) ∧
    (pre.foldl (NoDuplicateStates.visit quote) ⟨[], []⟩).errors.length +
        (stateIDs pre).toFinset.card = (stateIDs pre).length := by
  induction pre using List.reverseRecOn with
  | nil => simp [mapLookup, firstState, stateIDs]
  | append_singleton l a ih =>
    obtain ⟨hseen, herr, hcount⟩ := ih
    rw [List.foldl_append, List.foldl_cons, List.foldl_nil, reported_snoc,
      reportAt_snoc_length, stateIDs_snoc]
    generalize List.foldl (NoDuplicateStates.visit quote) ⟨[], []⟩ l = st at hseen herr hcount
    cases a with
    | state s =>
      have hs := hseen s.ID
      have hids : stateIDs [StateStmt.state s] = [s.ID] := rfl
      have hfirst : ∀ x, firstState [StateStmt.state s] x = if s.ID = x then some s else none := by
        intro x
        by_cases hx : s.ID = x <;> simp [firstState, hx]
      rw [hids, toFinset_snoc, List.length_append, List.length_singleton]
      cases hf : firstState l s.ID with
      | none =>
        rw [hf] at hs
        have hnot : s.ID ∉ stateIDs l := (firstState_eq_none_iff l s.ID).mp hf
        rw [visit_state_none quote st s hs]
        refine ⟨?_, by simp [hf, herr], ?_⟩
        · intro x
          rw [mapLookup_mapStore, firstState_snoc, hseen x, hfirst]
          by_cases hx : s.ID = x
          · subst hx
            rw [hf]
            simp
          · cases firstState l x <;> simp [hx]
        · rw [Finset.card_insert_of_not_mem (by simpa using hnot)]
          simp only []
          omega
      | some f =>
        rw [hf] at hs
        have hmem : s.ID ∈ stateIDs l := (firstState_isSome_iff l s.ID).mp (by simp [hf])
        rw [visit_state_some quote st s f.Pos hs]
        refine ⟨?_, by simp [hf, herr], ?_⟩
        · intro x
          rw [firstState_snoc, hseen x, hfirst]
          by_cases hx : s.ID = x
          · subst hx
            rw [hf]
            simp
          · cases firstState l x <;> simp [hx]
        · rw [Finset.insert_eq_of_mem (by simpa using hmem)]
          simp only [List.length_append, List.length_singleton]
          omega
    | _ =>
      simp only [NoDuplicateStates.visit]
      refine ⟨?_, by simpa using herr, ?_⟩
      · intro x
        rw [firstState_snoc, hseen x]
        cases firstState l x <;> simp [firstState]
      · simpa [stateIDs] using hcount

/-! ## What the loop returns -/

theorem validateState_eq_reported (quote : String → String) (diagram : StateDiagram) :
    NoDuplicateStates.ValidateState quote diagram =
      (List.range diagram.Statements.length).filterMap (reportAt quote diagram.Statements) :=
  (scan_invariant quote diagram.Statements).2.1

theorem validateState_length_add_card (quote : String → String) (diagram : StateDiagram) :
    (NoDuplicateStates.ValidateState quote diagram).length +
        (stateIDs diagram.Statements).toFinset.card = (stateIDs diagram.Statements).length :=
  (scan_invariant quote diagram.Statements).2.2

/-- The state found by `firstState` is a State statement with the ID asked
for, and no State statement before it has that ID. -/
theorem firstState_eq_some (l : List StateStmt) (x : String) (f : State)
    (h : firstState l x = some f) :
    ∃ j : Nat, l[j]? = some (StateStmt.state f) ∧ f.ID = x ∧
      ∀ (j' : Nat) (s' : State), j' < j → l[j']? = some (StateStmt.state s') → s'.ID ≠ x := by
  induction l with
  | nil => simp [firstState] at h
  | cons a l ih =>
    by_cases ha : ∃ s, a = .state s ∧ s.ID = x
    · obtain ⟨s, rfl, hs⟩ := ha
      have : s = f := by simpa [firstState, hs] using h
      subst this
      exact ⟨0, by simp, hs, fun j' s' hj' => absurd hj' (Nat.not_lt_zero _)⟩
    · have hnone : firstState (a :: l) x = firstState l x := by
        cases a with
        | state s =>
          have : s.ID ≠ x := fun hx => ha ⟨s, rfl, hx⟩
          simp [firstState, this]
        | _ => simp [firstState]
      rw [hnone] at h
      obtain ⟨j, hj, hid, hmin⟩ := ih h
      refine ⟨j + 1, by simpa using hj, hid, ?_⟩
      intro j' s' hj' hget
      cases j' with
      | zero =>
        intro hx
        simp at hget
        exact ha ⟨s', hget, hx⟩
      | succ k =>
        simp at hget
        exact hmin k s' (by omega) hget

theorem firstState_take_eq_some (l : List StateStmt) (i : Nat) (x : String) (f : State)
    (h : firstState (l.take i) x = some f) :
    ∃ j : Nat, j < i ∧ l[j]? = some (StateStmt.state f) ∧ f.ID = x ∧
      ∀ (j' : Nat) (s' : State), j' < j → l[j']? = some (StateStmt.state s') → s'.ID ≠ x := by
  obtain ⟨j, hj, hid, hmin⟩ := firstState_eq_some (l.take i) x f h
  rw [List.getElem?_take] at hj
  by_cases hji : j < i
  · rw [if_pos hji] at hj
    refine ⟨j, hji, hj, hid, ?_⟩
    intro j' s' hj' hget
    apply hmin j' s' hj'
    rw [List.getElem?_take_of_lt (by omega)]
    exact hget
  · rw [if_neg hji] at hj
    cases hj

theorem firstState_isSome_of_getElem? (l : List StateStmt) (j : Nat) (s : State)
    (h : l[j]? = some (StateStmt.state s)) : (firstState l s.ID).isSome := by
  rw [firstState_isSome_iff]
  unfold stateIDs
  rw [List.mem_filterMap]
  exact ⟨.state s, List.getElem?_mem h, rfl⟩

/-- What `reportAt` returns, spelled out on the statement list. -/
theorem reportAt_eq_some (quote : String → String) (l : List StateStmt) (i : Nat)
    (e : ValidationError) (h : reportAt quote l i = some e) :
    ∃ (s f : State) (j : Nat), l[i]? = some (StateStmt.state s) ∧ j < i ∧
      l[j]? = some (StateStmt.state f) ∧ f.ID = s.ID ∧
      (∀ (j' : Nat) (s' : State), j' < j → l[j']? = some (StateStmt.state s') → s'.ID ≠ s.ID) ∧
      e = { Line := s.Pos.Line,
            Column := s.Pos.Column,
            Message := duplicateStateMessage quote s.ID f.Pos.Line,
            Severity := Severity.SeverityError } := by
  unfold reportAt at h
  split at h
  · rename_i s hs
    cases hf : firstState (l.take i) s.ID with
    | none => simp [hf] at h
    | some f =>
      obtain ⟨j, hji, hj, hid, hmin⟩ := firstState_take_eq_some l i s.ID f hf
      refine ⟨s, f, j, hs, hji, hj, hid, hmin, ?_⟩
      simpa [hf] using h.symm
  · cases h

theorem repeatsAt_iff (l : List StateStmt) (i : Nat) : repeatsAt l i = true ↔ RepeatsAt l i := by
  unfold repeatsAt RepeatsAt
  constructor
  · intro h
    split at h
    · rename_i s hs
      rw [List.any_eq_true] at h
      obtain ⟨t, ht, hts⟩ := h
      obtain ⟨j, hj⟩ := List.getElem?_of_mem ht
      rw [List.getElem?_take] at hj
      by_cases hji : j < i
      · rw [if_pos hji] at hj
        cases t with
        | state s' => exact ⟨s, hs, j, s', hji, hj, by simpa using hts⟩
        | _ => simp at hts
      · rw [if_neg hji] at hj
        cases hj
    · cases h
  · rintro ⟨s, hs, j, s', hji, hj, hid⟩
    rw [hs]
    simp only [List.any_eq_true]
    refine ⟨.state s', ?_, by simpa using hid⟩
    have hj' : (l.take i)[j]? = some (StateStmt.state s') := by
      rw [List.getElem?_take_of_lt hji]
      exact hj
    exact List.getElem?_mem hj'

theorem reportAt_isSome (quote : String → String) (l : List StateStmt) (i : Nat) :
    (reportAt quote l i).isSome = repeatsAt l i := by
  rw [Bool.eq_iff_iff, repeatsAt_iff]
  constructor
  · intro h
    obtain ⟨e, he⟩ := Option.isSome_iff_exists.mp h
    obtain ⟨s, f, j, hs, hji, hj, hid, _, _⟩ := reportAt_eq_some quote l i e he
    exact ⟨s, hs, j, f, hji, hj, hid⟩
  · rintro ⟨s, hs, j, s', hji, hj, hid⟩
    unfold reportAt
    rw [hs]
    have hj' : (l.take i)[j]? = some (StateStmt.state s') := by
      rw [List.getElem?_take_of_lt hji]
      exact hj
    have := firstState_isSome_of_getElem? (l.take i) j s' hj'
    rw [hid] at this
    simpa using this

/-- Filtering a list for the arguments on which `f` is defined and collecting
the values of `f` pair up element by element. -/
theorem forall₂_filter_filterMap {α β : Type} (f : α → Option β) (l : List α) :
    List.Forall₂ (fun a b => f a = some b) (l.filter (fun a => (f a).isSome)) (l.filterMap f) := by
  induction l with
  | nil => exact List.Forall₂.nil
  | cons a l ih =>
    cases h : f a with
    | none => simpa [List.filter, List.filterMap, h] using ih
    | some b =>
      simp only [List.filter, List.filterMap, h, Option.isSome_some]
      exact List.Forall₂.cons h ih

/-- The diagnostics are, element by element, those owed to the repeating State
statements taken in increasing index order. -/
theorem validateState_forall₂ (quote : String → String) (diagram : StateDiagram) :
    List.Forall₂ (fun i e => reportAt quote diagram.Statements i = some e)
      (dupIndices diagram.Statements) (NoDuplicateStates.ValidateState quote diagram) := by
  rw [validateState_eq_reported]
  have h : dupIndices diagram.Statements =
      (List.range diagram.Statements.length).filter
        (fun i => (reportAt quote diagram.Statements i).isSome) := by
    unfold dupIndices
    congr 1
    funext i
    exact (reportAt_isSome quote diagram.Statements i).symm
  rw [h]
  exact forall₂_filter_filterMap _ _

/-! ## The rule `no-duplicate-states` -/

/-- C1: the number of diagnostics of `NoDuplicateStates.ValidateState` is the
number of State statements minus the number of distinct IDs among them; in
particular, when one ID is shared by `N ≥ 2` State statements and every other
ID occurs at most once, there are exactly `N - 1` diagnostics. -/
theorem noDuplicateStates_length (quote : String → String) (diagram : StateDiagram) :
    (NoDuplicateStates.ValidateState quote diagram).length =
        diagram.Statements.countP isStateStmt - (stateIDs diagram.Statements).dedup.length ∧
    ∀ (x : String) (N : Nat), 2 ≤ N → (stateIDs diagram.Statements).count x = N →
      (∀ y : String, y ≠ x → (stateIDs diagram.Statements).count y ≤ 1) →
      (NoDuplicateStates.ValidateState quote diagram).length = N - 1 := by
  have hlen := validateState_length_add_card quote diagram
  have hstates := length_stateIDs diagram.Statements
  generalize stateIDs diagram.Statements = ids at hlen hstates
  refine ⟨?_, ?_⟩
  · rw [← List.card_toFinset, ← hstates]
    omega
  · intro x N hN hx hothers
    have hsum : ∑ a in ids.toFinset, ids.count a = ids.length := by
      have h := Multiset.toFinset_sum_count_eq (ids : Multiset String)
      simp only [Multiset.coe_count, Multiset.coe_card] at h
      exact h
    have hxmem : x ∈ ids.toFinset := by
      rw [List.mem_toFinset]
      exact List.count_pos_iff.mp (by omega)
    rw [← Finset.add_sum_erase _ _ hxmem] at hsum
    have hrest : ∑ a in ids.toFinset.erase x, ids.count a = (ids.toFinset.erase x).card := by
      rw [Finset.card_eq_sum_ones]
      apply Finset.sum_congr rfl
      intro y hy
      have hne : y ≠ x := Finset.ne_of_mem_erase hy
      have hmem : y ∈ ids := List.mem_toFinset.mp (Finset.mem_of_mem_erase hy)
      have h1 := hothers y hne
      have h2 : 0 < ids.count y := List.count_pos_iff.mpr hmem
      omega
    rw [hrest, Finset.card_erase_of_mem hxmem] at hsum
    have hpos : 0 < ids.toFinset.card := Finset.card_pos.mpr ⟨x, hxmem⟩
    omega

/-- Witness for C1: `tripleDiagram` declares `Still` three times and `Moving`
once (its fork named `Moving` is not a State statement). -/
theorem noDuplicateStates_length_witness :
    (NoDuplicateStates.ValidateState plainQuote tripleDiagram).length = 3 - 1 :=
  (noDuplicateStates_length plainQuote tripleDiagram).2 "Still" 3 (by decide) (by decide)
    (by
      intro y hy
      have hids : stateIDs tripleDiagram.Statements = ["Still", "Still", "Moving", "Still"] := by
        decide
      rw [hids]
      have hy' : ¬ ("Still" = y) := fun h => hy h.symm
      simp only [List.count_cons, List.count_nil, beq_iff_eq, hy', if_false]
      split <;> omega)

/-- C2: `NoDuplicateStates.ValidateState` returns the empty list exactly when
no two State statements of the diagram have the same ID. -/
theorem noDuplicateStates_eq_nil_iff (quote : String → String) (diagram : StateDiagram) :
    NoDuplicateStates.ValidateState quote diagram = [] ↔
      ∀ (i j : Nat) (s s' : State), i < j →
        diagram.Statements[i]? = some (StateStmt.state s) →
        diagram.Statements[j]? = some (StateStmt.state s') → s.ID ≠ s'.ID := by
  rw [validateState_eq_reported, List.filterMap_eq_nil_iff]
  constructor
  · intro h i j s s' hij hi hj hid
    have hrep : RepeatsAt diagram.Statements j := ⟨s', hj, i, s, hij, hi, hid⟩
    have hsome := reportAt_isSome quote diagram.Statements j
    rw [(repeatsAt_iff _ _).mpr hrep] at hsome
    have hjlt : j < diagram.Statements.length := by
      by_contra hge
      rw [List.getElem?_eq_none (by omega)] at hj
      cases hj
    rw [h j (List.mem_range.mpr hjlt)] at hsome
    cases hsome
  · intro h i _
    cases hr : reportAt quote diagram.Statements i with
    | none => rfl
    | some e =>
      obtain ⟨s, f, j, hs, hji, hj, hid, _, _⟩ := reportAt_eq_some quote _ i e hr
      exact absurd hid (h j i f s hji hj hs)

theorem mem_dupIndices_iff (l : List StateStmt) (i : Nat) :
    i ∈ dupIndices l ↔ RepeatsAt l i := by
  unfold dupIndices
  rw [List.mem_filter, List.mem_range, repeatsAt_iff]
  constructor
  · exact fun h => h.2
  · intro h
    refine ⟨?_, h⟩
    obtain ⟨s, hs, _⟩ := h
    by_contra hge
    rw [List.getElem?_eq_none (by omega)] at hs
    cases hs

/-- C3: the diagnostic for a repeating State statement with ID `x` has the
message `duplicate state ID <quoted x> (first defined at line L)`, where `L` is
the line of the earliest State statement with ID `x` (no State statement before
it has that ID), also for the third and later occurrences; on `sampleDiagram`
both later declarations of `Still` (lines 5 and 7) cite line 2. -/
theorem noDuplicateStates_message (quote : String → String) (diagram : StateDiagram) :
    List.Forall₂
      (fun i e => ∃ (s f : State) (j : Nat),
        diagram.Statements[i]? = some (StateStmt.state s) ∧
        j < i ∧ diagram.Statements[j]? = some (StateStmt.state f) ∧ f.ID = s.ID ∧
        (∀ (j' : Nat) (s' : State), j' < j →
          diagram.Statements[j']? = some (StateStmt.state s') → s'.ID ≠ s.ID) ∧
        e.Message = "duplicate state ID " ++ quote s.ID ++ " (first defined at line " ++
          toString f.Pos.Line ++ ")")
      (dupIndices diagram.Statements) (NoDuplicateStates.ValidateState quote diagram) ∧
    (NoDuplicateStates.ValidateState plainQuote sampleDiagram).map (fun e => e.Message) =
      [ "duplicate state ID \"Still\" (first defined at line 2)",
        "duplicate state ID \"Moving\" (first defined at line 3)",
        "duplicate state ID \"Still\" (first defined at line 2)" ] := by
  refine ⟨?_, by decide⟩
  refine (validateState_forall₂ quote diagram).imp ?_
  intro i e h
  obtain ⟨s, f, j, hs, hji, hj, hid, hmin, he⟩ := reportAt_eq_some quote _ i e h
  exact ⟨s, f, j, hs, hji, hj, hid, hmin, by rw [he]; rfl⟩

/-- C4: every diagnostic of `NoDuplicateStates` has severity error, and the
diagnostic for a repeating State statement carries the line and the column of
that statement (the later occurrence), unchanged. -/
theorem noDuplicateStates_position (quote : String → String) (diagram : StateDiagram) :
    (∀ e ∈ NoDuplicateStates.ValidateState quote diagram,
      e.Severity = Severity.SeverityError) ∧
    List.Forall₂
      (fun i e => ∃ s : State, diagram.Statements[i]? = some (StateStmt.state s) ∧
        RepeatsAt diagram.Statements i ∧
        e.Severity = Severity.SeverityError ∧
        e.Line = s.Pos.Line ∧ e.Column = s.Pos.Column)
      (dupIndices diagram.Statements) (NoDuplicateStates.ValidateState quote diagram) := by
  constructor
  · intro e he
    rw [validateState_eq_reported, List.mem_filterMap] at he
    obtain ⟨i, _, hi⟩ := he
    obtain ⟨s, f, j, _, _, _, _, _, rfl⟩ := reportAt_eq_some quote _ i e hi
    rfl
  · refine (validateState_forall₂ quote diagram).imp ?_
    intro i e h
    obtain ⟨s, f, j, hs, hji, hj, hid, _, he⟩ := reportAt_eq_some quote _ i e h
    exact ⟨s, hs, ⟨s, hs, j, f, hji, hj, hid⟩, by rw [he], by rw [he], by rw [he]⟩

/-- C5: the diagnostics of `NoDuplicateStates` are exactly one per State
statement preceded by a State statement with the same ID, in statement order:
the indices of these statements, taken in increasing order, and the diagnostics
have the same length and pair up, each diagnostic reporting the statement at
its index. -/
theorem noDuplicateStates_order (quote : String → String) (diagram : StateDiagram) :
    (dupIndices diagram.Statements).Pairwise (fun i j => i < j) ∧
    (∀ i : Nat, i ∈ dupIndices diagram.Statements ↔ RepeatsAt diagram.Statements i) ∧
    (NoDuplicateStates.ValidateState quote diagram).length =
      (dupIndices diagram.Statements).length ∧
    List.Forall₂
      (fun i e => ∃ (s : State) (L : Int),
        diagram.Statements[i]? = some (StateStmt.state s) ∧
        e = { Line := s.Pos.Line,
              Column := s.Pos.Column,
              Message := duplicateStateMessage quote s.ID L,
              Severity := Severity.SeverityError })
      (dupIndices diagram.Statements) (NoDuplicateStates.ValidateState quote diagram) := by
  refine ⟨?_, mem_dupIndices_iff _, (validateState_forall₂ quote diagram).length_eq.symm, ?_⟩
  · exact (List.pairwise_lt_range _).filter _
  · refine (validateState_forall₂ quote diagram).imp ?_
    intro i e h
    obtain ⟨s, f, j, hs, _, _, _, _, he⟩ := reportAt_eq_some quote _ i e h
    exact ⟨s, f.Pos.Line, hs, he⟩

/-! ## The rule `valid-state-references` and the catalogs -/

/-- C6: `ValidStateReferences.ValidateState` returns the empty list for every
state diagram, whatever its transitions name; `danglingDiagram`, whose
transition `A --> B` names two states that nothing declares, is an instance:
the rule records both endpoints in `definedStates` and reports nothing. -/
theorem validStateReferences_eq_nil :
    (∀ diagram : StateDiagram, ValidStateReferences.ValidateState diagram = []) ∧
    stateIDs danglingDiagram.Statements = [] ∧
    mapLookup (ValidStateReferences.definedStates danglingDiagram) "A" = some true ∧
    mapLookup (ValidStateReferences.definedStates danglingDiagram) "B" = some true ∧
    ValidStateReferences.ValidateState danglingDiagram = [] :=
  ⟨fun _ => rfl, by decide, by decide, by decide, rfl⟩

/-- C7: `StateDefaultRules` returns exactly two rules, named
`no-duplicate-states` and `valid-state-references` in this order. -/
theorem stateDefaultRules_names (quote : String → String) :
    (StateDefaultRules quote).length = 2 ∧
    (StateDefaultRules quote).map (fun r => r.Name) =
      ["no-duplicate-states", "valid-state-references"] :=
  ⟨rfl, rfl⟩

/-- C8: `StateStrictRules` returns the rules of `StateDefaultRules` in the same
order (two rules); each default rule is a strict rule, and whatever a validator
computes from a rule list and a diagram, in particular the concatenation of the
rules' diagnostics, is the same for both catalogs. -/
theorem stateStrictRules_eq_default (quote : String → String) :
    StateStrictRules quote = StateDefaultRules quote ∧
    (StateStrictRules quote).length = 2 ∧
    (∀ i : Nat, i < (StateDefaultRules quote).length →
      (StateStrictRules quote)[i]? = (StateDefaultRules quote)[i]?) ∧
    (∀ (run : List StateRule → StateDiagram → List ValidationError) (diagram : StateDiagram),
      run (StateStrictRules quote) diagram = run (StateDefaultRules quote) diagram) ∧
    ∀ diagram : StateDiagram,
      concatRuleDiagnostics (StateStrictRules quote) diagram =
        concatRuleDiagnostics (StateDefaultRules quote) diagram :=
  ⟨rfl, rfl, fun _ _ => rfl, fun _ _ => rfl, fun _ => rfl⟩

/-- C9: concatenating in list order the diagnostics of the rules of
`StateDefaultRules` gives the list of `NoDuplicateStates` alone; the second
rule contributes the empty list. -/
theorem stateDefaultRules_concat (quote : String → String) (diagram : StateDiagram) :
    concatRuleDiagnostics (StateDefaultRules quote) diagram =
      NoDuplicateStates.ValidateState quote diagram ∧
    (StateDefaultRules quote).map (fun r => r.ValidateState diagram) =
      [NoDuplicateStates.ValidateState quote diagram, []] := by
  constructor
  · simp [concatRuleDiagnostics, StateDefaultRules, ValidStateReferences.ValidateState]
  · rfl

/-- C10: two state diagrams with equal statement sequences get equal
diagnostic lists from `NoDuplicateStates` and from `ValidStateReferences`,
whatever their type tags, source texts and header positions. -/
theorem validateState_congr (quote : String → String) (d₁ d₂ : StateDiagram)
    (h : d₁.Statements = d₂.Statements) :
    NoDuplicateStates.ValidateState quote d₁ = NoDuplicateStates.ValidateState quote d₂ ∧
    ValidStateReferences.ValidateState d₁ = ValidStateReferences.ValidateState d₂ := by
  constructor
  · unfold NoDuplicateStates.ValidateState
    rw [h]
  · rfl

/-- Witness for C10: `sampleDiagram` and `relabelledDiagram` differ in type
tag, source text and header position and share their statements. -/
theorem validateState_congr_witness :
    sampleDiagram.Statements = relabelledDiagram.Statements ∧
    sampleDiagram.Type_ ≠ relabelledDiagram.Type_ ∧
    sampleDiagram.Source ≠ relabelledDiagram.Source ∧
    sampleDiagram.Pos ≠ relabelledDiagram.Pos ∧
    NoDuplicateStates.ValidateState plainQuote sampleDiagram =
      NoDuplicateStates.ValidateState plainQuote relabelledDiagram ∧
    ValidStateReferences.ValidateState sampleDiagram =
      ValidStateReferences.ValidateState relabelledDiagram :=
  ⟨rfl, by decide, by decide, by decide,
    validateState_congr plainQuote sampleDiagram relabelledDiagram rfl⟩

/-! ## Flowchart rules: node definitions of a diagram -/

theorem nodeDefsOf_cons (s : Statement) (rest : List Statement) :
    nodeDefsOf (s :: rest) = s.nodeDefs ++ nodeDefsOf rest := by
  rw [nodeDefsOf]

theorem mem_nodeDefsOf_of_mem (l : List Statement) (s : Statement) (n : NodeDef)
    (hs : s ∈ l) (hn : n ∈ s.nodeDefs) : n ∈ nodeDefsOf l := by
  induction l with
  | nil => cases hs
  | cons a l ih =>
    rw [nodeDefsOf_cons, List.mem_append]
    rcases List.mem_cons.mp hs with h | h
    · subst h
      exact Or.inl hn
    · exact Or.inr (ih h)

theorem mem_nodeDefsOf_of_defines (l : List Statement) (n : NodeDef) (h : Defines l n) :
    n ∈ nodeDefsOf l := by
  induction h with
  | here hmem =>
    exact mem_nodeDefsOf_of_mem _ _ _ hmem (by simp [Statement.nodeDefs])
  | nested hmem _ ih =>
    exact mem_nodeDefsOf_of_mem _ _ _ hmem (by simpa [Statement.nodeDefs] using ih)

mutual
theorem defines_of_mem_nodeDefs : ∀ (s : Statement) (n : NodeDef),
    n ∈ s.nodeDefs → Defines [s] n
  | .nodeDef m, n, h => by
    have hm : n = m := by simpa [Statement.nodeDefs] using h
    subst hm
    exact Defines.here (List.mem_singleton.mpr rfl)
  | .subgraph title body pos, n, h => by
    have hb : n ∈ nodeDefsOf body := by simpa [Statement.nodeDefs] using h
    exact Defines.nested (List.mem_singleton.mpr rfl) (defines_of_mem_nodeDefsOf body n hb)
  | .link _, n, h => by simp [Statement.nodeDefs] at h
  | .classDef _, n, h => by simp [Statement.nodeDefs] at h
  | .classAssignment _, n, h => by simp [Statement.nodeDefs] at h
  | .comment _, n, h => by simp [Statement.nodeDefs] at h
theorem defines_of_mem_nodeDefsOf : ∀ (l : List Statement) (n : NodeDef),
    n ∈ nodeDefsOf l → Defines l n
  | [], n, h => by simp [nodeDefsOf] at h
  | s :: rest, n, h => by
    rw [nodeDefsOf_cons, List.mem_append] at h
    rcases h with h | h
    · cases defines_of_mem_nodeDefs s n h with
      | here hmem =>
        have hs := List.mem_singleton.mp hmem
        subst hs
        exact Defines.here (List.mem_cons_self _ rest)
      | nested hmem hb =>
        have hs := List.mem_singleton.mp hmem
        subst hs
        exact Defines.nested (List.mem_cons_self _ rest) hb
    · cases defines_of_mem_nodeDefsOf rest n h with
      | here hmem => exact Defines.here (List.mem_cons_of_mem _ hmem)
      | nested hmem hb => exact Defines.nested (List.mem_cons_of_mem _ hmem) hb
end

/-- The traversal `nodeDefsOf` collects exactly the node definitions of the
diagram, those inside nested subgraphs included. -/
theorem mem_nodeDefsOf_iff (l : List Statement) (n : NodeDef) :
    n ∈ nodeDefsOf l ↔ Defines l n :=
  ⟨defines_of_mem_nodeDefsOf l n, mem_nodeDefsOf_of_defines l n⟩

/-! ## The flowchart rules -/

/-- C12: for a flowchart whose direction token is one of TB, TD, BT, RL, LR
the rule `valid-direction` returns no diagnostic, and for any other token it
returns exactly one diagnostic, of severity error. -/
theorem validDirection_spec (w : FlowchartWording) (flowchart : Flowchart) :
    (flowchart.Direction ∈ ["TB", "TD", "BT", "RL", "LR"] →
      ValidDirection.Validate w flowchart = []) ∧
    (flowchart.Direction ∉ ["TB", "TD", "BT", "RL", "LR"] →
      ∃ e : ValidationError, ValidDirection.Validate w flowchart = [e] ∧
        e.Severity = Severity.SeverityError) := by
  constructor
  · intro h
    unfold ValidDirection.Validate validDirections
    rw [if_pos h]
  · intro h
    unfold ValidDirection.Validate validDirections
    rw [if_neg h]
    exact ⟨_, rfl, rfl⟩

/-- Witness for C12: the token `TD` is accepted, the token `XY` of the test
gets one error. -/
theorem validDirection_spec_witness :
    ValidDirection.Validate sampleWording (flowchartOf "TD" []) = [] ∧
    ∃ e : ValidationError, ValidDirection.Validate sampleWording (flowchartOf "XY" []) = [e] ∧
      e.Severity = Severity.SeverityError :=
  ⟨(validDirection_spec sampleWording (flowchartOf "TD" [])).1 (by decide),
   (validDirection_spec sampleWording (flowchartOf "XY" [])).2 (by decide)⟩

theorem repeatedNodeDefs_countP (x : String) (defs : List NodeDef) (seen : List String) :
    (repeatedNodeDefs seen defs).countP (fun n => decide (n.ID = x)) =
      if x ∈ seen then defs.countP (fun n => decide (n.ID = x))
      else defs.countP (fun n => decide (n.ID = x)) - 1 := by
  induction defs generalizing seen with
  | nil => simp [repeatedNodeDefs]
  | cons n rest ih =>
    by_cases hseen : n.ID ∈ seen
    · rw [repeatedNodeDefs, if_pos hseen]
      by_cases hx : n.ID = x
      · subst hx
        simp [List.countP_cons, hseen, ih]
      · simp [List.countP_cons, hx, ih]
    · rw [repeatedNodeDefs, if_neg hseen, ih]
      by_cases hx : n.ID = x
      · subst hx
        simp [List.countP_cons, hseen]
      · have hx' : ¬ x = n.ID := fun h => hx h.symm
        simp [List.countP_cons, hx, hx']

theorem repeatedNodeDefs_sublist (defs : List NodeDef) (seen : List String) :
    (repeatedNodeDefs seen defs).Sublist defs := by
  induction defs generalizing seen with
  | nil => simp [repeatedNodeDefs]
  | cons n rest ih =>
    by_cases hseen : n.ID ∈ seen
    · rw [repeatedNodeDefs, if_pos hseen]
      exact (ih seen).cons₂ n
    · rw [repeatedNodeDefs, if_neg hseen]
      exact (ih _).cons n

theorem repeatedNodeDefs_eq_nil (defs : List NodeDef) (seen : List String)
    (hnodup : (defs.map (fun n => n.ID)).Nodup) (hfresh : ∀ n ∈ defs, n.ID ∉ seen) :
    repeatedNodeDefs seen defs = [] := by
  induction defs generalizing seen with
  | nil => rfl
  | cons n rest ih =>
    rw [repeatedNodeDefs, if_neg (hfresh n (List.mem_cons_self _ _))]
    rw [List.map_cons, List.nodup_cons] at hnodup
    apply ih _ hnodup.2
    intro m hm hmem
    rcases List.mem_cons.mp hmem with h | h
    · exact hnodup.1 (List.mem_map.mpr ⟨m, hm, h⟩)
    · exact hfresh m (List.mem_cons_of_mem _ hm) h

/-- C13: the diagnostics of `no-duplicate-node-ids` are those of the repeated
node definitions of the diagram, nested subgraphs included, in traversal order;
when `N ≥ 2` node definitions share the identifier `x`, exactly `N - 1` of the
repeated definitions, hence of the diagnostics, are for `x`; every diagnostic
is an error whose message contains `duplicate`; and there is no diagnostic
when all identifiers are distinct. -/
theorem noDuplicateNodeIDs_count (w : FlowchartWording) (flowchart : Flowchart) :
    NoDuplicateNodeIDs.Validate w flowchart =
      (repeatedNodeDefs [] (nodeDefsOf flowchart.Statements)).map (duplicateNodeError w) ∧
    (repeatedNodeDefs [] (nodeDefsOf flowchart.Statements)).Sublist
      (nodeDefsOf flowchart.Statements) ∧
    (∀ n : NodeDef, n ∈ nodeDefsOf flowchart.Statements ↔ Defines flowchart.Statements n) ∧
    (∀ (x : String) (N : Nat), 2 ≤ N →
      (nodeDefsOf flowchart.Statements).countP (fun n => decide (n.ID = x)) = N →
      (repeatedNodeDefs [] (nodeDefsOf flowchart.Statements)).countP
        (fun n => decide (n.ID = x)) = N - 1) ∧
    (∀ e ∈ NoDuplicateNodeIDs.Validate w flowchart,
      e.Severity = Severity.SeverityError ∧
      ∃ before after : String, e.Message = before ++ "duplicate" ++ after) ∧
    (((nodeDefsOf flowchart.Statements).map (fun n => n.ID)).Nodup →
      NoDuplicateNodeIDs.Validate w flowchart = []) := by
  refine ⟨rfl, repeatedNodeDefs_sublist _ _, mem_nodeDefsOf_iff _, ?_, ?_, ?_⟩
  · intro x N _ hN
    rw [repeatedNodeDefs_countP, if_neg (List.not_mem_nil x), hN]
  · intro e he
    unfold NoDuplicateNodeIDs.Validate at he
    obtain ⟨n, _, rfl⟩ := List.mem_map.mp he
    exact ⟨rfl, _, _, rfl⟩
  · intro hnodup
    unfold NoDuplicateNodeIDs.Validate
    rw [repeatedNodeDefs_eq_nil _ _ hnodup (fun _ _ => List.not_mem_nil _)]
    rfl

/-- Witness for C13: in `nestedDuplicateChart` the identifier `A` is defined at
top level and inside a subgraph, and the rule returns one diagnostic. -/
theorem noDuplicateNodeIDs_count_witness :
    (repeatedNodeDefs [] (nodeDefsOf nestedDuplicateChart.Statements)).countP
        (fun n => decide (n.ID = "A")) = 2 - 1 ∧
    (NoDuplicateNodeIDs.Validate sampleWording nestedDuplicateChart).map (fun e => e.Message) =
      ["duplicate node ID A"] :=
  ⟨(noDuplicateNodeIDs_count sampleWording nestedDuplicateChart).2.2.2.1 "A" 2
      (by decide) (by decide), by decide⟩

theorem noParentheses_ne_nil_iff (w : FlowchartWording) (flowchart : Flowchart) :
    NoParenthesesInLabels.Validate w flowchart ≠ [] ↔
      ∃ n : NodeDef, Defines flowchart.Statements n ∧
        ('(' ∈ n.Label.data ∨ ')' ∈ n.Label.data) := by
  unfold NoParenthesesInLabels.Validate
  rw [Ne, List.map_eq_nil_iff, List.filter_eq_nil_iff]
  constructor
  · intro h
    by_contra hnone
    apply h
    intro n hn hp
    apply hnone
    refine ⟨n, (mem_nodeDefsOf_iff _ _).mp hn, ?_⟩
    simp only [hasParenthesis, List.any_eq_true, Bool.or_eq_true, decide_eq_true_eq] at hp
    obtain ⟨c, hc, hc' | hc'⟩ := hp
    · exact Or.inl (hc' ▸ hc)
    · exact Or.inr (hc' ▸ hc)
  · rintro ⟨n, hdef, hp⟩ h
    apply h n ((mem_nodeDefsOf_iff _ _).mpr hdef)
    simp only [hasParenthesis, List.any_eq_true, Bool.or_eq_true, decide_eq_true_eq]
    rcases hp with hp | hp
    · exact ⟨_, hp, Or.inl rfl⟩
    · exact ⟨_, hp, Or.inr rfl⟩

theorem noParentheses_severity (w : FlowchartWording) (flowchart : Flowchart) :
    ∀ e ∈ NoParenthesesInLabels.Validate w flowchart, e.Severity = Severity.SeverityError := by
  intro e he
  unfold NoParenthesesInLabels.Validate at he
  obtain ⟨n, _, rfl⟩ := List.mem_map.mp he
  rfl

/-- C14: the rule `no-parentheses-in-labels` returns at least one error exactly
when some node definition, at top level or inside a subgraph nested to any
depth, has a label containing `(` or `)`; a label with only an opening or only
a closing parenthesis is flagged, an empty label is not, and a label inside a
subgraph is reached. -/
theorem noParenthesesInLabels_iff (w : FlowchartWording) (flowchart : Flowchart) :
    ((∃ e ∈ NoParenthesesInLabels.Validate w flowchart, e.Severity = Severity.SeverityError) ↔
      ∃ n : NodeDef, Defines flowchart.Statements n ∧
        ('(' ∈ n.Label.data ∨ ')' ∈ n.Label.data)) ∧
    (NoParenthesesInLabels.Validate w (labelChart "Label (incomplete")).length = 1 ∧
    (NoParenthesesInLabels.Validate w (labelChart "Label incomplete)")).length = 1 ∧
    (NoParenthesesInLabels.Validate w (labelChart "Label (with note)")).length = 1 ∧
    NoParenthesesInLabels.Validate w (labelChart "Simple Label") = [] ∧
    NoParenthesesInLabels.Validate w (labelChart "") = [] ∧
    (NoParenthesesInLabels.Validate w nestedLabelChart).length = 1 := by
  refine ⟨?_, rfl, rfl, rfl, rfl, rfl, rfl⟩
  rw [← noParentheses_ne_nil_iff w flowchart]
  constructor
  · rintro ⟨e, he, _⟩ hnil
    rw [hnil] at he
    cases he
  · intro hne
    cases h : NoParenthesesInLabels.Validate w flowchart with
    | nil => exact absurd h hne
    | cons e rest =>
      refine ⟨e, List.mem_cons_self _ _, ?_⟩
      exact noParentheses_severity w flowchart e (by rw [h]; exact List.mem_cons_self _ _)

theorem validateFlowchart_default (w : FlowchartWording) (flowchart : Flowchart) :
    validateFlowchart (DefaultRules w) flowchart =
      ValidDirection.Validate w flowchart ++ NoDuplicateNodeIDs.Validate w flowchart := by
  simp [validateFlowchart, DefaultRules, NoUndefinedNodes.Validate]

theorem validateFlowchart_strict (w : FlowchartWording) (flowchart : Flowchart) :
    validateFlowchart (StrictRules w) flowchart =
      ValidDirection.Validate w flowchart ++
        (NoParenthesesInLabels.Validate w flowchart ++
          NoDuplicateNodeIDs.Validate w flowchart) := by
  simp [validateFlowchart, StrictRules, NoUndefinedNodes.Validate]

/-- C20: every rule of the default flowchart catalog is in the strict catalog;
the strict catalog contains `no-parentheses-in-labels` and the default one does
not; the diagnostics under default rules form a sublist of those under strict
rules, so each is also produced under strict rules; and a flowchart with a
valid direction and distinct node identifiers, some label of which contains a
parenthesis, gets no diagnostic under default rules and at least one under
strict rules. -/
theorem strictRules_superset (w : FlowchartWording) :
    (∀ r ∈ DefaultRules w, r ∈ StrictRules w) ∧
    "no-parentheses-in-labels" ∈ (StrictRules w).map (fun r => r.Name) ∧
    "no-parentheses-in-labels" ∉ (DefaultRules w).map (fun r => r.Name) ∧
    (∀ flowchart : Flowchart,
      (validateFlowchart (DefaultRules w) flowchart).Sublist
        (validateFlowchart (StrictRules w) flowchart)) ∧
    (∀ (flowchart : Flowchart) (e : ValidationError),
      e ∈ validateFlowchart (DefaultRules w) flowchart →
      e ∈ validateFlowchart (StrictRules w) flowchart) ∧
    (∀ flowchart : Flowchart,
      flowchart.Direction ∈ ["TB", "TD", "BT", "RL", "LR"] →
      ((nodeDefsOf flowchart.Statements).map (fun n => n.ID)).Nodup →
      (∃ n : NodeDef, Defines flowchart.Statements n ∧
        ('(' ∈ n.Label.data ∨ ')' ∈ n.Label.data)) →
      validateFlowchart (DefaultRules w) flowchart = [] ∧
      validateFlowchart (StrictRules w) flowchart ≠ []) := by
  have hsub : ∀ flowchart : Flowchart,
      (validateFlowchart (DefaultRules w) flowchart).Sublist
        (validateFlowchart (StrictRules w) flowchart) := by
    intro flowchart
    rw [validateFlowchart_default, validateFlowchart_strict]
    exact (List.Sublist.refl _).append (List.sublist_append_right _ _)
  refine ⟨?_, by simp [StrictRules], by simp [DefaultRules], hsub,
    fun flowchart e he => (hsub flowchart).subset he, ?_⟩
  · intro r hr
    simp only [DefaultRules, List.mem_cons, List.mem_singleton, List.not_mem_nil, or_false] at hr
    rcases hr with rfl | rfl | rfl <;> simp [StrictRules]
  · intro flowchart hdir hnodup hparen
    rw [validateFlowchart_default, validateFlowchart_strict]
    have hd : ValidDirection.Validate w flowchart = [] := by
      unfold ValidDirection.Validate validDirections
      rw [if_pos hdir]
    have hn : NoDuplicateNodeIDs.Validate w flowchart = [] := by
      unfold NoDuplicateNodeIDs.Validate
      rw [repeatedNodeDefs_eq_nil _ _ hnodup (fun _ _ => List.not_mem_nil _)]
      rfl
    have hp := (noParentheses_ne_nil_iff w flowchart).mpr hparen
    rw [hd, hn]
    exact ⟨rfl, by simpa using hp⟩

/-- Witness for C20: `parenthesisChart`, the flowchart of the test, passes the
default rules and gets one diagnostic under the strict rules. -/
theorem strictRules_superset_witness :
    validateFlowchart (DefaultRules sampleWording) parenthesisChart = [] ∧
    validateFlowchart (StrictRules sampleWording) parenthesisChart ≠ [] ∧
    (validateFlowchart (StrictRules sampleWording) parenthesisChart).map (fun e => e.Message) =
      ["parentheses in label of A"] :=
  ⟨((strictRules_superset sampleWording).2.2.2.2.2 parenthesisChart (by decide) (by decide)
      ⟨nodeAt "A" "Node (with paren)" 2, Defines.here (List.Mem.head _), Or.inl (by decide)⟩).1,
   ((strictRules_superset sampleWording).2.2.2.2.2 parenthesisChart (by decide) (by decide)
      ⟨nodeAt "A" "Node (with paren)" 2, Defines.here (List.Mem.head _), Or.inl (by decide)⟩).2,
   by decide⟩

/-! ## The class rules -/

/-- Collecting the values of `f` where the test `p` fails yields as many
elements as the test fails on. -/
theorem length_filterMap_unless {α β : Type} (p : α → Prop) [DecidablePred p] (f : α → β)
    (l : List α) :
    (l.filterMap (fun a => if p a then none else some (f a))).length =
      l.countP (fun a => decide (¬ p a)) := by
  induction l with
  | nil => rfl
  | cons a l ih =>
    by_cases h : p a
    · simp [List.filterMap_cons, List.countP_cons, h, ih]
    · simp [List.filterMap_cons, List.countP_cons, h, ih]

theorem mem_knownClassNames_iff (stmts : List ClassStmt) (name : String) :
    name ∈ knownClassNames stmts ↔ Declared stmts name := by
  unfold knownClassNames Declared
  rw [List.mem_flatMap]
  constructor
  · rintro ⟨t, ht, hname⟩
    cases t with
    | classDecl c =>
      refine Or.inl ⟨c, ht, ?_⟩
      simp only [List.mem_singleton] at hname
      exact hname.symm
    | relationship r =>
      refine Or.inr ⟨r, ht, ?_⟩
      simp only [List.mem_cons, List.mem_singleton, List.not_mem_nil, or_false] at hname
      rcases hname with h | h
      · exact Or.inl h.symm
      · exact Or.inr h.symm
    | classNote n => simp at hname
    | classComment c => simp at hname
  · rintro (⟨c, hc, rfl⟩ | ⟨r, hr, h⟩)
    · exact ⟨_, hc, by simp⟩
    · refine ⟨_, hr, ?_⟩
      rcases h with h | h <;> simp [h]

theorem validClassReferences_eq_map (w : ClassWording) (known : List String)
    (stmts : List ClassStmt) :
    stmts.filterMap (fun t => match t with
      | .classNote n =>
        if n.ClassName ∈ known then none else some (undefinedClassError w n)
      | _ => none) =
    ((notesOf stmts).filter (fun n => decide (n.ClassName ∉ known))).map
      (undefinedClassError w) := by
  induction stmts with
  | nil => rfl
  | cons t rest ih =>
    cases t with
    | classNote n =>
      by_cases h : n.ClassName ∈ known
      · simp only [notesOf, List.filterMap_cons, h, if_true, not_true_eq_false, decide_False,
          List.filter_cons_of_neg, Bool.false_eq_true, not_false_eq_true] at ih ⊢
        exact ih
      · simp only [notesOf, List.filterMap_cons, h, if_false, not_false_eq_true, decide_True,
          List.filter_cons_of_pos, List.map_cons] at ih ⊢
        rw [ih]
    | _ =>
      simp only [notesOf, List.filterMap_cons] at ih ⊢
      exact ih

/-- C17: the diagnostics of `valid-class-references` are the errors of the
notes whose class name is neither the name of a declared class nor the `From`
or `To` of a relationship, one per such note in statement order; a note whose
class name is declared or is an endpoint gets none, so a diagram all of whose
notes refer to such names gets the empty list. -/
theorem validClassReferences_spec (w : ClassWording) (diagram : ClassDiagram) :
    (∀ name : String,
      name ∈ knownClassNames diagram.Statements ↔ Declared diagram.Statements name) ∧
    ValidClassReferences.ValidateClass w diagram =
      ((notesOf diagram.Statements).filter
        (fun n => decide (n.ClassName ∉ knownClassNames diagram.Statements))).map
        (undefinedClassError w) ∧
    (ValidClassReferences.ValidateClass w diagram).length =
      (notesOf diagram.Statements).countP
        (fun n => decide (n.ClassName ∉ knownClassNames diagram.Statements)) ∧
    (∀ e ∈ ValidClassReferences.ValidateClass w diagram,
      e.Severity = Severity.SeverityError ∧
      ∃ n ∈ notesOf diagram.Statements,
        ¬ Declared diagram.Statements n.ClassName ∧ e = undefinedClassError w n) ∧
    (∀ n ∈ notesOf diagram.Statements, ¬ Declared diagram.Statements n.ClassName →
      undefinedClassError w n ∈ ValidClassReferences.ValidateClass w diagram) ∧
    ((∀ n ∈ notesOf diagram.Statements, Declared diagram.Statements n.ClassName) →
      ValidClassReferences.ValidateClass w diagram = []) := by
  have heq := validClassReferences_eq_map w (knownClassNames diagram.Statements)
    diagram.Statements
  have hval : ValidClassReferences.ValidateClass w diagram =
      ((notesOf diagram.Statements).filter
        (fun n => decide (n.ClassName ∉ knownClassNames diagram.Statements))).map
        (undefinedClassError w) := heq
  refine ⟨mem_knownClassNames_iff _, hval, ?_, ?_, ?_, ?_⟩
  · rw [hval, List.length_map, List.countP_eq_length_filter]
  · intro e he
    rw [hval] at he
    obtain ⟨n, hn, rfl⟩ := List.mem_map.mp he
    rw [List.mem_filter] at hn
    refine ⟨rfl, n, hn.1, ?_, rfl⟩
    rw [← mem_knownClassNames_iff]
    simpa using hn.2
  · intro n hn hnot
    rw [hval]
    apply List.mem_map_of_mem
    rw [List.mem_filter]
    refine ⟨hn, ?_⟩
    rw [← mem_knownClassNames_iff] at hnot
    simpa using hnot
  · intro hall
    rw [hval, List.map_eq_nil_iff, List.filter_eq_nil_iff]
    intro n hn
    have := (mem_knownClassNames_iff _ _).mpr (hall n hn)
    simpa using this

/-- Witness for C17: in `endpointNoteDiagram` the note refers to `A`, which
occurs only as the `From` of a relationship, and the rule returns nothing. -/
theorem validClassReferences_spec_witness :
    ValidClassReferences.ValidateClass sampleClassWording endpointNoteDiagram = [] :=
  (validClassReferences_spec sampleClassWording endpointNoteDiagram).2.2.2.2.2 (by
    intro n hn
    have hA : n.ClassName = "A" := by
      have hnotes : notesOf endpointNoteDiagram.Statements =
          [{ ClassName := "A", Text := "Note", Pos := { Line := 3, Column := 1 } }] := by decide
      rw [hnotes, List.mem_singleton] at hn
      rw [hn]
    rw [hA]
    exact Or.inr ⟨{ From := "A", To := "B", Type_ := "inheritance",
                    Pos := { Line := 2, Column := 1 } }, by decide, Or.inl rfl⟩)

theorem mem_membersOf_iff (stmts : List ClassStmt) (m : ClassMember) :
    m ∈ membersOf stmts ↔ ∃ c : Class, ClassStmt.classDecl c ∈ stmts ∧ m ∈ c.Members := by
  unfold membersOf
  rw [List.mem_flatMap]
  constructor
  · rintro ⟨t, ht, hm⟩
    cases t with
    | classDecl c => exact ⟨c, ht, hm⟩
    | relationship r => simp at hm
    | classNote n => simp at hm
    | classComment c => simp at hm
  · rintro ⟨c, hc, hm⟩
    exact ⟨_, hc, hm⟩

theorem validMemberVisibility_length (w : ClassWording) (stmts : List ClassStmt) :
    (stmts.flatMap (fun t => match t with
      | .classDecl c => ValidMemberVisibility.checkClass w c
      | _ => [])).length =
    (membersOf stmts).countP (fun m => decide (m.Visibility ∉ validVisibilities)) := by
  induction stmts with
  | nil => rfl
  | cons t rest ih =>
    rw [List.flatMap_cons, List.length_append, ih]
    unfold membersOf
    rw [List.flatMap_cons, List.countP_append]
    congr 1
    cases t with
    | classDecl c => exact length_filterMap_unless _ _ _
    | _ => rfl

/-- C18: the rule `valid-member-visibility` returns as many diagnostics as
there are class members, over all classes of the diagram, whose raw visibility
token is not one of `+`, `-`, `#`, `~`; each diagnostic is an error; and members
with one of the four tokens get none, so a diagram all of whose members carry
one of them gets the empty list. -/
theorem validMemberVisibility_spec (w : ClassWording) (diagram : ClassDiagram) :
    (∀ m : ClassMember, m ∈ membersOf diagram.Statements ↔
      ∃ c : Class, ClassStmt.classDecl c ∈ diagram.Statements ∧ m ∈ c.Members) ∧
    (ValidMemberVisibility.ValidateClass w diagram).length =
      (membersOf diagram.Statements).countP
        (fun m => decide (m.Visibility ∉ ["+", "-", "#", "~"])) ∧
    (∀ e ∈ ValidMemberVisibility.ValidateClass w diagram,
      e.Severity = Severity.SeverityError ∧
      ∃ (c : Class) (m : ClassMember), ClassStmt.classDecl c ∈ diagram.Statements ∧
        m ∈ c.Members ∧ m.Visibility ∉ ["+", "-", "#", "~"] ∧ e = visibilityError w c m) ∧
    ((∀ m ∈ membersOf diagram.Statements, m.Visibility ∈ ["+", "-", "#", "~"]) →
      ValidMemberVisibility.ValidateClass w diagram = []) := by
  have hlen := validMemberVisibility_length w diagram.Statements
  refine ⟨mem_membersOf_iff _, hlen, ?_, ?_⟩
  · intro e he
    unfold ValidMemberVisibility.ValidateClass at he
    rw [List.mem_flatMap] at he
    obtain ⟨t, ht, het⟩ := he
    cases t with
    | classDecl c =>
      simp only [ValidMemberVisibility.checkClass, List.mem_filterMap] at het
      obtain ⟨m, hm, hsome⟩ := het
      by_cases hv : m.Visibility ∈ validVisibilities
      · rw [if_pos hv] at hsome
        cases hsome
      · rw [if_neg hv] at hsome
        cases hsome
        exact ⟨rfl, c, m, ht, hm, hv, rfl⟩
    | relationship r => simp at het
    | classNote n => simp at het
    | classComment c => simp at het
  · intro hall
    apply List.eq_nil_of_length_eq_zero
    have hlen' : (ValidMemberVisibility.ValidateClass w diagram).length =
        (membersOf diagram.Statements).countP
          (fun m => decide (m.Visibility ∉ validVisibilities)) := hlen
    rw [hlen', List.countP_eq_zero]
    intro m hm
    have hv : m.Visibility ∈ validVisibilities := hall m hm
    simp only [hv, not_true_eq_false, decide_False, Bool.false_eq_true, not_false_eq_true]

/-- Witness for C18: in `visibilityDiagram` the four recognized tokens pass and
the member with the token `*` gets the one error. -/
theorem validMemberVisibility_spec_witness :
    (ValidMemberVisibility.ValidateClass sampleClassWording visibilityDiagram).length = 1 ∧
    ∀ e ∈ ValidMemberVisibility.ValidateClass sampleClassWording visibilityDiagram,
      e.Severity = Severity.SeverityError :=
  ⟨((validMemberVisibility_spec sampleClassWording visibilityDiagram).2.1).trans (by decide),
   fun e he =>
     ((validMemberVisibility_spec sampleClassWording visibilityDiagram).2.2.1 e he).1⟩

/-- C19: the rule `valid-relationship-type` returns as many diagnostics as
there are relationships whose kind is not one of inheritance, composition,
aggregation, association, dependency, realization; each diagnostic is an error
for such a relationship; and relationships of one of the six kinds get none,
so a diagram all of whose relationships have one of them gets the empty list. -/
theorem validRelationshipType_spec (w : ClassWording) (diagram : ClassDiagram) :
    (∀ r : Relationship, r ∈ relationshipsOf diagram.Statements ↔
      ClassStmt.relationship r ∈ diagram.Statements) ∧
    (ValidRelationshipType.ValidateClass w diagram).length =
      (relationshipsOf diagram.Statements).countP (fun r => decide (r.Type_ ∉
        ["inheritance", "composition", "aggregation", "association", "dependency",
          "realization"])) ∧
    (∀ e ∈ ValidRelationshipType.ValidateClass w diagram,
      e.Severity = Severity.SeverityError ∧
      ∃ r : Relationship, ClassStmt.relationship r ∈ diagram.Statements ∧
        r.Type_ ∉ ["inheritance", "composition", "aggregation", "association", "dependency",
          "realization"] ∧ e = relationshipError w r) ∧
    ((∀ r ∈ relationshipsOf diagram.Statements, r.Type_ ∈
        ["inheritance", "composition", "aggregation", "association", "dependency",
          "realization"]) →
      ValidRelationshipType.ValidateClass w diagram = []) := by
  have hmem : ∀ r : Relationship, r ∈ relationshipsOf diagram.Statements ↔
      ClassStmt.relationship r ∈ diagram.Statements := by
    intro r
    unfold relationshipsOf
    rw [List.mem_filterMap]
    constructor
    · rintro ⟨t, ht, hr⟩
      cases t with
      | relationship r' =>
        simp only [Option.some.injEq] at hr
        rw [← hr]
        exact ht
      | classDecl c => simp at hr
      | classNote n => simp at hr
      | classComment c => simp at hr
    · intro h
      exact ⟨_, h, rfl⟩
  have hlen : ∀ stmts : List ClassStmt,
      (stmts.filterMap (fun t => match t with
        | .relationship r =>
          if r.Type_ ∈ validRelationshipTypes then none else some (relationshipError w r)
        | _ => none)).length =
      (relationshipsOf stmts).countP
        (fun r => decide (r.Type_ ∉ validRelationshipTypes)) := by
    intro stmts
    induction stmts with
    | nil => rfl
    | cons t rest ih =>
      cases t with
      | relationship r =>
        by_cases h : r.Type_ ∈ validRelationshipTypes
        · simp [relationshipsOf, List.filterMap_cons, List.countP_cons, h] at ih ⊢
          exact ih
        · simp [relationshipsOf, List.filterMap_cons, List.countP_cons, h] at ih ⊢
          exact ih
      | _ =>
        simp only [relationshipsOf, List.filterMap_cons] at ih ⊢
        exact ih
  refine ⟨hmem, hlen diagram.Statements, ?_, ?_⟩
  · intro e he
    unfold ValidRelationshipType.ValidateClass at he
    rw [List.mem_filterMap] at he
    obtain ⟨t, ht, het⟩ := he
    cases t with
    | relationship r =>
      by_cases hv : r.Type_ ∈ validRelationshipTypes
      · simp [hv] at het
      · simp only [hv, if_false, Option.some.injEq] at het
        exact ⟨by rw [← het]; rfl, r, ht, hv, het.symm⟩
    | classDecl c => simp at het
    | classNote n => simp at het
    | classComment c => simp at het
  · intro hall
    apply List.eq_nil_of_length_eq_zero
    have hlen' := hlen diagram.Statements
    unfold ValidRelationshipType.ValidateClass
    rw [hlen', List.countP_eq_zero]
    intro r hr
    have hv : r.Type_ ∈ validRelationshipTypes := hall r hr
    simp only [hv, not_true_eq_false, decide_False, Bool.false_eq_true, not_false_eq_true]

/-- Witness for C19: in `relationshipDiagram` the six recognized kinds pass and
the relationship of kind `invalid` gets the one error. -/
theorem validRelationshipType_spec_witness :
    (ValidRelationshipType.ValidateClass sampleClassWording relationshipDiagram).length = 1 ∧
    ∀ e ∈ ValidRelationshipType.ValidateClass sampleClassWording relationshipDiagram,
      e.Severity = Severity.SeverityError :=
  ⟨((validRelationshipType_spec sampleClassWording relationshipDiagram).2.1).trans (by decide),
   fun e he =>
     ((validRelationshipType_spec sampleClassWording relationshipDiagram).2.2.1 e he).1⟩

/-! ## The flowchart parser: emission of node definitions -/

theorem emitInline_of_mem (defined : List String) (ep : Endpoint) (pos : Position)
    (h : ep.ID ∈ defined) : emitInline defined ep pos = ([], defined) := by
  unfold emitInline
  cases ep.Inline with
  | none => rfl
  | some p => simp [h]

theorem emitInline_of_not_mem (defined : List String) (ep : Endpoint) (pos : Position)
    (h : ep.ID ∉ defined) :
    (emitInline defined ep pos).1.map Statement.emitted = inlineNodeDef ep ∧
    ∀ id : String, id ∈ (emitInline defined ep pos).2 → id ∈ defined ∨ id = ep.ID := by
  unfold emitInline inlineNodeDef
  cases ep.Inline with
  | none => exact ⟨rfl, fun id hid => Or.inl hid⟩
  | some p =>
    simp only [h, if_false, List.map_cons, List.map_nil, Statement.emitted, true_and]
    intro id hid
    rcases List.mem_cons.mp hid with h1 | h1
    · exact Or.inr h1
    · exact Or.inl h1

/-- What `emitInline` adds: node definitions of the endpoint's identifier,
only when it was not defined, and the identifier is defined afterwards exactly
when it was defined before or a definition was added. -/
theorem emitInline_spec (defined : List String) (ep : Endpoint) (pos : Position) :
    (∀ t ∈ (emitInline defined ep pos).1,
      ∃ n : NodeDef, t = Statement.nodeDef n ∧ n.ID = ep.ID ∧ ep.ID ∉ defined) ∧
    ∀ id : String, id ∈ (emitInline defined ep pos).2 ↔
      id ∈ defined ∨
        ∃ n : NodeDef, Statement.nodeDef n ∈ (emitInline defined ep pos).1 ∧ n.ID = id := by
  unfold emitInline
  cases ep.Inline with
  | none => simp
  | some p =>
    by_cases h : ep.ID ∈ defined
    · simp [h]
    · simp only [h, if_false, List.mem_singleton, List.mem_cons, not_false_eq_true,
        List.not_mem_nil, or_false]
      refine ⟨?_, ?_⟩
      · rintro t rfl
        exact ⟨_, rfl, rfl, trivial⟩
      · intro id
        constructor
        · rintro (h1 | h1)
          · exact Or.inr ⟨_, rfl, h1.symm⟩
          · exact Or.inl h1
        · rintro (h1 | ⟨n, hn, hid⟩)
          · exact Or.inr h1
          · have hn' := Statement.nodeDef.inj hn
            subst hn'
            exact Or.inl hid.symm

theorem emitLink_spec (defined : List String) (l : LinkLine) (pos : Position) :
    (∀ n : NodeDef, Statement.nodeDef n ∈ (emitLink defined l pos).1 → n.ID ∉ defined) ∧
    ∀ id : String, id ∈ (emitLink defined l pos).2 ↔
      id ∈ defined ∨
        ∃ n : NodeDef, Statement.nodeDef n ∈ (emitLink defined l pos).1 ∧ n.ID = id := by
  have h1 := emitInline_spec defined l.From pos
  have h2 := emitInline_spec (emitInline defined l.From pos).2 l.To
    { Line := pos.Line, Column := l.ToColumn }
  simp only [emitLink]
  generalize emitInline defined l.From pos = r1 at h1 h2
  generalize emitInline r1.2 l.To { Line := pos.Line, Column := l.ToColumn } = r2 at h2
  refine ⟨?_, ?_⟩
  · intro n hn
    simp only [List.mem_append, List.mem_singleton] at hn
    rcases hn with (hn | hn) | hn
    · obtain ⟨m, hm, hid, hnot⟩ := h1.1 _ hn
      cases hm
      rw [hid]
      exact hnot
    · cases hn
    · obtain ⟨m, hm, hid, hnot⟩ := h2.1 _ hn
      cases hm
      rw [hid]
      intro hdef
      exact hnot ((h1.2 _).mpr (Or.inl hdef))
  · intro id
    rw [h2.2, h1.2]
    simp only [List.mem_append, List.mem_singleton]
    constructor
    · rintro ((h | ⟨n, hn, hid⟩) | ⟨n, hn, hid⟩)
      · exact Or.inl h
      · exact Or.inr ⟨n, Or.inl (Or.inl hn), hid⟩
      · exact Or.inr ⟨n, Or.inr hn, hid⟩
    · rintro (h | ⟨n, (hn | hn) | hn, hid⟩)
      · exact Or.inl (Or.inl h)
      · exact Or.inl (Or.inr ⟨n, hn, hid⟩)
      · cases hn
      · exact Or.inr ⟨n, hn, hid⟩

theorem scopeOK_push (st : ParserState) (added : List Statement) (defined : List String)
    (hcur : ScopeOK st.current)
    (hdef : ∀ id : String, id ∈ defined ↔
      id ∈ st.current.defined ∨ ∃ n : NodeDef, Statement.nodeDef n ∈ added ∧ n.ID = id) :
    ScopeOK (st.push added defined).current := by
  intro id
  simp only [ParserState.push, List.mem_append]
  rw [hdef, hcur id]
  constructor
  · rintro (⟨n, hn, hid⟩ | ⟨n, hn, hid⟩)
    · exact ⟨n, Or.inl hn, hid⟩
    · exact ⟨n, Or.inr hn, hid⟩
  · rintro ⟨n, hn | hn, hid⟩
    · exact Or.inl ⟨n, hn, hid⟩
    · exact Or.inr ⟨n, hn, hid⟩

theorem scopeOK_push_leaf (st : ParserState) (t : Statement)
    (hleaf : ∀ n : NodeDef, t ≠ Statement.nodeDef n) (hcur : ScopeOK st.current) :
    ScopeOK (st.push [t] st.current.defined).current := by
  apply scopeOK_push st _ _ hcur
  intro id
  constructor
  · exact fun h => Or.inl h
  · rintro (h | ⟨n, hn, _⟩)
    · exact h
    · exact absurd (List.mem_singleton.mp hn).symm (hleaf n)

/-- Every line keeps, in every open scope, the identifiers recorded as defined
equal to those of the node definitions of the scope. -/
theorem parseStep_scopeOK (st st' : ParserState) (pos : Position) (line : Line)
    (hcur : ScopeOK st.current) (houter : ∀ sc ∈ st.outer, ScopeOK sc)
    (h : parseStep st pos line = .ok st') :
    ScopeOK st'.current ∧ ∀ sc ∈ st'.outer, ScopeOK sc := by
  cases line with
  | blank =>
    simp only [parseStep, Except.ok.injEq] at h
    subst h
    exact ⟨hcur, houter⟩
  | comment =>
    simp only [parseStep, Except.ok.injEq] at h
    subst h
    exact ⟨scopeOK_push_leaf st _ (fun n hn => by cases hn) hcur, houter⟩
  | classDef =>
    simp only [parseStep, Except.ok.injEq] at h
    subst h
    exact ⟨scopeOK_push_leaf st _ (fun n hn => by cases hn) hcur, houter⟩
  | classAssignment =>
    simp only [parseStep, Except.ok.injEq] at h
    subst h
    exact ⟨scopeOK_push_leaf st _ (fun n hn => by cases hn) hcur, houter⟩
  | node id label shape =>
    simp only [parseStep, Except.ok.injEq] at h
    subst h
    refine ⟨scopeOK_push st _ _ hcur ?_, houter⟩
    intro x
    simp only [List.mem_cons, List.mem_singleton, List.not_mem_nil, or_false]
    constructor
    · rintro (h1 | h1)
      · exact Or.inr ⟨_, rfl, h1.symm⟩
      · exact Or.inl h1
    · rintro (h1 | ⟨n, hn, hid⟩)
      · exact Or.inr h1
      · have hn' := Statement.nodeDef.inj hn
        subst hn'
        exact Or.inl hid.symm
  | link l =>
    simp only [parseStep, Except.ok.injEq] at h
    subst h
    exact ⟨scopeOK_push st _ _ hcur (emitLink_spec st.current.defined l pos).2, houter⟩
  | subgraphOpen title =>
    simp only [parseStep, Except.ok.injEq] at h
    subst h
    refine ⟨?_, ?_⟩
    · intro id
      simp
    · intro sc hsc
      rcases List.mem_cons.mp hsc with h1 | h1
      · rw [h1]
        exact hcur
      · exact houter sc h1
  | subgraphEnd =>
    simp only [parseStep] at h
    cases hout : st.outer with
    | nil =>
      rw [hout] at h
      cases h
    | cons parent rest =>
      rw [hout] at h
      simp only [Except.ok.injEq] at h
      subst h
      rw [hout] at houter
      refine ⟨?_, fun sc hsc => houter sc (List.mem_cons_of_mem _ hsc)⟩
      intro id
      simp only [List.mem_append, List.mem_singleton]
      rw [houter parent (List.mem_cons_self _ _) id]
      constructor
      · rintro ⟨n, hn, hid⟩
        exact ⟨n, Or.inl hn, hid⟩
      · rintro ⟨n, hn | hn, hid⟩
        · exact ⟨n, hn, hid⟩
        · cases hn

theorem parseBody_scopeOK (lines : List (List Char)) (number : Nat) (st st' : ParserState)
    (hcur : ScopeOK st.current) (houter : ∀ sc ∈ st.outer, ScopeOK sc)
    (h : parseBody lines number st = .ok st') :
    ScopeOK st'.current ∧ ∀ sc ∈ st'.outer, ScopeOK sc := by
  induction lines generalizing number st with
  | nil =>
    simp only [parseBody, Except.ok.injEq] at h
    subst h
    exact ⟨hcur, houter⟩
  | cons text rest ih =>
    simp only [parseBody] at h
    cases hline : readLine text with
    | none =>
      simp only [hline] at h
      cases h
    | some line =>
      simp only [hline] at h
      cases hstep : parseStep st (linePos number text) line with
      | error e =>
        simp only [hstep] at h
        cases h
      | ok st₁ =>
        simp only [hstep] at h
        obtain ⟨h1, h2⟩ := parseStep_scopeOK st st₁ _ line hcur houter hstep
        exact ih (number + 1) st₁ h1 h2 h

theorem scopeNodeDefs_append (l₁ l₂ : List Statement) (id : String)
    (h : ∀ n : NodeDef, Statement.nodeDef n ∈ l₂ → n.ID ≠ id) :
    scopeNodeDefs (l₁ ++ l₂) id = scopeNodeDefs l₁ id := by
  unfold scopeNodeDefs
  rw [List.filterMap_append]
  have hnil : l₂.filterMap (fun t => match t with
      | .nodeDef n => if n.ID = id then some n else none
      | _ => none) = [] := by
    rw [List.filterMap_eq_nil_iff]
    intro t ht
    cases t with
    | nodeDef n => simp [h n ht]
    | _ => rfl
  rw [hnil, List.append_nil]

/-- C16: an inline-labeled endpoint whose identifier is already defined in the
scope emits no node definition; in every state the parser reaches, the
identifiers recorded as defined are those of the node definitions of the scope
(standalone or inline); so a link line read when the scope already holds a
node definition for an identifier appends statements of which none is a node
definition for it, and the node definitions of the scope for that identifier,
the first-seen label with them, stay as they are. Parsing the source of the
test gives exactly one node definition for `A`, labeled `First Definition`. -/
theorem inline_definition_suppressed :
    (∀ (defined : List String) (ep : Endpoint) (pos : Position),
      ep.ID ∈ defined → emitInline defined ep pos = ([], defined)) ∧
    (∀ (lines : List (List Char)) (number : Nat) (pos : Position) (st : ParserState),
      parseBody lines number { current := rootScope pos, outer := [] } = .ok st →
      ScopeOK st.current ∧ ∀ sc ∈ st.outer, ScopeOK sc) ∧
    (∀ (st : ParserState) (pos : Position) (l : LinkLine) (n₀ : NodeDef),
      ScopeOK st.current → Statement.nodeDef n₀ ∈ st.current.stmts →
      ∃ (st' : ParserState) (added : List Statement),
        parseStep st pos (Line.link l) = .ok st' ∧
        st'.current.stmts = st.current.stmts ++ added ∧
        (∀ n : NodeDef, Statement.nodeDef n ∈ added → n.ID ≠ n₀.ID) ∧
        scopeNodeDefs st'.current.stmts n₀.ID = scopeNodeDefs st.current.stmts n₀.ID) ∧
    parsedStatements duplicateAttemptSource =
      some [ Emitted.nodeDef "A" "First Definition" "[]",
             Emitted.link "A" "B" "-->" "" false,
             Emitted.nodeDef "B" "Second" "[]",
             Emitted.link "B" "A" "-->" "" false ] := by
  refine ⟨emitInline_of_mem, ?_, ?_, by decide⟩
  · intro lines number pos st h
    refine parseBody_scopeOK lines number _ st ?_ ?_ h
    · intro id
      simp [rootScope]
    · intro sc hsc
      cases hsc
  · intro st pos l n₀ hok hmem
    have hdef : n₀.ID ∈ st.current.defined := (hok n₀.ID).mpr ⟨n₀, hmem, rfl⟩
    have hnew : ∀ n : NodeDef,
        Statement.nodeDef n ∈ (emitLink st.current.defined l pos).1 → n.ID ≠ n₀.ID := by
      intro n hn hid
      exact (emitLink_spec st.current.defined l pos).1 n hn (hid ▸ hdef)
    refine ⟨_, (emitLink st.current.defined l pos).1, rfl, rfl, hnew, ?_⟩
    exact scopeNodeDefs_append _ _ _ hnew

/-- Witness for C16: with `A` defined, the endpoint `A[Duplicate Attempt]`
emits nothing. -/
theorem inline_definition_suppressed_witness :
    emitInline ["B", "A"] { ID := "A", Inline := some ("Duplicate Attempt", "[]") }
      { Line := 4, Column := 11 } = ([], ["B", "A"]) :=
  inline_definition_suppressed.1 ["B", "A"]
    { ID := "A", Inline := some ("Duplicate Attempt", "[]") } { Line := 4, Column := 11 }
    (by decide)

/-! ## The flowchart parser: reading a written link line -/

theorem isIdentChar_of_isBlank (c : Char) (h : isBlank c = true) : isIdentChar c = false := by
  simp only [isBlank, Bool.or_eq_true, decide_eq_true_eq] at h
  rcases h with (h | h) | h <;> subst h <;> decide

theorem isBlank_of_isIdentChar (c : Char) (h : isIdentChar c = true) : isBlank c = false := by
  cases hb : isBlank c with
  | false => rfl
  | true =>
    rw [isIdentChar_of_isBlank c hb] at h
    cases h

/-- An identifier character is none of the characters that delimit tokens. -/
theorem ne_of_isIdentChar (c d : Char) (h : isIdentChar c = true)
    (hd : isIdentChar d = false) : c ≠ d := by
  intro hcd
  rw [hcd, hd] at h
  cases h

theorem span_ident (x rest : List Char) (hx : ∀ c ∈ x, isIdentChar c = true)
    (hrest : ∀ c ∈ rest.head?, isIdentChar c = false) :
    (x ++ rest).span isIdentChar = (x, rest) := by
  rw [List.span_eq_take_drop, List.takeWhile_append_of_pos hx, List.dropWhile_append_of_pos hx]
  cases rest with
  | nil => simp
  | cons c t =>
    have hc : isIdentChar c = false := hrest c (by simp)
    simp [List.takeWhile_cons, List.dropWhile_cons, hc]

theorem splitAtFirst_written (c₀ : Char) (more label tail : List Char)
    (hl : ∀ c ∈ label, c ≠ c₀) :
    splitAtFirst (c₀ :: more) (label ++ (c₀ :: more ++ tail)) = some (label, tail) := by
  induction label with
  | nil =>
    have hpre : (c₀ :: more).isPrefixOf (c₀ :: (more ++ tail)) = true := by
      rw [List.isPrefixOf_iff_prefix]
      exact ⟨tail, rfl⟩
    show splitAtFirst (c₀ :: more) (c₀ :: (more ++ tail)) = some ([], tail)
    rw [splitAtFirst, if_pos hpre]
    simp
  | cons c label ih =>
    have hc : c ≠ c₀ := hl c (List.mem_cons_self _ _)
    have hpre : ¬ (c₀ :: more).isPrefixOf (c :: (label ++ (c₀ :: more ++ tail))) = true := by
      rw [List.isPrefixOf_iff_prefix]
      rintro ⟨t, ht⟩
      simp only [List.cons_append, List.cons.injEq] at ht
      exact hc ht.1.symm
    show splitAtFirst (c₀ :: more) (c :: (label ++ (c₀ :: more ++ tail))) = some (c :: label, tail)
    rw [splitAtFirst, if_neg hpre, ih (fun d hd => hl d (List.mem_cons_of_mem _ hd))]
    rfl

theorem isPrefixOf_cons_ne (a c : Char) (as t : List Char) (h : c ≠ a) :
    (a :: as).isPrefixOf (c :: t) = false := by
  rw [Bool.eq_false_iff, Ne, List.isPrefixOf_iff_prefix]
  rintro ⟨r, hr⟩
  simp only [List.cons_append, List.cons.injEq] at hr
  exact h hr.1.symm

theorem isPrefixOf_self_append (a t : List Char) : a.isPrefixOf (a ++ t) = true := by
  rw [List.isPrefixOf_iff_prefix]
  exact ⟨t, rfl⟩

theorem not_bracket_prefix_label (label tail : List Char) (hl : IsPlainLabel label) :
    ['['].isPrefixOf (label ++ ']' :: tail) = false := by
  cases label with
  | nil => exact isPrefixOf_cons_ne _ _ _ _ (by decide)
  | cons c rest =>
    refine isPrefixOf_cons_ne _ _ _ _ ?_
    intro hc
    exact hl c (List.mem_cons_self _ _) (by rw [hc]; decide)

theorem takeLabel_inline (label opener closer tail : List Char) (shape : String)
    (hd : (opener, closer, shape) ∈ shapeDelimiters) (hl : IsPlainLabel label) :
    takeLabel (opener ++ label ++ closer ++ tail) = some (some (String.mk label, shape), tail) := by
  have hne : ∀ d : Char, d ∈ ['\n', '[', ']', '(', ')', '{', '}', '|'] → ∀ c ∈ label, c ≠ d := by
    intro d hd c hc hcd
    exact hl c hc (hcd ▸ hd)
  simp only [shapeDelimiters, List.mem_cons, Prod.mk.injEq, List.mem_singleton,
    List.not_mem_nil, or_false] at hd
  rcases hd with ⟨rfl, rfl, rfl⟩ | ⟨rfl, rfl, rfl⟩ | ⟨rfl, rfl, rfl⟩ | ⟨rfl, rfl, rfl⟩
  · simp only [takeLabel, shapeDelimiters, takeLabelWith, List.append_assoc]
    rw [if_pos (isPrefixOf_self_append _ _)]
    have hdrop : List.drop ['[', '['].length (['[', '['] ++ (label ++ ([']', ']'] ++ tail))) =
        label ++ (']' :: [']'] ++ tail) := by simp
    rw [hdrop, splitAtFirst_written ']' [']'] label tail (hne ']' (by decide))]
    rfl
  · simp only [takeLabel, shapeDelimiters, takeLabelWith, List.append_assoc]
    have h1 : ¬ ['[', '['].isPrefixOf (['['] ++ (label ++ ([']'] ++ tail))) = true := by
      have h0 := not_bracket_prefix_label label tail hl
      show ¬ ['[', '['].isPrefixOf ('[' :: (label ++ ']' :: tail)) = true
      rw [List.isPrefixOf_cons₂_self, h0]
      exact Bool.false_ne_true
    rw [if_neg h1, if_pos (isPrefixOf_self_append _ _)]
    have hdrop : List.drop ['['].length (['['] ++ (label ++ ([']'] ++ tail))) =
        label ++ (']' :: [] ++ tail) := by simp
    rw [hdrop, splitAtFirst_written ']' [] label tail (hne ']' (by decide))]
    rfl
  · simp only [takeLabel, shapeDelimiters, takeLabelWith, List.append_assoc]
    rw [if_neg (by rw [show ['('] ++ (label ++ ([')'] ++ tail)) =
          '(' :: (label ++ ([')'] ++ tail)) from rfl,
          isPrefixOf_cons_ne _ _ _ _ (by decide)]; simp),
      if_neg (by rw [show ['('] ++ (label ++ ([')'] ++ tail)) =
          '(' :: (label ++ ([')'] ++ tail)) from rfl,
          isPrefixOf_cons_ne _ _ _ _ (by decide)]; simp),
      if_pos (isPrefixOf_self_append _ _)]
    have hdrop : List.drop ['('].length (['('] ++ (label ++ ([')'] ++ tail))) =
        label ++ (')' :: [] ++ tail) := by simp
    rw [hdrop, splitAtFirst_written ')' [] label tail (hne ')' (by decide))]
    rfl
  · simp only [takeLabel, shapeDelimiters, takeLabelWith, List.append_assoc]
    rw [if_neg (by rw [show ['{'] ++ (label ++ (['}'] ++ tail)) =
          '{' :: (label ++ (['}'] ++ tail)) from rfl,
          isPrefixOf_cons_ne _ _ _ _ (by decide)]; simp),
      if_neg (by rw [show ['{'] ++ (label ++ (['}'] ++ tail)) =
          '{' :: (label ++ (['}'] ++ tail)) from rfl,
          isPrefixOf_cons_ne _ _ _ _ (by decide)]; simp),
      if_neg (by rw [show ['{'] ++ (label ++ (['}'] ++ tail)) =
          '{' :: (label ++ (['}'] ++ tail)) from rfl,
          isPrefixOf_cons_ne _ _ _ _ (by decide)]; simp),
      if_pos (isPrefixOf_self_append _ _)]
    have hdrop : List.drop ['{'].length (['{'] ++ (label ++ (['}'] ++ tail))) =
        label ++ ('}' :: [] ++ tail) := by simp
    rw [hdrop, splitAtFirst_written '}' [] label tail (hne '}' (by decide))]
    rfl

theorem dropWhile_blank_ident (y r : List Char) (hne : y ≠ [])
    (hy : ∀ c ∈ y, isIdentChar c = true) : (y ++ r).dropWhile isBlank = y ++ r := by
  cases y with
  | nil => exact absurd rfl hne
  | cons c cs =>
    have hc : isBlank c = false := isBlank_of_isIdentChar c (hy c (List.mem_cons_self _ _))
    simp [List.dropWhile_cons, hc]

theorem takePipeLabel_ident (y r : List Char) (hne : y ≠ [])
    (hy : ∀ c ∈ y, isIdentChar c = true) : takePipeLabel (y ++ r) = some ("", y ++ r) := by
  cases y with
  | nil => exact absurd rfl hne
  | cons c cs =>
    have hc : c ≠ '|' :=
      ne_of_isIdentChar c '|' (hy c (List.mem_cons_self _ _)) (by decide)
    simp only [List.cons_append, takePipeLabel, hc, if_false]

theorem readNodeOrLink_of_more (width : Nat) (s rest : List Char) (src : Endpoint)
    (c : Char) (more : List Char) (hend : takeEndpoint s = some (src, rest))
    (hmore : rest.dropWhile isBlank = c :: more) :
    readNodeOrLink width s = (takeLinkRest width src (c :: more)).map Line.link := by
  simp only [readNodeOrLink, hend, hmore]

theorem splitLines_of_not_mem (t : List Char) (h : '\n' ∉ t) : splitLines t = [t] := by
  induction t with
  | nil => rfl
  | cons c rest ih =>
    have hc : c ≠ '\n' := fun hc => h (hc ▸ List.mem_cons_self _ _)
    have hrest : '\n' ∉ rest := fun hr => h (List.mem_cons_of_mem _ hr)
    rw [splitLines, if_neg hc, ih hrest]

theorem splitLines_append (a b : List Char) (h : '\n' ∉ a) :
    splitLines (a ++ '\n' :: b) = a :: splitLines b := by
  induction a with
  | nil =>
    show splitLines ('\n' :: b) = [] :: splitLines b
    rw [splitLines, if_pos rfl]
  | cons c rest ih =>
    have hc : c ≠ '\n' := fun hc => h (hc ▸ List.mem_cons_self _ _)
    have hrest : '\n' ∉ rest := fun hr => h (List.mem_cons_of_mem _ hr)
    show splitLines (c :: (rest ++ '\n' :: b)) = (c :: rest) :: splitLines b
    rw [splitLines, if_neg hc, ih hrest]

theorem newline_not_mem_ident (x : List Char) (hx : ∀ c ∈ x, isIdentChar c = true) :
    '\n' ∉ x := by
  intro h
  have := hx _ h
  revert this
  decide

theorem newline_not_mem_writtenLabel
    (inline : Option (List Char × (List Char × List Char × String))) (hin : IsInline inline) :
    '\n' ∉ writtenLabel inline := by
  cases inline with
  | none => simp [writtenLabel]
  | some p =>
    obtain ⟨label, opener, closer, shape⟩ := p
    obtain ⟨hd, hl⟩ := hin _ rfl
    have hlabel : '\n' ∉ label := fun h => hl _ h (by decide)
    simp only [shapeDelimiters, List.mem_cons, Prod.mk.injEq, List.mem_singleton,
      List.not_mem_nil, or_false] at hd
    rcases hd with ⟨rfl, rfl, rfl⟩ | ⟨rfl, rfl, rfl⟩ | ⟨rfl, rfl, rfl⟩ | ⟨rfl, rfl, rfl⟩ <;>
    · simp only [writtenLabel, List.mem_append, List.mem_cons, List.mem_singleton,
        List.not_mem_nil, or_false, not_or]
      refine ⟨⟨?_, hlabel⟩, ?_⟩ <;> decide

theorem inlineNodeDef_read (x : List Char)
    (inline : Option (List Char × (List Char × List Char × String))) :
    inlineNodeDef { ID := String.mk x, Inline := readLabel inline } = expectedNodeDef x inline := by
  cases inline with
  | none => rfl
  | some p => rfl

theorem emitLink_emitted (defined : List String) (l : LinkLine) (pos : Position)
    (hsrc : l.From.ID ∉ defined) (hdst : l.To.ID ∉ defined) :
    (emitLink defined l pos).1.map Statement.emitted =
      inlineNodeDef l.From ++
        [Emitted.link l.From.ID l.To.ID l.Arrow l.Label l.BiDir] ++
        (if l.From.ID = l.To.ID ∧ l.From.Inline.isSome = true then []
         else inlineNodeDef l.To) := by
  have h1 := emitInline_of_not_mem defined l.From pos hsrc
  by_cases hsame : l.From.ID = l.To.ID ∧ l.From.Inline.isSome = true
  · rw [if_pos hsame]
    have hdef : l.To.ID ∈ (emitInline defined l.From pos).2 := by
      obtain ⟨hid, hsome⟩ := hsame
      unfold emitInline
      cases hin : l.From.Inline with
      | none =>
        rw [hin] at hsome
        cases hsome
      | some p =>
        simp only [hsrc, if_false]
        rw [hid]
        exact List.mem_cons_self _ _
    have h2 := emitInline_of_mem (emitInline defined l.From pos).2 l.To
      { Line := pos.Line, Column := l.ToColumn } hdef
    simp only [emitLink, List.map_append, List.map_cons, List.map_nil, h1.1, h2,
      Statement.emitted]
  · rw [if_neg hsame]
    have hdst' : l.To.ID ∉ (emitInline defined l.From pos).2 := by
      intro h
      unfold emitInline at h
      cases hin : l.From.Inline with
      | none =>
        simp only [hin] at h
        exact hdst h
      | some p =>
        simp only [hin, hsrc, if_false] at h
        rcases List.mem_cons.mp h with h | h
        · exact hsame ⟨h.symm, by rw [hin]; rfl⟩
        · exact hdst h
    have h2 := emitInline_of_not_mem (emitInline defined l.From pos).2 l.To
      { Line := pos.Line, Column := l.ToColumn } hdst'
    simp only [emitLink, List.map_append, List.map_cons, List.map_nil, h1.1, h2.1,
      Statement.emitted]

theorem endsToken_nil : EndsToken [] := by
  intro c hc
  cases hc

theorem endsToken_cons (c : Char) (t : List Char) (h1 : isIdentChar c = false)
    (h2 : c ≠ '[' ∧ c ≠ '(' ∧ c ≠ '{') : EndsToken (c :: t) := by
  intro d hd
  simp only [List.head?_cons, Option.mem_def, Option.some.injEq] at hd
  subst hd
  exact ⟨h1, h2⟩

theorem endsToken_blanks (b rest : List Char) (hb : IsBlanks b) (hrest : EndsToken rest) :
    EndsToken (b ++ rest) := by
  cases b with
  | nil => exact hrest
  | cons c t =>
    have hc : isBlank c = true := hb c (List.mem_cons_self _ _)
    refine endsToken_cons c _ (isIdentChar_of_isBlank c hc) ?_
    simp only [isBlank, Bool.or_eq_true, decide_eq_true_eq] at hc
    rcases hc with (h | h) | h <;> subst h <;> decide

theorem endsToken_arrow (arrow rest : List Char) (ha : arrow ∈ arrowTokens) :
    EndsToken (arrow ++ rest) := by
  simp only [arrowTokens, List.mem_cons, List.mem_singleton, List.not_mem_nil, or_false] at ha
  rcases ha with rfl | rfl | rfl | rfl <;>
    exact endsToken_cons _ _ (by decide) (by decide)

theorem takeLabel_bare (tail : List Char) (htail : EndsToken tail) :
    takeLabel tail = some (none, tail) := by
  cases tail with
  | nil => rfl
  | cons c t =>
    obtain ⟨_, h1, h2, h3⟩ := htail c (by simp)
    simp only [takeLabel, shapeDelimiters, takeLabelWith]
    rw [if_neg (by rw [isPrefixOf_cons_ne _ _ _ _ h1]; simp),
      if_neg (by rw [isPrefixOf_cons_ne _ _ _ _ h1]; simp),
      if_neg (by rw [isPrefixOf_cons_ne _ _ _ _ h2]; simp),
      if_neg (by rw [isPrefixOf_cons_ne _ _ _ _ h3]; simp)]

theorem takeLabel_written (inline : Option (List Char × (List Char × List Char × String)))
    (tail : List Char) (hin : IsInline inline) (htail : EndsToken tail) :
    takeLabel (writtenLabel inline ++ tail) = some (readLabel inline, tail) := by
  cases inline with
  | none => exact takeLabel_bare tail htail
  | some p =>
    obtain ⟨label, opener, closer, shape⟩ := p
    obtain ⟨hd, hl⟩ := hin _ rfl
    exact takeLabel_inline label opener closer tail shape hd hl

theorem head_writtenLabel (inline : Option (List Char × (List Char × List Char × String)))
    (tail : List Char) (hin : IsInline inline) (htail : EndsToken tail) :
    ∀ c ∈ (writtenLabel inline ++ tail).head?, isIdentChar c = false := by
  cases inline with
  | none =>
    intro c hc
    exact (htail c hc).1
  | some p =>
    obtain ⟨label, opener, closer, shape⟩ := p
    obtain ⟨hd, _⟩ := hin _ rfl
    simp only [shapeDelimiters, List.mem_cons, Prod.mk.injEq, List.mem_singleton,
      List.not_mem_nil, or_false] at hd
    rcases hd with ⟨rfl, rfl, rfl⟩ | ⟨rfl, rfl, rfl⟩ | ⟨rfl, rfl, rfl⟩ | ⟨rfl, rfl, rfl⟩ <;>
    · intro c hc
      simp only [writtenLabel, List.cons_append, List.nil_append, List.head?_cons,
        Option.mem_def, Option.some.injEq] at hc
      subst hc
      decide

theorem takeEndpoint_written (x : List Char)
    (inline : Option (List Char × (List Char × List Char × String))) (tail : List Char)
    (hne : x ≠ []) (hx : ∀ c ∈ x, isIdentChar c = true) (hin : IsInline inline)
    (htail : EndsToken tail) :
    takeEndpoint (x ++ (writtenLabel inline ++ tail)) =
      some ({ ID := String.mk x, Inline := readLabel inline }, tail) := by
  unfold takeEndpoint
  rw [span_ident x _ hx (head_writtenLabel inline tail hin htail)]
  cases x with
  | nil => exact absurd rfl hne
  | cons c cs =>
    simp only [takeLabel_written inline tail hin htail, Option.map_some']

theorem takeArrow_written (arrow t : List Char) (ha : arrow ∈ arrowTokens) :
    takeArrowFrom arrowTokens (arrow ++ t) = some (arrow, t) := by
  simp only [arrowTokens, List.mem_cons, List.mem_singleton, List.not_mem_nil, or_false] at ha
  rcases ha with rfl | rfl | rfl | rfl <;>
    simp [arrowTokens, takeArrowFrom, List.isPrefixOf]

theorem arrow_cons (arrow : List Char) (ha : arrow ∈ arrowTokens) :
    ∃ (c : Char) (cs : List Char), arrow = c :: cs ∧ isBlank c = false := by
  simp only [arrowTokens, List.mem_cons, List.mem_singleton, List.not_mem_nil, or_false] at ha
  rcases ha with rfl | rfl | rfl | rfl <;> exact ⟨_, _, rfl, by decide⟩

theorem dropWhile_blanks_ident (b y r : List Char) (hb : IsBlanks b) (hne : y ≠ [])
    (hy : ∀ c ∈ y, isIdentChar c = true) : (b ++ (y ++ r)).dropWhile isBlank = y ++ r := by
  rw [List.dropWhile_append_of_pos hb]
  exact dropWhile_blank_ident y r hne hy

theorem dropWhile_isBlank_eq_nil (b : List Char) (hb : IsBlanks b) :
    b.dropWhile isBlank = [] := by
  rw [List.dropWhile_eq_nil_iff]
  exact hb

/-- After the arrow: the blanks, the optional pipe-delimited label, the blanks
and the second endpoint. -/
theorem pipeLabel_written (b₂ : List Char) (label : Option (List Char)) (b₃ y r : List Char)
    (hb₂ : IsBlanks b₂) (hl : IsPipeText label) (hb₃ : IsBlanks b₃) (hne : y ≠ [])
    (hy : ∀ c ∈ y, isIdentChar c = true) :
    ∃ s₂ : List Char,
      takePipeLabel ((b₂ ++ (writtenPipe label ++ (b₃ ++ (y ++ r)))).dropWhile isBlank) =
        some (readPipe label, s₂) ∧
      s₂.dropWhile isBlank = y ++ r := by
  cases label with
  | none =>
    refine ⟨y ++ r, ?_, dropWhile_blank_ident y r hne hy⟩
    have h : (b₂ ++ (writtenPipe none ++ (b₃ ++ (y ++ r)))).dropWhile isBlank = y ++ r := by
      rw [List.dropWhile_append_of_pos hb₂]
      exact dropWhile_blanks_ident b₃ y r hb₃ hne hy
    rw [h]
    exact takePipeLabel_ident y r hne hy
  | some text =>
    refine ⟨b₃ ++ (y ++ r), ?_, dropWhile_blanks_ident b₃ y r hb₃ hne hy⟩
    have h : (b₂ ++ (writtenPipe (some text) ++ (b₃ ++ (y ++ r)))).dropWhile isBlank =
        '|' :: (text ++ ('|' :: [] ++ (b₃ ++ (y ++ r)))) := by
      rw [List.dropWhile_append_of_pos hb₂]
      show ('|' :: (text ++ ['|'] ++ (b₃ ++ (y ++ r)))).dropWhile isBlank = _
      rw [List.dropWhile_cons_of_neg (by decide), List.append_assoc]
    rw [h]
    have hsplit := splitAtFirst_written '|' [] text (b₃ ++ (y ++ r))
      (fun c hc => (hl text rfl c hc).1)
    simp only [takePipeLabel, if_true, hsplit, Option.map_some', readPipe]

theorem takeLinkRest_written (width : Nat) (src : Endpoint) (arrow b₂ : List Char)
    (label : Option (List Char)) (b₃ y : List Char)
    (ly : Option (List Char × (List Char × List Char × String))) (b₄ : List Char)
    (ha : arrow ∈ arrowTokens) (hb₂ : IsBlanks b₂) (hl : IsPipeText label)
    (hb₃ : IsBlanks b₃) (hne : y ≠ []) (hy : ∀ c ∈ y, isIdentChar c = true)
    (hin : IsInline ly) (hb₄ : IsBlanks b₄) :
    takeLinkRest width src
        (arrow ++ (b₂ ++ (writtenPipe label ++ (b₃ ++ (y ++ (writtenLabel ly ++ b₄)))))) =
      some { From := src, Arrow := String.mk arrow, BiDir := isBidirectional arrow,
             Label := readPipe label, To := { ID := String.mk y, Inline := readLabel ly },
             ToColumn := width - (y ++ (writtenLabel ly ++ b₄)).length + 1 } := by
  obtain ⟨s₂, hpipe, hs₂⟩ := pipeLabel_written b₂ label b₃ y (writtenLabel ly ++ b₄)
    hb₂ hl hb₃ hne hy
  have hend := takeEndpoint_written y ly b₄ hne hy hin
    (by
      have h := endsToken_blanks b₄ [] hb₄ endsToken_nil
      rw [List.append_nil] at h
      exact h)
  simp only [takeLinkRest, takeArrow_written arrow _ ha, hpipe, hs₂, hend,
    dropWhile_isBlank_eq_nil b₄ hb₄, if_true]

theorem readNodeOrLink_written (width : Nat) (x : List Char)
    (lx : Option (List Char × (List Char × List Char × String)))
    (b₁ arrow b₂ : List Char) (label : Option (List Char)) (b₃ y : List Char)
    (ly : Option (List Char × (List Char × List Char × String))) (b₄ : List Char)
    (hx : x ≠ []) (hxi : ∀ c ∈ x, isIdentChar c = true) (hlx : IsInline lx)
    (hb₁ : IsBlanks b₁) (ha : arrow ∈ arrowTokens) (hb₂ : IsBlanks b₂)
    (hl : IsPipeText label) (hb₃ : IsBlanks b₃)
    (hy : y ≠ []) (hyi : ∀ c ∈ y, isIdentChar c = true) (hly : IsInline ly)
    (hb₄ : IsBlanks b₄) :
    readNodeOrLink width (writtenLine x lx b₁ arrow b₂ label b₃ y ly b₄) =
      some (Line.link
        { From := { ID := String.mk x, Inline := readLabel lx },
          Arrow := String.mk arrow, BiDir := isBidirectional arrow, Label := readPipe label,
          To := { ID := String.mk y, Inline := readLabel ly },
          ToColumn := width - (y ++ (writtenLabel ly ++ b₄)).length + 1 }) := by
  obtain ⟨c, cs, hcs, hc⟩ := arrow_cons arrow ha
  have hend := takeEndpoint_written x lx
    (b₁ ++ (arrow ++ (b₂ ++ (writtenPipe label ++ (b₃ ++ (y ++ (writtenLabel ly ++ b₄)))))))
    hx hxi hlx (endsToken_blanks b₁ _ hb₁ (endsToken_arrow arrow _ ha))
  have hmore : (b₁ ++ (arrow ++ (b₂ ++ (writtenPipe label ++
      (b₃ ++ (y ++ (writtenLabel ly ++ b₄))))))).dropWhile isBlank =
      c :: (cs ++ (b₂ ++ (writtenPipe label ++ (b₃ ++ (y ++ (writtenLabel ly ++ b₄)))))) := by
    rw [List.dropWhile_append_of_pos hb₁, hcs]
    show (c :: (cs ++ _)).dropWhile isBlank = _
    rw [List.dropWhile_cons_of_neg (by rw [hc]; exact Bool.false_ne_true)]
  have h := readNodeOrLink_of_more width _ _ _ c _ hend hmore
  unfold writtenLine
  rw [h]
  have hrest := takeLinkRest_written width
    { ID := String.mk x, Inline := readLabel lx } arrow b₂ label b₃ y ly b₄ ha hb₂ hl hb₃
    hy hyi hly hb₄
  rw [hcs] at hrest
  rw [show c :: (cs ++ (b₂ ++ (writtenPipe label ++ (b₃ ++ (y ++ (writtenLabel ly ++ b₄)))))) =
    (c :: cs) ++ (b₂ ++ (writtenPipe label ++ (b₃ ++ (y ++ (writtenLabel ly ++ b₄))))) from rfl,
    hrest, hcs]
  rfl

theorem readLine_written (pad x : List Char)
    (lx : Option (List Char × (List Char × List Char × String)))
    (b₁ arrow b₂ : List Char) (label : Option (List Char)) (b₃ y : List Char)
    (ly : Option (List Char × (List Char × List Char × String))) (b₄ : List Char)
    (hpad : IsBlanks pad)
    (hx : IsIdentifier x) (hlx : IsInline lx) (hb₁ : IsBlanks b₁) (ha : arrow ∈ arrowTokens)
    (hb₂ : IsBlanks b₂) (hl : IsPipeText label) (hb₃ : IsBlanks b₃)
    (hy : IsIdentifier y) (hly : IsInline ly) (hb₄ : IsBlanks b₄) :
    readLine (pad ++ writtenLine x lx b₁ arrow b₂ label b₃ y ly b₄) =
      some (Line.link
        { From := { ID := String.mk x, Inline := readLabel lx },
          Arrow := String.mk arrow, BiDir := isBidirectional arrow, Label := readPipe label,
          To := { ID := String.mk y, Inline := readLabel ly },
          ToColumn := (pad ++ writtenLine x lx b₁ arrow b₂ label b₃ y ly b₄).length -
            (y ++ (writtenLabel ly ++ b₄)).length + 1 }) := by
  obtain ⟨hxne, hxi, hxr⟩ := hx
  have hs : (pad ++ writtenLine x lx b₁ arrow b₂ label b₃ y ly b₄).dropWhile isBlank =
      writtenLine x lx b₁ arrow b₂ label b₃ y ly b₄ := by
    rw [List.dropWhile_append_of_pos hpad]
    exact dropWhile_blank_ident x _ hxne hxi
  have hspan : (writtenLine x lx b₁ arrow b₂ label b₃ y ly b₄).span isIdentChar =
      (x, writtenLabel lx ++ (b₁ ++ (arrow ++ (b₂ ++ (writtenPipe label ++
        (b₃ ++ (y ++ (writtenLabel ly ++ b₄)))))))) :=
    span_ident x _ hxi (head_writtenLabel lx _ hlx
      (endsToken_blanks b₁ _ hb₁ (endsToken_arrow arrow _ ha)))
  have hne : ¬ writtenLine x lx b₁ arrow b₂ label b₃ y ly b₄ = [] := by
    unfold writtenLine
    intro h
    exact hxne (List.append_eq_nil.mp h).1
  have hpct : ¬ ['%', '%'].isPrefixOf (writtenLine x lx b₁ arrow b₂ label b₃ y ly b₄) = true := by
    unfold writtenLine
    cases x with
    | nil => exact absurd rfl hxne
    | cons c cs =>
      have hc : c ≠ '%' :=
        ne_of_isIdentChar c '%' (hxi c (List.mem_cons_self _ _)) (by decide)
      rw [List.cons_append, isPrefixOf_cons_ne _ _ _ _ hc]
      exact Bool.false_ne_true
  simp only [reservedWords, List.mem_cons, List.mem_singleton, List.not_mem_nil, or_false,
    not_or] at hxr
  obtain ⟨h1, h2, h3, h4, h5⟩ := hxr
  simp only [readLine, hs, hspan]
  rw [if_neg hne, if_neg hpct, if_neg h1, if_neg (fun h => h2 h.1),
    if_neg (fun h => h.elim h3 h4), if_neg h5]
  exact readNodeOrLink_written _ x lx b₁ arrow b₂ label b₃ y ly b₄ hxne hxi hlx hb₁ ha hb₂ hl
    hb₃ hy.1 hy.2.1 hly hb₄

theorem newline_not_mem_blanks (b : List Char) (hb : IsBlanks b) : '\n' ∉ b := by
  intro h
  have := hb _ h
  revert this
  decide

theorem newline_not_mem_writtenPipe (label : Option (List Char)) (hl : IsPipeText label) :
    '\n' ∉ writtenPipe label := by
  cases label with
  | none => simp [writtenPipe]
  | some text =>
    simp only [writtenPipe, List.mem_cons, List.mem_append, List.mem_singleton,
      List.not_mem_nil, or_false, not_or]
    exact ⟨by decide, fun h => (hl text rfl _ h).2 rfl, by decide⟩

theorem newline_not_mem_writtenLine (x : List Char)
    (lx : Option (List Char × (List Char × List Char × String)))
    (b₁ arrow b₂ : List Char) (label : Option (List Char)) (b₃ y : List Char)
    (ly : Option (List Char × (List Char × List Char × String))) (b₄ : List Char)
    (hx : ∀ c ∈ x, isIdentChar c = true) (hlx : IsInline lx) (hb₁ : IsBlanks b₁)
    (ha : arrow ∈ arrowTokens) (hb₂ : IsBlanks b₂) (hl : IsPipeText label)
    (hb₃ : IsBlanks b₃) (hy : ∀ c ∈ y, isIdentChar c = true) (hly : IsInline ly)
    (hb₄ : IsBlanks b₄) :
    '\n' ∉ writtenLine x lx b₁ arrow b₂ label b₃ y ly b₄ := by
  have harrow : '\n' ∉ arrow := by
    simp only [arrowTokens, List.mem_cons, List.mem_singleton, List.not_mem_nil,
      or_false] at ha
    rcases ha with rfl | rfl | rfl | rfl <;> decide
  unfold writtenLine
  simp only [List.mem_append, not_or]
  exact ⟨newline_not_mem_ident x hx, newline_not_mem_writtenLabel lx hlx,
    newline_not_mem_blanks b₁ hb₁, harrow, newline_not_mem_blanks b₂ hb₂,
    newline_not_mem_writtenPipe label hl, newline_not_mem_blanks b₃ hb₃,
    newline_not_mem_ident y hy, newline_not_mem_writtenLabel ly hly,
    newline_not_mem_blanks b₄ hb₄⟩

theorem parsedStatements_written (pad x : List Char)
    (lx : Option (List Char × (List Char × List Char × String)))
    (b₁ arrow b₂ : List Char) (label : Option (List Char)) (b₃ y : List Char)
    (ly : Option (List Char × (List Char × List Char × String))) (b₄ : List Char)
    (hpad : IsBlanks pad)
    (hx : IsIdentifier x) (hlx : IsInline lx) (hb₁ : IsBlanks b₁) (ha : arrow ∈ arrowTokens)
    (hb₂ : IsBlanks b₂) (hl : IsPipeText label) (hb₃ : IsBlanks b₃)
    (hy : IsIdentifier y) (hly : IsInline ly) (hb₄ : IsBlanks b₄) :
    parsedStatements (String.mk ("graph LR\n".data ++
        (pad ++ writtenLine x lx b₁ arrow b₂ label b₃ y ly b₄))) =
      some (expectedNodeDef x lx ++
        [Emitted.link (String.mk x) (String.mk y) (String.mk arrow) (readPipe label)
          (isBidirectional arrow)] ++
        nodeDefAfter x lx y ly) := by
  have hsplit : splitLines ("graph LR\n".data ++
      (pad ++ writtenLine x lx b₁ arrow b₂ label b₃ y ly b₄)) =
      ["graph LR".data, pad ++ writtenLine x lx b₁ arrow b₂ label b₃ y ly b₄] := by
    have h1 := splitLines_append "graph LR".data
      (pad ++ writtenLine x lx b₁ arrow b₂ label b₃ y ly b₄) (by decide)
    have h2 : '\n' ∉ pad ++ writtenLine x lx b₁ arrow b₂ label b₃ y ly b₄ := by
      rw [List.mem_append, not_or]
      exact ⟨newline_not_mem_blanks pad hpad,
        newline_not_mem_writtenLine x lx b₁ arrow b₂ label b₃ y ly b₄ hx.2.1 hlx hb₁ ha hb₂
          hl hb₃ hy.2.1 hly hb₄⟩
    rw [splitLines_of_not_mem _ h2] at h1
    exact h1
  have hheader : readHeader "graph LR".data = some ("graph", "LR") := by decide
  have hline := readLine_written pad x lx b₁ arrow b₂ label b₃ y ly b₄ hpad hx hlx hb₁ ha
    hb₂ hl hb₃ hy hly hb₄
  have hemit := emitLink_emitted []
    { From := { ID := String.mk x, Inline := readLabel lx },
      Arrow := String.mk arrow, BiDir := isBidirectional arrow, Label := readPipe label,
      To := { ID := String.mk y, Inline := readLabel ly },
      ToColumn := (pad ++ writtenLine x lx b₁ arrow b₂ label b₃ y ly b₄).length -
        (y ++ (writtenLabel ly ++ b₄)).length + 1 }
    (linePos 2 (pad ++ writtenLine x lx b₁ arrow b₂ label b₃ y ly b₄))
    (List.not_mem_nil _) (List.not_mem_nil _)
  have hcond : (String.mk x = String.mk y ∧ (readLabel lx).isSome = true) ↔
      (x = y ∧ lx.isSome = true) := by
    constructor
    · rintro ⟨h1, h2⟩
      refine ⟨congrArg String.data h1, ?_⟩
      cases lx with
      | none => cases h2
      | some p => rfl
    · rintro ⟨h1, h2⟩
      refine ⟨congrArg String.mk h1, ?_⟩
      cases lx with
      | none => cases h2
      | some p => rfl
  simp only [inlineNodeDef_read] at hemit
  simp only [parsedStatements, parseFlowchart, hsplit, hheader, parseBody, hline, parseStep,
    ParserState.push, List.nil_append]
  rw [hemit]
  unfold nodeDefAfter
  by_cases hc : x = y ∧ lx.isSome = true
  · rw [if_pos hc, if_pos (hcond.mpr hc)]
  · rw [if_neg hc, if_neg (fun h => hc (hcond.mp h))]

/-- C15, as the model has it: for a link line `X<lx> arrow |label| Y<ly>` read
in a scope where neither `X` nor `Y` is defined, the parser emits, in this
order, a node definition for `X` with its label verbatim and the shape tag of
its delimiters exactly when `X` is inline-labeled, the link from `X` to `Y`
with its arrow token and label, and a node definition for `Y` exactly when `Y`
is inline-labeled and is not the identifier that the label of `X` has just
defined; a bare endpoint gives no node definition. This holds of the statements
emitted for a link line as read, and of the parse of every source `graph LR`
followed by such a line as written, with one of the four arrow tokens, an
optional pipe-delimited label and any blanks before, between and after the
tokens; the sources of the tests parse as the tests expect. -/
theorem inline_definitions_of_link :
    (∀ (defined : List String) (l : LinkLine) (pos : Position),
      l.From.ID ∉ defined → l.To.ID ∉ defined →
      (emitLink defined l pos).1.map Statement.emitted =
        inlineNodeDef l.From ++
          [Emitted.link l.From.ID l.To.ID l.Arrow l.Label l.BiDir] ++
          (if l.From.ID = l.To.ID ∧ l.From.Inline.isSome = true then []
           else inlineNodeDef l.To)) ∧
    (∀ (id label shape : String),
      inlineNodeDef { ID := id, Inline := none } = [] ∧
      inlineNodeDef { ID := id, Inline := some (label, shape) } =
        [Emitted.nodeDef id label shape]) ∧
    (∀ (pad x : List Char) (lx : Option (List Char × (List Char × List Char × String)))
        (b₁ arrow b₂ : List Char) (label : Option (List Char)) (b₃ y : List Char)
        (ly : Option (List Char × (List Char × List Char × String))) (b₄ : List Char),
      IsBlanks pad → IsIdentifier x → IsInline lx → IsBlanks b₁ → arrow ∈ arrowTokens →
      IsBlanks b₂ → IsPipeText label → IsBlanks b₃ → IsIdentifier y → IsInline ly →
      IsBlanks b₄ →
      parsedStatements (String.mk ("graph LR\n".data ++
          (pad ++ writtenLine x lx b₁ arrow b₂ label b₃ y ly b₄))) =
        some (expectedNodeDef x lx ++
          [Emitted.link (String.mk x) (String.mk y) (String.mk arrow) (readPipe label)
            (isBidirectional arrow)] ++
          nodeDefAfter x lx y ly)) ∧
    (∀ (x y : List Char) (lx ly : Option (List Char × (List Char × List Char × String))),
      x ≠ y → nodeDefAfter x lx y ly = expectedNodeDef y ly) ∧
    parsedStatements "graph LR\n    A[Start] --> B[End]" =
      some [ Emitted.nodeDef "A" "Start" "[]",
             Emitted.link "A" "B" "-->" "" false,
             Emitted.nodeDef "B" "End" "[]" ] ∧
    parsedStatements "graph LR\n    A[Defined] --> B" =
      some [ Emitted.nodeDef "A" "Defined" "[]",
             Emitted.link "A" "B" "-->" "" false ] ∧
    parsedStatements "graph LR\n    A --> B[Inline]" =
      some [ Emitted.link "A" "B" "-->" "" false,
             Emitted.nodeDef "B" "Inline" "[]" ] ∧
    parsedStatements
        "graph LR\n    A[Rectangle] --> B(Rounded)\n    B --> C{Diamond}\n    C --> D[[Subroutine]]" =
      some [ Emitted.nodeDef "A" "Rectangle" "[]",
             Emitted.link "A" "B" "-->" "" false,
             Emitted.nodeDef "B" "Rounded" "()",
             Emitted.link "B" "C" "-->" "" false,
             Emitted.nodeDef "C" "Diamond" "{}",
             Emitted.link "C" "D" "-->" "" false,
             Emitted.nodeDef "D" "Subroutine" "[[]]" ] ∧
    parsedStatements "graph LR\n    A[Start] -->|Flow| B[Process]" =
      some [ Emitted.nodeDef "A" "Start" "[]",
             Emitted.link "A" "B" "-->" "Flow" false,
             Emitted.nodeDef "B" "Process" "[]" ] ∧
    parsedStatements "graph LR\n    A[Start<br>Multiline] --> B[Process & Filter]" =
      some [ Emitted.nodeDef "A" "Start<br>Multiline" "[]",
             Emitted.link "A" "B" "-->" "" false,
             Emitted.nodeDef "B" "Process & Filter" "[]" ] ∧
    parsedStatements "graph LR\n    A[Node A] <--> B[Node B]" =
      some [ Emitted.nodeDef "A" "Node A" "[]",
             Emitted.link "A" "B" "<-->" "" true,
             Emitted.nodeDef "B" "Node B" "[]" ] ∧
    parsedStatements "graph LR\n    A[Start] -.-> B[Optional]" =
      some [ Emitted.nodeDef "A" "Start" "[]",
             Emitted.link "A" "B" "-.->" "" false,
             Emitted.nodeDef "B" "Optional" "[]" ] ∧
    parsedStatements "graph LR\n    A[Start] ==> B[Important]" =
      some [ Emitted.nodeDef "A" "Start" "[]",
             Emitted.link "A" "B" "==>" "" false,
             Emitted.nodeDef "B" "Important" "[]" ] ∧
    parsedStatements "graph LR\n    A[Start] --> A[End]" =
      some [ Emitted.nodeDef "A" "Start" "[]",
             Emitted.link "A" "A" "-->" "" false ] ∧
    parsedStatements "graph LR\n    A --> A[End]" =
      some [ Emitted.link "A" "A" "-->" "" false,
             Emitted.nodeDef "A" "End" "[]" ] := by
  refine ⟨emitLink_emitted, fun _ _ _ => ⟨rfl, rfl⟩, parsedStatements_written, ?_,
    by decide, by decide, by decide, by decide, by decide, by decide, by decide, by decide,
    by decide, by decide, by decide⟩
  intro x y lx ly hxy
  unfold nodeDefAfter
  rw [if_neg (fun h => hxy h.1)]

/-- Witness for C15 as amended: the line `A[Start]`, a tab, `-->|Flow|`, a
space, `B`, a space, written after two blanks, parses to the node definition
of `A` and the labeled link; the bare `B` gives no node definition. -/
theorem inline_definitions_of_link_witness :
    parsedStatements (String.mk ("graph LR\n".data ++ ("  ".data ++
        writtenLine "A".data (some ("Start".data, ['['], [']'], "[]")) "\t".data "-->".data []
          (some "Flow".data) " ".data "B".data none " ".data))) =
      some [ Emitted.nodeDef "A" "Start" "[]", Emitted.link "A" "B" "-->" "Flow" false ] :=
  inline_definitions_of_link.2.2.1 "  ".data "A".data
    (some ("Start".data, ['['], [']'], "[]")) "\t".data "-->".data [] (some "Flow".data)
    " ".data "B".data none " ".data
    (by unfold IsBlanks; decide)
    ⟨by decide, by decide, by decide⟩
    (by
      intro p hp
      cases hp
      exact ⟨by decide, by unfold IsPlainLabel; decide⟩)
    (by unfold IsBlanks; decide)
    (by decide)
    (by unfold IsBlanks; decide)
    (by
      intro t ht
      cases ht
      decide)
    (by unfold IsBlanks; decide)
    ⟨by decide, by decide, by decide⟩
    (by
      intro p hp
      cases hp)
    (by unfold IsBlanks; decide)

/-- Counterexample to C15 as stated: in the line `A[Start] --> A[End]` neither
identifier is defined and both endpoints are inline-labeled, yet no node
definition follows the link: the label of the first endpoint has defined `A`
by the time the second is reached, and the first label wins. -/
theorem inline_definitions_self_link_counterexample :
    parsedStatements "graph LR\n    A[Start] --> A[End]" =
      some [ Emitted.nodeDef "A" "Start" "[]", Emitted.link "A" "A" "-->" "" false ] ∧
    ¬ (∀ (defined : List String) (l : LinkLine) (pos : Position),
        l.From.ID ∉ defined → l.To.ID ∉ defined →
        (emitLink defined l pos).1.map Statement.emitted =
          inlineNodeDef l.From ++
            [Emitted.link l.From.ID l.To.ID l.Arrow l.Label l.BiDir] ++
            inlineNodeDef l.To) := by
  refine ⟨by decide, ?_⟩
  intro h
  have h0 := h []
    { From := { ID := "A", Inline := some ("Start", "[]") }, Arrow := "-->", BiDir := false,
      Label := "", To := { ID := "A", Inline := some ("End", "[]") }, ToColumn := 18 }
    { Line := 2, Column := 5 } (by decide) (by decide)
  revert h0
  decide

/-! ## Further properties of the rule `no-duplicate-states` -/

/-- C26: when every State statement of a diagram has line and column at least
1, every diagnostic of `NoDuplicateStates` has line and column at least 1, and
the line of first definition that its message cites is at least 1. -/
theorem noDuplicateStates_positive (quote : String → String) (diagram : StateDiagram)
    (hpos : ∀ s : State, StateStmt.state s ∈ diagram.Statements →
      1 ≤ s.Pos.Line ∧ 1 ≤ s.Pos.Column) :
    ∀ e ∈ NoDuplicateStates.ValidateState quote diagram,
      1 ≤ e.Line ∧ 1 ≤ e.Column ∧
      ∃ (x : String) (L : Int), 1 ≤ L ∧
        e.Message = "duplicate state ID " ++ quote x ++ " (first defined at line " ++
          toString L ++ ")" := by
  intro e he
  rw [validateState_eq_reported, List.mem_filterMap] at he
  obtain ⟨i, _, hi⟩ := he
  obtain ⟨s, f, j, hs, _, hj, _, _, rfl⟩ := reportAt_eq_some quote _ i e hi
  have h1 := hpos s (List.getElem?_mem hs)
  have h2 := hpos f (List.getElem?_mem hj)
  exact ⟨h1.1, h1.2, s.ID, f.Pos.Line, h2.1, rfl⟩

/-- Witness for C26: the State statements of `sampleDiagram` sit at lines 2 to
7, column 1. -/
theorem noDuplicateStates_positive_witness :
    (NoDuplicateStates.ValidateState plainQuote sampleDiagram).map
        (fun e => (e.Line, e.Column)) = [(5, 1), (6, 1), (7, 1)] ∧
    ∀ e ∈ NoDuplicateStates.ValidateState plainQuote sampleDiagram,
      1 ≤ e.Line ∧ 1 ≤ e.Column ∧
      ∃ (x : String) (L : Int), 1 ≤ L ∧
        e.Message = "duplicate state ID " ++ plainQuote x ++ " (first defined at line " ++
          toString L ++ ")" :=
  ⟨by decide,
    noDuplicateStates_positive plainQuote sampleDiagram (by
      intro s hs
      simp only [sampleDiagram, stateAt, List.mem_cons, List.mem_singleton, List.not_mem_nil,
        or_false, StateStmt.state.injEq, false_or, reduceCtorEq] at hs
      rcases hs with rfl | rfl | rfl | rfl | rfl <;> decide)⟩

theorem foldl_visit_filter (quote : String → String) (stmts : List StateStmt) (acc : DupScan) :
    (stmts.filter isStateStmt).foldl (NoDuplicateStates.visit quote) acc =
      stmts.foldl (NoDuplicateStates.visit quote) acc := by
  induction stmts generalizing acc with
  | nil => rfl
  | cons t rest ih =>
    cases t with
    | state s =>
      rw [List.filter_cons_of_pos (by rfl), List.foldl_cons, List.foldl_cons, ih]
    | _ =>
      rw [List.filter_cons_of_neg (by simp [isStateStmt]), List.foldl_cons, ih]
      rfl

/-- C27: deleting every statement other than a State statement leaves the
diagnostics of `NoDuplicateStates` unchanged; in `pseudoStateDiagram`, where a
fork, a join and a choice carry the ID of the declared state, nothing is
reported. -/
theorem noDuplicateStates_ignores_others (quote : String → String) (diagram : StateDiagram) :
    NoDuplicateStates.ValidateState quote
        { diagram with Statements := diagram.Statements.filter isStateStmt } =
      NoDuplicateStates.ValidateState quote diagram ∧
    NoDuplicateStates.ValidateState quote pseudoStateDiagram = [] := by
  constructor
  · unfold NoDuplicateStates.ValidateState
    rw [foldl_visit_filter]
  · rfl

theorem foldl_visit_errors (quote : String → String) (stmts : List StateStmt) (acc : DupScan) :
    ∃ rest : List ValidationError,
      (stmts.foldl (NoDuplicateStates.visit quote) acc).errors = acc.errors ++ rest := by
  induction stmts generalizing acc with
  | nil => exact ⟨[], by simp⟩
  | cons t rest ih =>
    obtain ⟨r, hr⟩ := ih (NoDuplicateStates.visit quote acc t)
    rw [List.foldl_cons, hr]
    cases t with
    | state s =>
      cases hl : mapLookup acc.seen s.ID with
      | none =>
        rw [visit_state_none quote acc s hl]
        exact ⟨r, rfl⟩
      | some pos =>
        rw [visit_state_some quote acc s pos hl]
        exact ⟨_, List.append_assoc _ _ r⟩
    | _ => exact ⟨r, rfl⟩

/-- C28: the diagnostics of `NoDuplicateStates` for the statements `xs ++ ys`
begin with its diagnostics for `xs`. -/
theorem noDuplicateStates_prefix (quote : String → String) (d : StateDiagram)
    (xs ys : List StateStmt) :
    ∃ rest : List ValidationError,
      NoDuplicateStates.ValidateState quote { d with Statements := xs ++ ys } =
        NoDuplicateStates.ValidateState quote { d with Statements := xs } ++ rest := by
  unfold NoDuplicateStates.ValidateState
  simp only [List.foldl_append]
  exact foldl_visit_errors quote ys _

/-- C29: the number of diagnostics of `NoDuplicateStates` is the same for two
diagrams whose statement lists are permutations of each other. -/
theorem noDuplicateStates_length_perm (quote : String → String) (d₁ d₂ : StateDiagram)
    (h : d₁.Statements.Perm d₂.Statements) :
    (NoDuplicateStates.ValidateState quote d₁).length =
      (NoDuplicateStates.ValidateState quote d₂).length := by
  have h1 := validateState_length_add_card quote d₁
  have h2 := validateState_length_add_card quote d₂
  have hids : (stateIDs d₁.Statements).Perm (stateIDs d₂.Statements) := h.filterMap _
  rw [List.toFinset_eq_of_perm _ _ hids, hids.length_eq] at h1
  omega

/-- Witness for C29: `sampleDiagram` and the diagram with its statements in
reverse order both get three diagnostics. -/
theorem noDuplicateStates_length_perm_witness :
    (NoDuplicateStates.ValidateState plainQuote
        (stateDiagramOf sampleDiagram.Statements.reverse)).length =
      (NoDuplicateStates.ValidateState plainQuote sampleDiagram).length ∧
    (NoDuplicateStates.ValidateState plainQuote sampleDiagram).length = 3 :=
  ⟨noDuplicateStates_length_perm plainQuote (stateDiagramOf sampleDiagram.Statements.reverse)
      sampleDiagram (List.reverse_perm _), by decide⟩

theorem repeatsAt_snoc_lt (l : List StateStmt) (a : StateStmt) (i : Nat) (h : i < l.length) :
    repeatsAt (l ++ [a]) i = repeatsAt l i := by
  rw [← reportAt_isSome id, ← reportAt_isSome id, reportAt_snoc_lt id l a i h]

theorem repeatsAt_snoc_length (l : List StateStmt) (a : StateStmt) :
    repeatsAt (l ++ [a]) l.length =
      match a with
      | .state s => (firstState l s.ID).isSome
      | _ => false := by
  rw [← reportAt_isSome id, reportAt_snoc_length]
  cases a with
  | state s => simp only [Option.isSome_map']
  | _ => rfl

theorem removeReported_snoc (l : List StateStmt) (a : StateStmt) :
    removeReported (l ++ [a]) =
      removeReported l ++ (if repeatsAt (l ++ [a]) l.length then [] else [a]) := by
  unfold removeReported
  rw [List.length_append, List.length_singleton, List.range_succ, List.filterMap_append]
  congr 1
  · apply List.filterMap_congr
    intro i hi
    have hlt : i < l.length := List.mem_range.mp hi
    rw [repeatsAt_snoc_lt l a i hlt, List.getElem?_append_left hlt]
  · cases h : repeatsAt (l ++ [a]) l.length
    · simp [List.filterMap_cons, h]
    · simp [List.filterMap_cons, h]

theorem dupIndices_snoc (l : List StateStmt) (a : StateStmt) :
    dupIndices (l ++ [a]) =
      dupIndices l ++ (if repeatsAt (l ++ [a]) l.length then [l.length] else []) := by
  unfold dupIndices
  rw [List.length_append, List.length_singleton, List.range_succ, List.filter_append]
  congr 1
  · apply List.filter_congr
    intro i hi
    exact repeatsAt_snoc_lt l a i (List.mem_range.mp hi)
  · cases h : repeatsAt (l ++ [a]) l.length
    · simp [List.filter_cons, h]
    · simp [List.filter_cons, h]

/-- Removing the reported statements keeps, for every ID, the earliest State
statement, leaves no two State statements with one ID, and removes as many
statements as there are reported occurrences. -/
theorem removeReported_invariant (l : List StateStmt) :
    (stateIDs (removeReported l)).Nodup ∧
    (∀ x : String, firstState (removeReported l) x = firstState l x) ∧
    (removeReported l).length + (dupIndices l).length = l.length := by
  induction l using List.reverseRecOn with
  | nil => exact ⟨List.nodup_nil, fun _ => rfl, rfl⟩
  | append_singleton l a ih =>
    obtain ⟨hnodup, hfirst, hlen⟩ := ih
    rw [removeReported_snoc, dupIndices_snoc, repeatsAt_snoc_length]
    cases a with
    | state s =>
      cases hf : firstState l s.ID with
      | some f =>
        simp only [hf, Option.isSome_some, if_true, List.append_nil, List.length_append,
          List.length_singleton, List.length_nil]
        refine ⟨hnodup, ?_, by omega⟩
        intro x
        rw [hfirst x, firstState_snoc]
        by_cases hx : s.ID = x
        · subst hx
          rw [hf]
          rfl
        · cases firstState l x <;> simp [firstState, hx]
      | none =>
        simp only [hf, Option.isSome_none, Bool.false_eq_true, if_false, List.append_nil,
          List.length_append, List.length_singleton, List.length_nil]
        have hnot : s.ID ∉ stateIDs (removeReported l) := by
          rw [← firstState_eq_none_iff, hfirst, hf]
        refine ⟨?_, ?_, by omega⟩
        · rw [stateIDs_snoc]
          have hids : stateIDs [StateStmt.state s] = [s.ID] := rfl
          rw [hids, List.nodup_append]
          refine ⟨hnodup, List.nodup_singleton _, ?_⟩
          intro y hy hy'
          rw [List.mem_singleton] at hy'
          exact hnot (hy' ▸ hy)
        · intro x
          rw [firstState_snoc, firstState_snoc, hfirst x]
    | _ =>
      simp only [Bool.false_eq_true, if_false, List.append_nil, List.length_append,
        List.length_singleton, List.length_nil]
      refine ⟨?_, ?_, by omega⟩
      · rw [stateIDs_snoc]
        simpa [stateIDs] using hnodup
      · intro x
        rw [firstState_snoc, firstState_snoc, hfirst x]

theorem validateState_eq_nil_of_nodup (quote : String → String) (diagram : StateDiagram)
    (h : (stateIDs diagram.Statements).Nodup) :
    NoDuplicateStates.ValidateState quote diagram = [] := by
  have hlen := validateState_length_add_card quote diagram
  rw [List.toFinset_card_of_nodup h] at hlen
  exact List.eq_nil_of_length_eq_zero (by omega)

theorem removeReported_sublist (l : List StateStmt) : (removeReported l).Sublist l := by
  induction l using List.reverseRecOn with
  | nil => exact List.Sublist.refl _
  | append_singleton l a ih =>
    rw [removeReported_snoc]
    cases repeatsAt (l ++ [a]) l.length
    · exact ih.append (List.Sublist.refl _)
    · exact ih.append (List.nil_sublist _)

/-- C30: removing from a state diagram the State statements at the reported
occurrences (those preceded by a State statement with the same ID) gives a
sublist of the statements, shorter by the number of diagnostics, on which
`NoDuplicateStates` returns nothing and in which the earliest State statement
of every ID is still the earliest State statement of that ID. -/
theorem noDuplicateStates_after_removal (quote : String → String) (diagram : StateDiagram) :
    NoDuplicateStates.ValidateState quote
        { diagram with Statements := removeReported diagram.Statements } = [] ∧
    (∀ (x : String) (f : State), firstState diagram.Statements x = some f →
      firstState (removeReported diagram.Statements) x = some f ∧
      StateStmt.state f ∈ removeReported diagram.Statements) ∧
    (removeReported diagram.Statements).Sublist diagram.Statements ∧
    (removeReported diagram.Statements).length +
        (NoDuplicateStates.ValidateState quote diagram).length =
      diagram.Statements.length ∧
    removeReported sampleDiagram.Statements =
      [ stateAt "Still" 2, stateAt "Moving" 3,
        StateStmt.transition
          { From := "Still", To := "Moving", Pos := { Line := 4, Column := 5 } } ] := by
  obtain ⟨hnodup, hfirst, hlen⟩ := removeReported_invariant diagram.Statements
  refine ⟨validateState_eq_nil_of_nodup quote _ hnodup, ?_, removeReported_sublist _, ?_,
    by decide⟩
  · intro x f hf
    have h := hfirst x
    rw [hf] at h
    obtain ⟨j, hj, _, _⟩ := firstState_eq_some _ x f h
    exact ⟨h, List.getElem?_mem hj⟩
  · have hv := (validateState_forall₂ quote diagram).length_eq
    omega

/-! ## The namespace collected by `valid-state-references` -/

theorem mapLookup_mapStore_true (m : List (String × Bool)) (k x : String)
    (h : k = x ∨ mapLookup m x = some true) : mapLookup (mapStore m k true) x = some true := by
  rw [mapLookup_mapStore]
  by_cases hk : k = x
  · rw [if_pos hk]
  · rw [if_neg hk]
    exact h.resolve_left hk

theorem collectDeclared_keeps (m : List (String × Bool)) (t : StateStmt) (x : String)
    (h : mapLookup m x = some true) :
    mapLookup (ValidStateReferences.collectDeclared m t) x = some true := by
  cases t <;> simp only [ValidStateReferences.collectDeclared] <;>
    first
    | exact h
    | exact mapLookup_mapStore_true _ _ _ (Or.inr h)

theorem collectEndpoints_keeps (m : List (String × Bool)) (t : StateStmt) (x : String)
    (h : mapLookup m x = some true) :
    mapLookup (ValidStateReferences.collectEndpoints m t) x = some true := by
  cases t <;> simp only [ValidStateReferences.collectEndpoints] <;>
    first
    | exact h
    | exact mapLookup_mapStore_true _ _ _
        (Or.inr (mapLookup_mapStore_true _ _ _ (Or.inr h)))

theorem foldl_collectDeclared_keeps (l : List StateStmt) (m : List (String × Bool))
    (x : String) (h : mapLookup m x = some true) :
    mapLookup (l.foldl ValidStateReferences.collectDeclared m) x = some true := by
  induction l generalizing m with
  | nil => exact h
  | cons t rest ih => exact ih _ (collectDeclared_keeps m t x h)

theorem foldl_collectEndpoints_keeps (l : List StateStmt) (m : List (String × Bool))
    (x : String) (h : mapLookup m x = some true) :
    mapLookup (l.foldl ValidStateReferences.collectEndpoints m) x = some true := by
  induction l generalizing m with
  | nil => exact h
  | cons t rest ih => exact ih _ (collectEndpoints_keeps m t x h)

theorem foldl_collectEndpoints_mem (l : List StateStmt) (m : List (String × Bool))
    (tr : Transition) (h : StateStmt.transition tr ∈ l) :
    mapLookup (l.foldl ValidStateReferences.collectEndpoints m) tr.From = some true ∧
    mapLookup (l.foldl ValidStateReferences.collectEndpoints m) tr.To = some true := by
  induction l generalizing m with
  | nil => cases h
  | cons t rest ih =>
    rcases List.mem_cons.mp h with h1 | h1
    · subst h1
      rw [List.foldl_cons]
      constructor
      · apply foldl_collectEndpoints_keeps
        exact mapLookup_mapStore_true _ _ _
          (Or.inr (mapLookup_mapStore_true _ _ _ (Or.inl rfl)))
      · apply foldl_collectEndpoints_keeps
        exact mapLookup_mapStore_true _ _ _ (Or.inl rfl)
    · exact ih _ h1

theorem foldl_collectDeclared_mem (l : List StateStmt) (m : List (String × Bool))
    (x : String) (h : DeclaresID l x) :
    mapLookup (l.foldl ValidStateReferences.collectDeclared m) x = some true := by
  induction l generalizing m with
  | nil =>
    rcases h with ⟨_, h, _⟩ | ⟨_, h, _⟩ | ⟨_, h, _⟩ | ⟨_, h, _⟩ <;> cases h
  | cons t rest ih =>
    rw [List.foldl_cons]
    by_cases hrest : DeclaresID rest x
    · exact ih _ hrest
    · apply foldl_collectDeclared_keeps
      have hstore : ∀ k : String, k = x →
          mapLookup (mapStore m k true) x = some true :=
        fun k hk => mapLookup_mapStore_true _ _ _ (Or.inl hk)
      rcases h with ⟨s, hs, hid⟩ | ⟨s, hs, hid⟩ | ⟨s, hs, hid⟩ | ⟨s, hs, hid⟩
      · rcases List.mem_cons.mp hs with h1 | h1
        · rw [← h1]
          exact hstore _ hid
        · exact absurd (Or.inl ⟨s, h1, hid⟩) hrest
      · rcases List.mem_cons.mp hs with h1 | h1
        · rw [← h1]
          exact hstore _ hid
        · exact absurd (Or.inr (Or.inl ⟨s, h1, hid⟩)) hrest
      · rcases List.mem_cons.mp hs with h1 | h1
        · rw [← h1]
          exact hstore _ hid
        · exact absurd (Or.inr (Or.inr (Or.inl ⟨s, h1, hid⟩))) hrest
      · rcases List.mem_cons.mp hs with h1 | h1
        · rw [← h1]
          exact hstore _ hid
        · exact absurd (Or.inr (Or.inr (Or.inr ⟨s, h1, hid⟩))) hrest

/-- C25, as the code has it: `ValidStateReferences` treats every state named in
a transition as implicitly defined. It records in `definedStates` the IDs of
the State, Fork, Join and Choice statements and the `From` and `To` of every
transition, and returns no diagnostic for any state diagram. -/
theorem validStateReferences_implicit (diagram : StateDiagram) :
    ValidStateReferences.ValidateState diagram = [] ∧
    (∀ tr : Transition, StateStmt.transition tr ∈ diagram.Statements →
      mapLookup (ValidStateReferences.definedStates diagram) tr.From = some true ∧
      mapLookup (ValidStateReferences.definedStates diagram) tr.To = some true) ∧
    (∀ x : String, DeclaresID diagram.Statements x →
      mapLookup (ValidStateReferences.definedStates diagram) x = some true) := by
  refine ⟨rfl, ?_, ?_⟩
  · intro tr htr
    exact foldl_collectEndpoints_mem _ _ tr htr
  · intro x hx
    exact foldl_collectEndpoints_keeps _ _ x (foldl_collectDeclared_mem _ _ x hx)

/-- Counterexample to C25 as stated: the transition of `danglingDiagram` goes
from `A`, which no State, Fork, Join or Choice statement declares, and
`ValidStateReferences.ValidateState` returns no diagnostic. -/
theorem validStateReferences_undeclared_counterexample :
    (∃ tr : Transition, StateStmt.transition tr ∈ danglingDiagram.Statements ∧
      ¬ DeclaresID danglingDiagram.Statements tr.From ∧
      ¬ DeclaresID danglingDiagram.Statements tr.To) ∧
    ¬ 1 ≤ (ValidStateReferences.ValidateState danglingDiagram).length := by
  refine ⟨⟨{ From := "A", To := "B", Pos := { Line := 2, Column := 5 } },
    List.mem_singleton.mpr rfl, ?_, ?_⟩, by decide⟩
  · rintro (⟨_, h, _⟩ | ⟨_, h, _⟩ | ⟨_, h, _⟩ | ⟨_, h, _⟩) <;>
      simp [danglingDiagram] at h
  · rintro (⟨_, h, _⟩ | ⟨_, h, _⟩ | ⟨_, h, _⟩ | ⟨_, h, _⟩) <;>
      simp [danglingDiagram] at h

/-! ## Rendering of diagnostics and validation of any diagram -/

/-- C21: for every Generic diagram, whatever its tag, source text and
position, and whatever the catalogs of the recognized dialects are, `Validate`
returns the empty list, with strict and with default rules; being a total
function it never fails. -/
theorem validate_generic (catalogs : Catalogs) (d : GenericDiagram) :
    (∀ strict : Bool, Validate catalogs (Diagram.generic d) strict = []) ∧
    Validate catalogs (Diagram.generic d) true = [] ∧
    Validate catalogs (Diagram.generic d) false = [] ∧
    ∀ (quote : String → String) (w : FlowchartWording)
      (sequence : Bool → SequenceDiagram → List ValidationError)
      (classDiagram : Bool → ClassDiagram → List ValidationError) (strict : Bool),
      Validate (catalogsWith quote w sequence classDiagram)
        (Diagram.generic { Type_ := "unknown", Source := "unknown diagram",
                           Pos := { Line := 1, Column := 0 } }) strict = [] :=
  ⟨fun _ => rfl, rfl, rfl, fun _ _ _ _ _ => rfl⟩

/-- C22: the rendering of a diagnostic with line `L`, column `C`, severity `S`
and message `M` is `line <L>, col <C>: <severity>: <M>`, the severity being
`error`, `warning` or `info`. -/
theorem validationError_error (L C : Int) (S : Severity) (M : String) :
    ValidationError.Error { Line := L, Column := C, Message := M, Severity := S } =
      "line " ++ toString L ++ ", col " ++ toString C ++ ": " ++ S.String ++ ": " ++ M ∧
    (S.String = "error" ∨ S.String = "warning" ∨ S.String = "info") ∧
    Severity.SeverityError.String = "error" ∧
    Severity.SeverityWarning.String = "warning" ∧
    Severity.SeverityInfo.String = "info" ∧
    ValidationError.Error { Line := 42, Column := 10, Message := "test error message",
                            Severity := Severity.SeverityError } =
      "line 42, col 10: error: test error message" := by
  refine ⟨rfl, ?_, rfl, rfl, rfl, by decide⟩
  cases S
  · exact Or.inl rfl
  · exact Or.inr (Or.inl rfl)
  · exact Or.inr (Or.inr rfl)

/-! ## Lemmas on `processFiles` -/

theorem foldl_visit_hasErrors (env : Env) (strict errorOnEmpty : Bool) (paths : List String)
    (acc : FilesScan) :
    (paths.foldl (processFiles.visit env strict errorOnEmpty) acc).hasErrors = true ↔
      acc.hasErrors = true ∨
        ∃ path ∈ paths, (processFile env strict errorOnEmpty path).2 = true := by
  induction paths generalizing acc with
  | nil => simp
  | cons p rest ih =>
    rw [List.foldl_cons, ih]
    simp only [processFiles.visit, List.mem_cons, exists_eq_or_imp]
    cases h : (processFile env strict errorOnEmpty p).2 <;> simp

theorem foldl_visit_results (env : Env) (strict errorOnEmpty : Bool) (paths : List String)
    (acc : FilesScan) :
    (paths.foldl (processFiles.visit env strict errorOnEmpty) acc).results =
      acc.results ++ paths.map (fun path => (processFile env strict errorOnEmpty path).1) := by
  induction paths generalizing acc with
  | nil => simp
  | cons p rest ih =>
    rw [List.foldl_cons, ih]
    simp [processFiles.visit]

theorem processFiles_eq_one_iff (env : Env) (strict errorOnEmpty : Bool) (paths : List String) :
    processFiles env paths strict errorOnEmpty = 1 ↔
      ∃ path ∈ paths, (processFile env strict errorOnEmpty path).2 = true := by
  have h := foldl_visit_hasErrors env strict errorOnEmpty paths
    { hasErrors := false, results := [] }
  simp only [Bool.false_eq_true, false_or] at h
  rw [← h]
  unfold processFiles
  by_cases hs : (paths.foldl (processFiles.visit env strict errorOnEmpty)
    { hasErrors := false, results := [] }).hasErrors = true
  · simp [hs]
  · simp [hs]

theorem processFiles_zero_or_one (env : Env) (strict errorOnEmpty : Bool)
    (paths : List String) :
    processFiles env paths strict errorOnEmpty = 0 ∨
      processFiles env paths strict errorOnEmpty = 1 := by
  unfold processFiles
  by_cases hs : (paths.foldl (processFiles.visit env strict errorOnEmpty)
    { hasErrors := false, results := [] }).hasErrors = true
  · simp [hs]
  · simp [hs]

theorem processFiles_eq_zero_iff (env : Env) (strict errorOnEmpty : Bool)
    (paths : List String) :
    processFiles env paths strict errorOnEmpty = 0 ↔
      ∀ path ∈ paths, (processFile env strict errorOnEmpty path).2 = false := by
  have h1 := processFiles_eq_one_iff env strict errorOnEmpty paths
  constructor
  · intro h0 path hp
    by_contra hne
    have h := h1.mpr ⟨path, hp, by simpa using hne⟩
    rw [h0] at h
    exact absurd h (by decide)
  · intro hall
    rcases processFiles_zero_or_one env strict errorOnEmpty paths with h | h
    · exact h
    · obtain ⟨p, hp, hp2⟩ := h1.mp h
      rw [hall p hp] at hp2
      cases hp2

theorem processFiles_results_eq (env : Env) (strict errorOnEmpty : Bool) (paths : List String) :
    processFiles.results env paths strict errorOnEmpty =
      paths.map (fun path => (processFile env strict errorOnEmpty path).1) := by
  unfold processFiles.results
  rw [foldl_visit_results]
  rfl

theorem processFile_markdownWithoutBlocks (env : Env) (strict errorOnEmpty : Bool)
    (path : String) (h : MarkdownWithoutBlocks env path) :
    processFile env strict errorOnEmpty path =
      ({ path := path, resultType := resultType.resultNoDiagrams, diagramCount := 0,
         blocks := [], stats := [], errorMsg := "" }, errorOnEmpty) := by
  obtain ⟨content, hread, hkind, hextract⟩ := h
  unfold processFile
  simp only [hread, hextract]
  rcases hkind with hk | ⟨hk, hf⟩
  · simp [hk]
  · simp [hk, hf]

/-- The part of `processFiles` for one parsed block. -/
theorem foldl_checkBlock (env : Env) (strict : Bool) (l : List (Nat × DiagramBlock))
    (acc : BlockScan) :
    ∃ bs : List blockResult,
      (l.foldl (checkBlock env strict) acc).blocks = acc.blocks ++ bs ∧
      List.Forall₂
        (fun (entry : Nat × DiagramBlock) (b : blockResult) =>
          b.blockNum = (entry.1 : Int) + 1 ∧ b.diagramType = entry.2.DiagramType ∧
          (∀ err : String, env.parse entry.2.Source = .error err →
            b.isValid = false ∧ b.errors = ["parse error: " ++ err]) ∧
          (∀ diagram : Diagram, env.parse entry.2.Source = .ok diagram →
            (b.isValid = true ↔ env.validate diagram strict = []) ∧
            b.errors = (env.validate diagram strict).map env.errorText))
        l bs ∧
      ((l.foldl (checkBlock env strict) acc).hasValidationErrors = true ↔
        acc.hasValidationErrors = true ∨ ∃ b ∈ bs, b.isValid = false) := by
  induction l generalizing acc with
  | nil => exact ⟨[], by simp, List.Forall₂.nil, by simp⟩
  | cons entry rest ih =>
    rw [List.foldl_cons]
    obtain ⟨bs, hb, hrel, herr⟩ := ih (checkBlock env strict acc entry)
    cases hp : env.parse entry.2.Source with
    | error err =>
      have hstep : checkBlock env strict acc entry =
          { blocks := acc.blocks ++
              [{ diagramType := entry.2.DiagramType,
                 lineRange := "(L" ++ toString entry.2.LineOffset ++ "-L" ++
                   toString entry.2.EndLine ++ ")",
                 isValid := false, errors := ["parse error: " ++ err],
                 blockNum := (entry.1 : Int) + 1 }],
            stats := countUp acc.stats entry.2.DiagramType,
            hasValidationErrors := true } := by
        simp only [checkBlock, hp]
      rw [hstep] at hb herr ⊢
      refine ⟨(blockResult.mk entry.2.DiagramType
          ("(L" ++ toString entry.2.LineOffset ++ "-L" ++ toString entry.2.EndLine ++ ")")
          false (["parse error: " ++ err]) ((entry.1 : Int) + 1)) :: bs,
        ?_, List.Forall₂.cons ⟨rfl, rfl, ?_, ?_⟩ hrel, ?_⟩
      · rw [hb, List.append_assoc]
        rfl
      · intro err' h'
        rw [hp] at h'
        cases h'
        exact ⟨rfl, rfl⟩
      · intro d h'
        rw [hp] at h'
        cases h'
      · rw [herr]
        simp
    | ok diagram =>
      by_cases hv : (env.validate diagram strict).length = 0
      · have hstep : checkBlock env strict acc entry =
            { blocks := acc.blocks ++
                [{ diagramType := entry.2.DiagramType,
                   lineRange := "(L" ++ toString entry.2.LineOffset ++ "-L" ++
                     toString entry.2.EndLine ++ ")",
                   isValid := true, errors := [],
                   blockNum := (entry.1 : Int) + 1 }],
              stats := countUp acc.stats entry.2.DiagramType,
              hasValidationErrors := acc.hasValidationErrors } := by
          simp only [checkBlock, hp, hv, if_true]
        rw [hstep] at hb herr ⊢
        have hnil : env.validate diagram strict = [] := List.length_eq_zero.mp hv
        refine ⟨(blockResult.mk entry.2.DiagramType
          ("(L" ++ toString entry.2.LineOffset ++ "-L" ++ toString entry.2.EndLine ++ ")")
          true ([]) ((entry.1 : Int) + 1)) :: bs,
        ?_, List.Forall₂.cons ⟨rfl, rfl, ?_, ?_⟩ hrel, ?_⟩
        · rw [hb, List.append_assoc]
          rfl
        · intro err' h'
          rw [hp] at h'
          cases h'
        · intro d h'
          rw [hp] at h'
          cases h'
          exact ⟨by simp [hnil], by simp [hnil]⟩
        · rw [herr]
          simp
      · have hstep : checkBlock env strict acc entry =
            { blocks := acc.blocks ++
                [{ diagramType := entry.2.DiagramType,
                   lineRange := "(L" ++ toString entry.2.LineOffset ++ "-L" ++
                     toString entry.2.EndLine ++ ")",
                   isValid := false,
                   errors := (env.validate diagram strict).map env.errorText,
                   blockNum := (entry.1 : Int) + 1 }],
              stats := countUp acc.stats entry.2.DiagramType,
              hasValidationErrors := true } := by
          simp only [checkBlock, hp, hv, if_false]
        rw [hstep] at hb herr ⊢
        have hnil : env.validate diagram strict ≠ [] := fun h => hv (by simp [h])
        refine ⟨(blockResult.mk entry.2.DiagramType
          ("(L" ++ toString entry.2.LineOffset ++ "-L" ++ toString entry.2.EndLine ++ ")")
          false ((env.validate diagram strict).map env.errorText) ((entry.1 : Int) + 1)) :: bs,
        ?_, List.Forall₂.cons ⟨rfl, rfl, ?_, ?_⟩ hrel, ?_⟩
        · rw [hb, List.append_assoc]
          rfl
        · intro err' h'
          rw [hp] at h'
          cases h'
        · intro d h'
          rw [hp] at h'
          cases h'
          exact ⟨by simp [hnil], rfl⟩
        · rw [herr]
          simp

/-! ## Lemmas on `contains` and on blank contents -/

theorem findSubstring_mem (s substr : String) (h : findSubstring s substr = true) :
    ∀ b ∈ goBytes substr, b ∈ goBytes s := by
  unfold findSubstring at h
  rw [List.any_eq_true] at h
  obtain ⟨i, _, hi⟩ := h
  have heq := of_decide_eq_true hi
  intro b hb
  rw [← heq] at hb
  exact List.mem_of_mem_drop (List.mem_of_mem_take hb)

theorem contains_mem (s substr : String) (h : contains s substr = true) :
    ∀ b ∈ goBytes substr, b ∈ goBytes s := by
  unfold contains at h
  rw [Bool.and_eq_true] at h
  exact findSubstring_mem s substr h.2

theorem goBytes_of_trimmedContent_eq (content : String) (h : trimmedContent content = "") :
    ∀ b ∈ goBytes content, b = 32 ∨ b = 9 ∨ b = 10 ∨ b = 13 := by
  have hdata : content.data.filter
      (fun ch => decide (ch ≠ ' ' ∧ ch ≠ '\t' ∧ ch ≠ '\n' ∧ ch ≠ '\r')) = [] :=
    congrArg String.data h
  intro b hb
  unfold goBytes at hb
  rw [List.mem_flatMap] at hb
  obtain ⟨c, hc, hbc⟩ := hb
  have hc2 := List.filter_eq_nil_iff.mp hdata c hc
  simp only [ne_eq, decide_eq_true_eq, not_and, not_not] at hc2
  by_cases h1 : c = ' '
  · subst h1
    simp [utf8Bytes] at hbc
    exact Or.inl hbc
  · by_cases h2 : c = '\t'
    · subst h2
      simp [utf8Bytes] at hbc
      exact Or.inr (Or.inl hbc)
    · by_cases h3 : c = '\n'
      · subst h3
        simp [utf8Bytes] at hbc
        exact Or.inr (Or.inr (Or.inl hbc))
      · have h4 := hc2 h1 h2 h3
        subst h4
        simp [utf8Bytes] at hbc
        exact Or.inr (Or.inr (Or.inr hbc))

theorem containsMarkdownFences_of_trimmedContent_eq (content : String)
    (h : trimmedContent content = "") : containsMarkdownFences content = false := by
  have hb := goBytes_of_trimmedContent_eq content h
  cases hf : containsMarkdownFences content with
  | false => rfl
  | true =>
    exfalso
    unfold containsMarkdownFences at hf
    simp only [Bool.and_eq_true, Bool.or_eq_true] at hf
    rcases hf.2 with (h1 | h1) | h1
    · have := hb 96 (contains_mem _ _ h1 96 (by decide))
      omega
    · have := hb 126 (contains_mem _ _ h1 126 (by decide))
      omega
    · have := hb 96 (contains_mem _ _ h1 96 (by decide))
      omega

theorem processFile_empty_mmd (env : Env) (strict errorOnEmpty : Bool) (path content : String)
    (hread : env.readFile path = .ok content)
    (hkind : env.detectFileType path = FileType.FileTypeMermaid)
    (hblank : trimmedContent content = "") :
    processFile env strict errorOnEmpty path =
      ({ path := path, resultType := resultType.resultNoDiagrams, diagramCount := 0,
         blocks := [], stats := [], errorMsg := "empty .mmd file" }, true) := by
  unfold processFile
  simp [hread, hkind, hblank, containsMarkdownFences_of_trimmedContent_eq content hblank]

theorem processFile_mmd (env : Env) (strict errorOnEmpty : Bool) (path content : String)
    (diagram : Diagram)
    (hread : env.readFile path = .ok content)
    (hkind : env.detectFileType path = FileType.FileTypeMermaid)
    (hfence : containsMarkdownFences content = false)
    (hblank : trimmedContent content ≠ "")
    (hparse : env.parse content = .ok diagram) :
    processFile env strict errorOnEmpty path =
      if (env.validate diagram strict).length = 0 then
        ({ path := path, resultType := resultType.resultSuccess, diagramCount := 1,
           blocks := [{ diagramType := diagram.GetType, lineRange := "", isValid := true,
                        errors := [], blockNum := 1 }],
           stats := [(diagram.GetType, 1)], errorMsg := "" }, false)
      else
        ({ path := path, resultType := resultType.resultValidationError, diagramCount := 1,
           blocks := [{ diagramType := diagram.GetType, lineRange := "", isValid := false,
                        errors := (env.validate diagram strict).map env.errorText,
                        blockNum := 1 }],
           stats := [(diagram.GetType, 1)], errorMsg := "" }, true) := by
  unfold processFile
  simp only [hread, hkind, hfence, hparse, hblank]
  simp

theorem processFile_markdown (env : Env) (strict errorOnEmpty : Bool) (path content : String)
    (blocks : List DiagramBlock)
    (hread : env.readFile path = .ok content)
    (hkind : env.detectFileType path = FileType.FileTypeMarkdown ∨
      (env.detectFileType path = FileType.FileTypeMermaid ∧
        containsMarkdownFences content = true))
    (hextract : env.extractFromMarkdown content = .ok blocks) :
    (processFile env strict errorOnEmpty path).1.blocks =
        (blocks.enum.foldl (checkBlock env strict)
          { blocks := [], stats := [], hasValidationErrors := false }).blocks ∧
      (blocks ≠ [] → (processFile env strict errorOnEmpty path).2 =
        (blocks.enum.foldl (checkBlock env strict)
          { blocks := [], stats := [], hasValidationErrors := false }).hasValidationErrors) := by
  have hfile : processFile env strict errorOnEmpty path =
      if blocks.length = 0 then
        ({ path := path, resultType := resultType.resultNoDiagrams, diagramCount := 0,
           blocks := [], stats := [], errorMsg := "" }, errorOnEmpty)
      else if (blocks.enum.foldl (checkBlock env strict)
          { blocks := [], stats := [], hasValidationErrors := false }).hasValidationErrors
          = true then
        ({ path := path, resultType := resultType.resultValidationError,
           diagramCount := blocks.length,
           blocks := (blocks.enum.foldl (checkBlock env strict)
             { blocks := [], stats := [], hasValidationErrors := false }).blocks,
           stats := (blocks.enum.foldl (checkBlock env strict)
             { blocks := [], stats := [], hasValidationErrors := false }).stats,
           errorMsg := "" }, true)
      else
        ({ path := path, resultType := resultType.resultSuccess,
           diagramCount := blocks.length,
           blocks := (blocks.enum.foldl (checkBlock env strict)
             { blocks := [], stats := [], hasValidationErrors := false }).blocks,
           stats := (blocks.enum.foldl (checkBlock env strict)
             { blocks := [], stats := [], hasValidationErrors := false }).stats,
           errorMsg := "" }, false) := by
    unfold processFile
    simp only [hread, hextract]
    rcases hkind with hk | ⟨hk, hf⟩
    · simp [hk]
    · simp [hk, hf]
  rw [hfile]
  by_cases h0 : blocks.length = 0
  · have hnil : blocks = [] := List.length_eq_zero.mp h0
    subst hnil
    simp
  · have hne : blocks ≠ [] := fun h => h0 (by simp [h])
    simp only [h0, if_false]
    by_cases hv : (blocks.enum.foldl (checkBlock env strict)
        { blocks := [], stats := [], hasValidationErrors := false }).hasValidationErrors = true
    · simp [hv]
    · simp [hv]

/-! ## Failure and exit code of the command line tool -/

/-- C23: the command line tool reports a diagram as failed exactly when its
list of diagnostics is not empty, whatever the severities. `validateDiagram`
returns true exactly when the list is non-empty; in `processFiles` the
`isValid` of a block of a markdown file and of the one block of a Mermaid file
is true exactly when the list is empty, and the file sets `hasErrors` exactly
when a block is not valid; so a diagram whose diagnostics are all warnings or
infos still makes `validateDiagram` return true and `processFiles` return 1. -/
theorem failure_iff_diagnostics (env : Env) (strict errorOnEmpty : Bool) :
    (∀ (diagram : Diagram) (pfx : String),
      validateDiagram env diagram strict pfx = true ↔ env.validate diagram strict ≠ []) ∧
    (∀ (path content : String) (blocks : List DiagramBlock),
      env.readFile path = .ok content →
      (env.detectFileType path = FileType.FileTypeMarkdown ∨
        (env.detectFileType path = FileType.FileTypeMermaid ∧
          containsMarkdownFences content = true)) →
      env.extractFromMarkdown content = .ok blocks →
      List.Forall₂
        (fun (entry : Nat × DiagramBlock) (b : blockResult) =>
          b.blockNum = (entry.1 : Int) + 1 ∧
          ∀ diagram : Diagram, env.parse entry.2.Source = .ok diagram →
            (b.isValid = true ↔ env.validate diagram strict = []))
        blocks.enum (processFile env strict errorOnEmpty path).1.blocks ∧
      (blocks ≠ [] →
        ((processFile env strict errorOnEmpty path).2 = true ↔
          ∃ b ∈ (processFile env strict errorOnEmpty path).1.blocks, b.isValid = false))) ∧
    (∀ (path content : String) (diagram : Diagram),
      env.readFile path = .ok content →
      env.detectFileType path = FileType.FileTypeMermaid →
      containsMarkdownFences content = false →
      trimmedContent content ≠ "" →
      env.parse content = .ok diagram →
      ∃ b : blockResult, (processFile env strict errorOnEmpty path).1.blocks = [b] ∧
        (b.isValid = true ↔ env.validate diagram strict = []) ∧
        ((processFile env strict errorOnEmpty path).2 = true ↔
          env.validate diagram strict ≠ [])) ∧
    (∀ diagram : Diagram,
      env.validate diagram strict ≠ [] →
      (∀ e ∈ env.validate diagram strict,
        e.Severity = Severity.SeverityWarning ∨ e.Severity = Severity.SeverityInfo) →
      validateDiagram env diagram strict "" = true ∧
      ∀ (paths : List String) (path content : String),
        path ∈ paths →
        env.readFile path = .ok content →
        env.detectFileType path = FileType.FileTypeMermaid →
        containsMarkdownFences content = false →
        trimmedContent content ≠ "" →
        env.parse content = .ok diagram →
        processFiles env paths strict errorOnEmpty = 1) := by
  have hvalid : ∀ (diagram : Diagram) (pfx : String),
      validateDiagram env diagram strict pfx = true ↔ env.validate diagram strict ≠ [] := by
    intro diagram pfx
    unfold validateDiagram
    cases env.validate diagram strict <;> simp
  have hmmd : ∀ (path content : String) (diagram : Diagram),
      env.readFile path = .ok content →
      env.detectFileType path = FileType.FileTypeMermaid →
      containsMarkdownFences content = false →
      trimmedContent content ≠ "" →
      env.parse content = .ok diagram →
      ∃ b : blockResult, (processFile env strict errorOnEmpty path).1.blocks = [b] ∧
        (b.isValid = true ↔ env.validate diagram strict = []) ∧
        ((processFile env strict errorOnEmpty path).2 = true ↔
          env.validate diagram strict ≠ []) := by
    intro path content diagram hread hkind hfence hblank hparse
    rw [processFile_mmd env strict errorOnEmpty path content diagram hread hkind hfence hblank
      hparse]
    by_cases hv : (env.validate diagram strict).length = 0
    · have hnil : env.validate diagram strict = [] := List.length_eq_zero.mp hv
      rw [if_pos hv]
      exact ⟨_, rfl, by simp [hnil], by simp [hnil]⟩
    · have hne : env.validate diagram strict ≠ [] := fun h => hv (by simp [h])
      rw [if_neg hv]
      exact ⟨_, rfl, by simp [hne], by simp [hne]⟩
  refine ⟨hvalid, ?_, hmmd, ?_⟩
  · intro path content blocks hread hkind hextract
    obtain ⟨hblocks, hflag⟩ :=
      processFile_markdown env strict errorOnEmpty path content blocks hread hkind hextract
    obtain ⟨bs, hbs, hrel, herr⟩ := foldl_checkBlock env strict blocks.enum
      { blocks := [], stats := [], hasValidationErrors := false }
    rw [List.nil_append] at hbs
    rw [hblocks, hbs]
    refine ⟨hrel.imp (fun _ _ hab => ⟨hab.1, fun diagram hd => (hab.2.2.2 diagram hd).1⟩), ?_⟩
    intro hne
    rw [hflag hne, herr]
    simp
  · intro diagram hne _
    refine ⟨(hvalid diagram "").mpr hne, ?_⟩
    intro paths path content hmem hread hkind hfence hblank hparse
    obtain ⟨_, _, _, hflag⟩ := hmmd path content diagram hread hkind hfence hblank hparse
    exact (processFiles_eq_one_iff env strict errorOnEmpty paths).mpr
      ⟨path, hmem, hflag.mpr hne⟩

/-- Witness for C23 in `sampleEnv`: the only diagnostic of the sequence diagram
is a warning, `validateDiagram` returns true for it, the file `warn.mmd` that
holds it makes `processFiles` return 1, and of the two blocks of `guide.md` the
one with the warning is not valid. -/
theorem failure_iff_diagnostics_witness :
    (sampleEnv.validate sampleSequence false).map (fun e => e.Severity) =
      [Severity.SeverityWarning] ∧
    validateDiagram sampleEnv sampleSequence false "" = true ∧
    processFiles sampleEnv ["notes.md", "warn.mmd"] false false = 1 ∧
    (processFiles.results sampleEnv ["guide.md"] false false).map
      (fun r => r.blocks.map (fun b => b.isValid)) = [[true, false]] :=
  have h := (failure_iff_diagnostics sampleEnv false false).2.2.2 sampleSequence
    (by decide) (by decide)
  ⟨by decide, h.1,
    h.2 ["notes.md", "warn.mmd"] "warn.mmd" "sequenceDiagram" (by decide) rfl rfl
      (by decide) (by decide) rfl,
    by decide⟩

/-- C24, as the code has it: when every input file is handled as markdown and
the extractor finds no block in it, `processFiles` returns 0 without
`--error-on-empty` and, given at least one file, 1 with it, each file being
recorded as `resultNoDiagrams`; `processStdin` does the same on markdown input
without blocks. A Mermaid file that is empty or holds only blanks is recorded
as `resultNoDiagrams` too, with the message `empty .mmd file`, and makes
`processFiles` return 1 whether `--error-on-empty` is set or not. -/
theorem processFiles_no_diagrams (env : Env) (strict errorOnEmpty : Bool) :
    (∀ paths : List String, (∀ path ∈ paths, MarkdownWithoutBlocks env path) →
      processFiles env paths strict errorOnEmpty =
        (if errorOnEmpty = true ∧ paths ≠ [] then 1 else 0) ∧
      ∀ r ∈ processFiles.results env paths strict errorOnEmpty,
        r.resultType = resultType.resultNoDiagrams ∧ r.diagramCount = 0 ∧ r.errorMsg = "") ∧
    (∀ format content : String, env.readStdin = .ok content →
      (format = "markdown" ∨ (format = "" ∧ containsCodeBlocks content = true)) →
      env.extractFromMarkdown content = .ok [] →
      processStdin env format strict errorOnEmpty = (if errorOnEmpty = true then 1 else 0)) ∧
    (∀ (paths : List String) (path content : String), path ∈ paths →
      env.readFile path = .ok content →
      env.detectFileType path = FileType.FileTypeMermaid →
      trimmedContent content = "" →
      (processFile env strict errorOnEmpty path).1.resultType = resultType.resultNoDiagrams ∧
      (processFile env strict errorOnEmpty path).1.errorMsg = "empty .mmd file" ∧
      processFiles env paths strict errorOnEmpty = 1) := by
  refine ⟨?_, ?_, ?_⟩
  · intro paths hall
    constructor
    · by_cases hcase : errorOnEmpty = true ∧ paths ≠ []
      · rw [if_pos hcase]
        obtain ⟨p, hp⟩ := List.exists_mem_of_ne_nil paths hcase.2
        refine (processFiles_eq_one_iff env strict errorOnEmpty paths).mpr ⟨p, hp, ?_⟩
        rw [processFile_markdownWithoutBlocks env strict errorOnEmpty p (hall p hp)]
        exact hcase.1
      · rw [if_neg hcase]
        refine (processFiles_eq_zero_iff env strict errorOnEmpty paths).mpr ?_
        intro p hp
        rw [processFile_markdownWithoutBlocks env strict errorOnEmpty p (hall p hp)]
        cases errorOnEmpty
        · rfl
        · exact absurd ⟨rfl, List.ne_nil_of_mem hp⟩ hcase
    · intro r hr
      rw [processFiles_results_eq, List.mem_map] at hr
      obtain ⟨p, hp, hpr⟩ := hr
      rw [processFile_markdownWithoutBlocks env strict errorOnEmpty p (hall p hp)] at hpr
      rw [← hpr]
      exact ⟨rfl, rfl, rfl⟩
  · intro format content hread hformat hextract
    unfold processStdin
    rcases hformat with hf | ⟨hf, hc⟩
    · subst hf
      simp [hread, hextract]
    · subst hf
      simp [hread, hextract, hc]
  · intro paths path content hmem hread hkind hblank
    have hfile := processFile_empty_mmd env strict errorOnEmpty path content hread hkind hblank
    refine ⟨by rw [hfile], by rw [hfile], ?_⟩
    exact (processFiles_eq_one_iff env strict errorOnEmpty paths).mpr
      ⟨path, hmem, by rw [hfile]⟩

/-- Witness for C24 as amended, in `sampleEnv`: the markdown file `notes.md`
has no block and gives exit code 0 without `--error-on-empty` and 1 with it,
and so does the standard input; the file `blank.mmd`, which holds only blanks,
gives exit code 1 without `--error-on-empty`. -/
theorem processFiles_no_diagrams_witness :
    (∀ path ∈ ["notes.md"], MarkdownWithoutBlocks sampleEnv path) ∧
    processFiles sampleEnv ["notes.md"] false false = 0 ∧
    processFiles sampleEnv ["notes.md"] false true = 1 ∧
    processStdin sampleEnv "" false false = 0 ∧
    processStdin sampleEnv "" false true = 1 ∧
    processFiles sampleEnv ["notes.md", "blank.mmd"] false false = 1 :=
  have hnotes : ∀ path ∈ ["notes.md"], MarkdownWithoutBlocks sampleEnv path := by
    intro path hp
    rw [List.mem_singleton] at hp
    subst hp
    exact ⟨"# Notes\n\nNothing to draw.\n", rfl, Or.inl rfl, rfl⟩
  ⟨hnotes,
    ((processFiles_no_diagrams sampleEnv false false).1 ["notes.md"] hnotes).1,
    ((processFiles_no_diagrams sampleEnv false true).1 ["notes.md"] hnotes).1,
    (processFiles_no_diagrams sampleEnv false false).2.1 "" "# Notes\n\nNothing to draw.\n"
      rfl (Or.inr ⟨rfl, by decide⟩) rfl,
    (processFiles_no_diagrams sampleEnv false true).2.1 "" "# Notes\n\nNothing to draw.\n"
      rfl (Or.inr ⟨rfl, by decide⟩) rfl,
    ((processFiles_no_diagrams sampleEnv false false).2.2 ["notes.md", "blank.mmd"]
      "blank.mmd" " \t\r\n\n" (by decide) rfl rfl (by decide)).2.2⟩

/-- Counterexample to C24 as stated: in `sampleEnv` the one input file
`empty.mmd` is empty, no diagram is found in it (it is recorded as
`resultNoDiagrams` with zero diagrams), `--error-on-empty` is not set, and
`processFiles` returns 1, not 0. So it does not hold that `processFiles`
returns 0 whenever every file is recorded as `resultNoDiagrams`. -/
theorem processFiles_empty_mmd_counterexample :
    (processFiles.results sampleEnv ["empty.mmd"] false false).map
      (fun r => (r.resultType, r.diagramCount, r.errorMsg)) =
      [(resultType.resultNoDiagrams, 0, "empty .mmd file")] ∧
    processFiles sampleEnv ["empty.mmd"] false false = 1 ∧
    ¬ (∀ (env : Env) (paths : List String) (strict : Bool),
        (∀ r ∈ processFiles.results env paths strict false,
          r.resultType = resultType.resultNoDiagrams) →
        processFiles env paths strict false = 0) := by
  refine ⟨by decide, by decide, ?_⟩
  intro h
  have h0 := h sampleEnv ["empty.mmd"] false (by decide)
  revert h0
  decide

/-! ## Lemmas on `findSubstring` and `contains` -/

theorem any_window_iff (l p : List Nat) :
    (List.range (((l.length : Int) - (p.length : Int) + 1).toNat)).any
        (fun i => decide ((l.drop i).take p.length = p)) = true ↔
      ∃ pre post : List Nat, l = pre ++ p ++ post := by
  constructor
  · intro h
    rw [List.any_eq_true] at h
    obtain ⟨i, _, hi⟩ := h
    have heq := of_decide_eq_true hi
    refine ⟨l.take i, (l.drop i).drop p.length, ?_⟩
    conv_lhs => rw [← List.take_append_drop i l, ← List.take_append_drop p.length (l.drop i)]
    rw [heq, List.append_assoc]
  · rintro ⟨pre, post, rfl⟩
    rw [List.any_eq_true]
    refine ⟨pre.length, ?_, ?_⟩
    · rw [List.mem_range]
      simp only [List.length_append]
      omega
    · simp [List.append_assoc]

theorem findSubstring_iff (s substr : String) :
    findSubstring s substr = true ↔
      ∃ pre post : List Nat, goBytes s = pre ++ goBytes substr ++ post :=
  any_window_iff (goBytes s) (goBytes substr)

theorem contains_iff (s substr : String) :
    contains s substr = true ↔
      ∃ pre post : List Nat, goBytes s = pre ++ goBytes substr ++ post := by
  unfold contains
  rw [Bool.and_eq_true, findSubstring_iff]
  constructor
  · exact fun h => h.2
  · intro h
    refine ⟨?_, h⟩
    obtain ⟨pre, post, hs⟩ := h
    rw [hs]
    simp only [List.length_append, decide_eq_true_eq]
    omega

theorem goSlice_window (s : List Nat) (i : Int) (n : Nat) (h0 : 0 ≤ i)
    (h1 : i + (n : Int) ≤ (s.length : Int)) :
    goSlice s i (i + (n : Int)) = some ((s.drop i.toNat).take n) := by
  unfold goSlice
  rw [if_pos ⟨h0, by omega, h1⟩]
  congr 2
  omega

theorem findSubstring_loop_eq (s p : List Nat) (k : Nat) :
    ∀ i : Int, 0 ≤ i → ((s.length : Int) - (p.length : Int) + 1 - i).toNat = k →
      findSubstring.loop s p i =
        some ((List.range k).any
          (fun j => decide ((s.drop (i.toNat + j)).take p.length = p))) := by
  induction k with
  | zero =>
    intro i _ hk
    rw [findSubstring.loop, if_neg (by omega)]
    rfl
  | succ k ih =>
    intro i h0 hk
    rw [findSubstring.loop, if_pos (by omega), goSlice_window s i p.length h0 (by omega)]
    rw [List.range_succ_eq_map, List.any_cons, List.any_map]
    by_cases hw : (s.drop i.toNat).take p.length = p
    · simp [hw]
    · simp only [hw, if_false, Nat.add_zero, decide_False, Bool.false_or]
      rw [ih (i + 1) (by omega) (by omega)]
      congr 2
      funext j
      simp only [Function.comp]
      have : (i + 1).toNat + j = i.toNat + (j + 1) := by omega
      rw [this]

theorem findSubstring_checked_eq (s substr : String) :
    findSubstring.checked s substr = some (findSubstring s substr) := by
  unfold findSubstring.checked findSubstring
  rw [findSubstring_loop_eq (goBytes s) (goBytes substr) _ 0 (le_refl 0) rfl]
  simp

/-- C34: `contains(s, substr)` is true exactly when the bytes of `substr` occur
in the bytes of `s` as a contiguous run; it is true for the empty `substr`
and false whenever `substr` is longer than `s`; and `findSubstring`, with every
slice `s[i:i+len(substr)]` checked against the bounds of `s`, never panics and
returns what the unchecked reading returns, for strings and for any two
sequences of bytes. -/
theorem contains_spec (s substr : String) :
    (contains s substr = true ↔
      ∃ pre post : List Nat, goBytes s = pre ++ goBytes substr ++ post) ∧
    ((∃ pre post : List Char, s.data = pre ++ substr.data ++ post) →
      contains s substr = true) ∧
    contains s "" = true ∧
    ((goBytes s).length < (goBytes substr).length → contains s substr = false) ∧
    findSubstring.checked s substr = some (findSubstring s substr) ∧
    (findSubstring s substr = true ↔
      ∃ pre post : List Nat, goBytes s = pre ++ goBytes substr ++ post) ∧
    (∀ l p : List Nat, ∃ b : Bool, findSubstring.loop l p 0 = some b ∧
      (b = true ↔ ∃ pre post : List Nat, l = pre ++ p ++ post)) ∧
    contains "héllo wörld" "wö" = true ∧
    contains "abc" "abcd" = false ∧
    contains "" "" = true ∧
    contains "graph TD" "TDA" = false := by
  refine ⟨contains_iff s substr, ?_, ?_, ?_, findSubstring_checked_eq s substr,
    findSubstring_iff s substr, ?_, by decide, by decide, by decide, by decide⟩
  rotate_left 3
  · intro l p
    refine ⟨_, findSubstring_loop_eq l p _ 0 (le_refl 0) rfl, ?_⟩
    rw [← any_window_iff l p]
    simp
  · rintro ⟨pre, post, h⟩
    rw [contains_iff]
    refine ⟨pre.flatMap utf8Bytes, post.flatMap utf8Bytes, ?_⟩
    unfold goBytes
    rw [h, List.flatMap_append, List.flatMap_append]
  · rw [contains_iff]
    exact ⟨[], goBytes s, rfl⟩
  · intro hlen
    cases hc : contains s substr with
    | false => rfl
    | true =>
      obtain ⟨pre, post, h⟩ := (contains_iff s substr).mp hc
      rw [h] at hlen
      simp only [List.length_append] at hlen
      omega

/-! ## Auto-detection of markdown on the standard input -/

theorem contains_of_contains_append (content a b : String)
    (h : contains content (a ++ b) = true) :
    contains content a = true ∧ contains content b = true := by
  rw [contains_iff] at h
  obtain ⟨pre, post, hs⟩ := h
  have hab : goBytes (a ++ b) = goBytes a ++ goBytes b := by
    unfold goBytes
    rw [String.data_append, List.flatMap_append]
  rw [hab] at hs
  constructor
  · rw [contains_iff]
    exact ⟨pre, goBytes b ++ post, by rw [hs]; simp [List.append_assoc]⟩
  · rw [contains_iff]
    exact ⟨pre ++ goBytes a, post, by rw [hs]; simp [List.append_assoc]⟩

/-- C31, as the code has it: `containsCodeBlocks(content)` is true exactly when
`content` is longer than 10 bytes and contains one of the four markers
"```mermaid", "```\nmermaid", "# " and "## "; so it implies that `content`
contains a code fence marker "```" or a heading marker "# ". Auto-detection on
the standard input (empty format) takes the markdown path exactly when
`containsCodeBlocks(content)` is true. -/
theorem containsCodeBlocks_spec (content : String) :
    (containsCodeBlocks content = true ↔
      10 < (goBytes content).length ∧
        (contains content "```mermaid" = true ∨ contains content "```\nmermaid" = true ∨
          contains content "# " = true ∨ contains content "## " = true)) ∧
    (containsCodeBlocks content = true →
      contains content "```" = true ∨ contains content "# " = true) ∧
    (∀ (env : Env) (strict errorOnEmpty : Bool), env.readStdin = .ok content →
      processStdin env "" strict errorOnEmpty =
        processStdin env (if containsCodeBlocks content = true then "markdown" else "mermaid")
          strict errorOnEmpty) := by
  have hiff : containsCodeBlocks content = true ↔
      10 < (goBytes content).length ∧
        (contains content "```mermaid" = true ∨ contains content "```\nmermaid" = true ∨
          contains content "# " = true ∨ contains content "## " = true) := by
    unfold containsCodeBlocks
    simp only [Bool.and_eq_true, Bool.or_eq_true, decide_eq_true_eq, gt_iff_lt, or_assoc]
  refine ⟨hiff, ?_, ?_⟩
  · intro h
    rcases (hiff.mp h).2 with h1 | h1 | h1 | h1
    · exact Or.inl (contains_of_contains_append content "```" "mermaid" h1).1
    · exact Or.inl (contains_of_contains_append content "```" "\nmermaid" h1).1
    · exact Or.inr h1
    · exact Or.inr (contains_of_contains_append content "#" "# " h1).2
  · intro env strict errorOnEmpty hread
    unfold processStdin
    by_cases hc : containsCodeBlocks content = true
    · simp [hread, hc]
    · simp [hread, hc]

/-- Witness for C31 as amended: the content `# Notes ...` has a heading and no
fence, `containsCodeBlocks` is true for it, and the standard input holding it
is read as markdown. -/
theorem containsCodeBlocks_spec_witness :
    (contains "# Notes\n\nNothing to draw.\n" "```" = true ∨
      contains "# Notes\n\nNothing to draw.\n" "# " = true) ∧
    processStdin sampleEnv "" false false = processStdin sampleEnv "markdown" false false :=
  ⟨(containsCodeBlocks_spec "# Notes\n\nNothing to draw.\n").2.1 (by decide),
    (containsCodeBlocks_spec "# Notes\n\nNothing to draw.\n").2.2 sampleEnv false false rfl⟩

/-- Counterexample to C31 as stated: the content `# Notes ...` is longer than
10 bytes and contains the heading marker "# ", so `containsCodeBlocks` is true
for it, and it contains no code fence marker. -/
theorem containsCodeBlocks_heading_counterexample :
    containsCodeBlocks "# Notes\n\nNothing to draw.\n" = true ∧
    contains "# Notes\n\nNothing to draw.\n" "```" = false ∧
    ¬ (∀ content : String, containsCodeBlocks content = true →
        contains content "```" = true) := by
  refine ⟨by decide, by decide, ?_⟩
  intro h
  have h0 := h "# Notes\n\nNothing to draw.\n" (by decide)
  revert h0
  decide

/-! ## Empty Mermaid files -/

theorem trimmedContent_eq_iff (content : String) :
    trimmedContent content = "" ↔
      ∀ c ∈ content.data, c = ' ' ∨ c = '\t' ∨ c = '\n' ∨ c = '\r' := by
  unfold trimmedContent
  constructor
  · intro h c hc
    have hdata : content.data.filter
        (fun ch => decide (ch ≠ ' ' ∧ ch ≠ '\t' ∧ ch ≠ '\n' ∧ ch ≠ '\r')) = [] :=
      congrArg String.data h
    have hc2 := List.filter_eq_nil_iff.mp hdata c hc
    simp only [ne_eq, decide_eq_true_eq, not_and, not_not] at hc2
    by_cases h1 : c = ' '
    · exact Or.inl h1
    · by_cases h2 : c = '\t'
      · exact Or.inr (Or.inl h2)
      · by_cases h3 : c = '\n'
        · exact Or.inr (Or.inr (Or.inl h3))
        · exact Or.inr (Or.inr (Or.inr (hc2 h1 h2 h3)))
  · intro h
    have hnil : content.data.filter
        (fun ch => decide (ch ≠ ' ' ∧ ch ≠ '\t' ∧ ch ≠ '\n' ∧ ch ≠ '\r')) = [] := by
      rw [List.filter_eq_nil_iff]
      intro c hc
      rcases h c hc with h1 | h1 | h1 | h1 <;> simp [h1]
    rw [hnil]

theorem processFile_mmd_parse_error (env : Env) (strict errorOnEmpty : Bool)
    (path content err : String)
    (hread : env.readFile path = .ok content)
    (hkind : env.detectFileType path = FileType.FileTypeMermaid)
    (hfence : containsMarkdownFences content = false)
    (hblank : trimmedContent content ≠ "")
    (hparse : env.parse content = .error err) :
    processFile env strict errorOnEmpty path =
      ({ path := path, resultType := resultType.resultParseError, diagramCount := 0,
         blocks := [], stats := [], errorMsg := err }, true) := by
  unfold processFile
  simp only [hread, hkind, hfence, hparse, hblank]
  simp

theorem processFile_fenced_mmd (env : Env) (strict errorOnEmpty : Bool) (path content : String)
    (hread : env.readFile path = .ok content)
    (hkind : env.detectFileType path = FileType.FileTypeMermaid)
    (hfence : containsMarkdownFences content = true) :
    processFile env strict errorOnEmpty path =
      processFile { env with detectFileType := fun _ => FileType.FileTypeMarkdown }
        strict errorOnEmpty path := by
  have hcheck : checkBlock { env with detectFileType := fun _ => FileType.FileTypeMarkdown }
      strict = checkBlock env strict := rfl
  unfold processFile
  simp [hread, hkind, hfence, hcheck]

/-- C32, as the code has it: a file detected as Mermaid whose content is empty
or holds only spaces, tabs, line feeds and carriage returns is recorded as
`resultNoDiagrams` with the message `empty .mmd file` and makes `processFiles`
return 1, whether `errorOnEmpty` is set or not. A content with any other
character and without a markdown fence is not recorded as `resultNoDiagrams`:
it is passed to the parser, whose error gives `resultParseError` and whose
diagram is validated. A content with a markdown fence is not passed to the
parser: the file is handled exactly as a markdown file. -/
theorem processFiles_mmd_blank (env : Env) (strict errorOnEmpty : Bool) :
    (∀ (paths : List String) (path content : String), path ∈ paths →
      env.readFile path = .ok content →
      env.detectFileType path = FileType.FileTypeMermaid →
      (∀ c ∈ content.data, c = ' ' ∨ c = '\t' ∨ c = '\n' ∨ c = '\r') →
      processFile env strict errorOnEmpty path =
        ({ path := path, resultType := resultType.resultNoDiagrams, diagramCount := 0,
           blocks := [], stats := [], errorMsg := "empty .mmd file" }, true) ∧
      (processFile env strict errorOnEmpty path).1 ∈
        processFiles.results env paths strict errorOnEmpty ∧
      processFiles env paths strict errorOnEmpty = 1) ∧
    (∀ (path content : String),
      env.readFile path = .ok content →
      env.detectFileType path = FileType.FileTypeMermaid →
      (∃ c ∈ content.data, ¬ (c = ' ' ∨ c = '\t' ∨ c = '\n' ∨ c = '\r')) →
      containsMarkdownFences content = false →
      (processFile env strict errorOnEmpty path).1.resultType ≠ resultType.resultNoDiagrams ∧
      (∀ err : String, env.parse content = .error err →
        processFile env strict errorOnEmpty path =
          ({ path := path, resultType := resultType.resultParseError, diagramCount := 0,
             blocks := [], stats := [], errorMsg := err }, true)) ∧
      (∀ diagram : Diagram, env.parse content = .ok diagram →
        (processFile env strict errorOnEmpty path).1.diagramCount = 1 ∧
        ((processFile env strict errorOnEmpty path).1.resultType =
            resultType.resultSuccess ↔ env.validate diagram strict = []) ∧
        ((processFile env strict errorOnEmpty path).1.resultType =
            resultType.resultValidationError ↔ env.validate diagram strict ≠ []))) ∧
    (∀ (path content : String),
      env.readFile path = .ok content →
      env.detectFileType path = FileType.FileTypeMermaid →
      containsMarkdownFences content = true →
      (∃ c ∈ content.data, ¬ (c = ' ' ∨ c = '\t' ∨ c = '\n' ∨ c = '\r')) ∧
      processFile env strict errorOnEmpty path =
        processFile { env with detectFileType := fun _ => FileType.FileTypeMarkdown }
          strict errorOnEmpty path) := by
  refine ⟨?_, ?_, ?_⟩
  · intro paths path content hmem hread hkind hblank
    have hfile := processFile_empty_mmd env strict errorOnEmpty path content hread hkind
      ((trimmedContent_eq_iff content).mpr hblank)
    refine ⟨hfile, ?_, ?_⟩
    · rw [processFiles_results_eq, List.mem_map]
      exact ⟨path, hmem, rfl⟩
    · exact (processFiles_eq_one_iff env strict errorOnEmpty paths).mpr
        ⟨path, hmem, by rw [hfile]⟩
  · intro path content hread hkind hchar hfence
    have hblank : trimmedContent content ≠ "" := by
      intro h
      obtain ⟨c, hc, hne⟩ := hchar
      exact hne ((trimmedContent_eq_iff content).mp h c hc)
    have herr := processFile_mmd_parse_error env strict errorOnEmpty path content
    have hok := processFile_mmd env strict errorOnEmpty path content
    refine ⟨?_, fun err he => herr err hread hkind hfence hblank he, ?_⟩
    · cases hp : env.parse content with
      | error err =>
        rw [herr err hread hkind hfence hblank hp]
        simp
      | ok diagram =>
        rw [hok diagram hread hkind hfence hblank hp]
        by_cases hv : (env.validate diagram strict).length = 0
        · simp [hv]
        · simp [hv]
    · intro diagram hp
      rw [hok diagram hread hkind hfence hblank hp]
      by_cases hv : (env.validate diagram strict).length = 0
      · have hnil : env.validate diagram strict = [] := List.length_eq_zero.mp hv
        simp [hnil]
      · have hne : env.validate diagram strict ≠ [] := fun h => hv (by simp [h])
        simp [hv, hne]
  · intro path content hread hkind hfence
    refine ⟨?_, processFile_fenced_mmd env strict errorOnEmpty path content hread hkind hfence⟩
    by_contra hall
    have hblank : ∀ c ∈ content.data, c = ' ' ∨ c = '\t' ∨ c = '\n' ∨ c = '\r' := by
      intro c hc
      by_contra hne
      exact hall ⟨c, hc, hne⟩
    have hno := containsMarkdownFences_of_trimmedContent_eq content
      ((trimmedContent_eq_iff content).mpr hblank)
    rw [hno] at hfence
    cases hfence

/-- Witness for C32 as amended, in `sampleEnv` and `fencedEnv`: `blank.mmd`
holds only blanks and gives exit code 1 with `errorOnEmpty` unset and set;
`warn.mmd` is parsed and validated; `fenced.mmd` is handled as markdown. -/
theorem processFiles_mmd_blank_witness :
    processFiles sampleEnv ["blank.mmd"] false false = 1 ∧
    processFiles sampleEnv ["blank.mmd"] false true = 1 ∧
    (processFile sampleEnv false false "warn.mmd").1.resultType =
      resultType.resultValidationError ∧
    processFile fencedEnv false false "fenced.mmd" =
      processFile { fencedEnv with detectFileType := fun _ => FileType.FileTypeMarkdown }
        false false "fenced.mmd" :=
  ⟨((processFiles_mmd_blank sampleEnv false false).1 ["blank.mmd"] "blank.mmd" " \t\r\n\n"
      (by decide) rfl rfl (by decide)).2.2,
    ((processFiles_mmd_blank sampleEnv false true).1 ["blank.mmd"] "blank.mmd" " \t\r\n\n"
      (by decide) rfl rfl (by decide)).2.2,
    (((processFiles_mmd_blank sampleEnv false false).2.1 "warn.mmd" "sequenceDiagram"
      rfl rfl ⟨'s', by decide, by decide⟩ (by decide)).2.2 sampleSequence rfl).2.2.mpr
      (by decide),
    ((processFiles_mmd_blank fencedEnv false false).2.2 "fenced.mmd" fencedContent
      rfl rfl (by decide)).2⟩

/-- Counterexample to C32 as stated: in `fencedEnv` the file `fenced.mmd` is
detected as a Mermaid file and its content has characters other than blanks,
yet the content is not passed to the parser, which would reject it: it holds
a markdown fence, so the extractor gets it, and the file is recorded with the
result of the extracted block. -/
theorem processFiles_fenced_mmd_counterexample :
    fencedEnv.readFile "fenced.mmd" = .ok fencedContent ∧
    fencedEnv.detectFileType "fenced.mmd" = FileType.FileTypeMermaid ∧
    trimmedContent fencedContent ≠ "" ∧
    fencedEnv.parse fencedContent = .error "unexpected token" ∧
    (processFiles.results fencedEnv ["fenced.mmd"] false false).map
      (fun r => (r.resultType, r.errorMsg, r.blocks.map (fun b => b.lineRange))) =
      [(resultType.resultValidationError, "", ["(L1-L3)"])] ∧
    ¬ (∀ (env : Env) (path content : String) (strict errorOnEmpty : Bool),
        env.readFile path = .ok content →
        env.detectFileType path = FileType.FileTypeMermaid →
        trimmedContent content ≠ "" →
        ∀ err : String, env.parse content = .error err →
          (processFile env strict errorOnEmpty path).1.resultType =
            resultType.resultParseError) := by
  refine ⟨rfl, rfl, by decide, rfl, by decide, ?_⟩
  intro h
  have h0 := h fencedEnv "fenced.mmd" fencedContent false false rfl rfl (by decide)
    "unexpected token" rfl
  revert h0
  decide

/-! ## Display names of diagram types -/

theorem mapLookup_eq_none {V : Type} (m : List (String × V)) (k : String)
    (h : k ∉ m.map Prod.fst) : mapLookup m k = none := by
  induction m with
  | nil => rfl
  | cons e rest ih =>
    obtain ⟨k', v⟩ := e
    simp only [List.map_cons, List.mem_cons, not_or] at h
    unfold mapLookup
    rw [if_neg (fun hk => h.1 hk.symm)]
    exact ih h.2

theorem mapLookup_eq_some {V : Type} (m : List (String × V)) (k : String) (v : V)
    (hnodup : (m.map Prod.fst).Nodup) (h : (k, v) ∈ m) : mapLookup m k = some v := by
  induction m with
  | nil => cases h
  | cons e rest ih =>
    obtain ⟨k', v'⟩ := e
    simp only [List.map_cons, List.nodup_cons] at hnodup
    unfold mapLookup
    rcases List.mem_cons.mp h with h1 | h1
    · cases h1
      rw [if_pos rfl]
    · have hne : k' ≠ k := by
        intro hk
        subst hk
        exact hnodup.1 (List.mem_map.mpr ⟨(k', v), h1, rfl⟩)
      rw [if_neg hne]
      exact ih hnodup.2 h1

/-- C33: `diagramTypeDisplayName` returns the display name of the table when
the tag is one of its 21 keys and the tag itself otherwise; the six tags of
the recognized dialects have an entry, `state` and `stateDiagram-v2` both
with `State Diagram`. -/
theorem diagramTypeDisplayName_spec :
    displayNames.length = 21 ∧
    (displayNames.map Prod.fst).Nodup ∧
    (∀ tag name : String, (tag, name) ∈ displayNames →
      diagramTypeDisplayName tag = name) ∧
    (∀ tag : String, tag ∉ displayNames.map Prod.fst → diagramTypeDisplayName tag = tag) ∧
    (∀ tag : String, tag ∈ ["flowchart", "graph", "sequence", "class", "state",
      "stateDiagram-v2"] → tag ∈ displayNames.map Prod.fst) ∧
    diagramTypeDisplayName "flowchart" = "Flowchart" ∧
    diagramTypeDisplayName "graph" = "Flow Chart" ∧
    diagramTypeDisplayName "sequence" = "Sequence Diagram" ∧
    diagramTypeDisplayName "class" = "Class Diagram" ∧
    diagramTypeDisplayName "state" = "State Diagram" ∧
    diagramTypeDisplayName "stateDiagram-v2" = "State Diagram" ∧
    diagramTypeDisplayName "unknown" = "unknown" ∧
    diagramTypeDisplayName "" = "" := by
  have hnodup : (displayNames.map Prod.fst).Nodup := by decide
  refine ⟨rfl, hnodup, ?_, ?_, by decide, by decide, by decide, by decide, by decide,
    by decide, by decide, by decide, by decide⟩
  · intro tag name h
    unfold diagramTypeDisplayName
    rw [mapLookup_eq_some displayNames tag name hnodup h]
  · intro tag h
    unfold diagramTypeDisplayName
    rw [mapLookup_eq_none displayNames tag h]

/-! ## The constructor `NewState` -/

/-- C35: `NewState(rules...)` returns a validator whose state rules are exactly
the given rules in the given order, none when it is called with none, and
whose rule lists for every other dialect are empty. -/
theorem newState_spec {ι : Type} {R : ι → Type} (rules : List StateRule) :
    (NewState rules : Validator ι R).stateRules = rules ∧
    (∀ f : ι, (NewState rules : Validator ι R).otherRules f = []) ∧
    (NewState [] : Validator ι R).stateRules = [] ∧
    (∀ i : Nat, (NewState rules : Validator ι R).stateRules[i]? = rules[i]?) ∧
    ((NewState (StateDefaultRules plainQuote) : Validator ι R).stateRules.map
      (fun r => r.Name) = ["no-duplicate-states", "valid-state-references"]) ∧
    ((NewState (StateDefaultRules plainQuote).reverse : Validator ι R).stateRules.map
      (fun r => r.Name) = ["valid-state-references", "no-duplicate-states"]) :=
  ⟨rfl, fun _ => rfl, rfl, fun _ => rfl, rfl, rfl⟩

/-! ## The state rules on Go values: no panic on non-nil statements -/

theorem rangeLoop_toValue {σ : Type} (body : σ → StmtValue → Except Panic σ)
    (step : σ → StateStmt → σ)
    (h : ∀ (acc : σ) (s : StateStmt), body acc s.toValue = .ok (step acc s))
    (l : List StateStmt) (acc : σ) :
    rangeLoop body (l.map StateStmt.toValue) acc = .ok (l.foldl step acc) := by
  induction l generalizing acc with
  | nil => rfl
  | cons s rest ih =>
    rw [List.map_cons, rangeLoop, h acc s]
    exact ih (step acc s)

theorem rangeLoop_ok_iff {σ : Type} (body : σ → StmtValue → Except Panic σ)
    (bad : StmtValue → Prop)
    (hgood : ∀ (acc : σ) (s : StmtValue), ¬ bad s → ∃ acc', body acc s = .ok acc')
    (hbad : ∀ (acc : σ) (s : StmtValue), bad s → body acc s = .error Panic.nilDereference)
    (l : List StmtValue) (acc : σ) :
    ((∃ r, rangeLoop body l acc = .ok r) ↔ ∀ s ∈ l, ¬ bad s) ∧
    ((∃ s ∈ l, bad s) → rangeLoop body l acc = .error Panic.nilDereference) := by
  induction l generalizing acc with
  | nil =>
    refine ⟨⟨fun _ s hs => ?_, fun _ => ⟨acc, rfl⟩⟩, ?_⟩
    · cases hs
    · rintro ⟨s, hs, _⟩
      cases hs
  | cons s rest ih =>
    by_cases hs : bad s
    · have hstep := hbad acc s hs
      refine ⟨⟨?_, ?_⟩, ?_⟩
      · rintro ⟨r, hr⟩
        rw [rangeLoop, hstep] at hr
        cases hr
      · intro hall
        exact absurd hs (hall s (List.mem_cons_self _ _))
      · intro _
        rw [rangeLoop, hstep]
    · obtain ⟨acc', hstep⟩ := hgood acc s hs
      have hrec : rangeLoop body (s :: rest) acc = rangeLoop body rest acc' := by
        rw [rangeLoop, hstep]
      rw [hrec]
      refine ⟨⟨?_, ?_⟩, ?_⟩
      · intro h t ht
        rcases List.mem_cons.mp ht with h1 | h1
        · rw [h1]
          exact hs
        · exact ((ih acc').1.mp h) t h1
      · intro hall
        exact (ih acc').1.mpr (fun t ht => hall t (List.mem_cons_of_mem _ ht))
      · rintro ⟨t, ht, hbt⟩
        rcases List.mem_cons.mp ht with h1 | h1
        · rw [h1] at hbt
          exact absurd hbt hs
        · exact (ih acc').2 ⟨t, h1, hbt⟩

theorem visitValue_toValue (quote : String → String) (acc : DupScan) (s : StateStmt) :
    NoDuplicateStates.visitValue quote acc s.toValue =
      .ok (NoDuplicateStates.visit quote acc s) := by
  cases s <;> rfl

theorem collectDeclaredValue_toValue (m : List (String × Bool)) (s : StateStmt) :
    ValidStateReferences.collectDeclaredValue m s.toValue =
      .ok (ValidStateReferences.collectDeclared m s) := by
  cases s <;> rfl

theorem collectEndpointsValue_toValue (m : List (String × Bool)) (s : StateStmt) :
    ValidStateReferences.collectEndpointsValue m s.toValue =
      .ok (ValidStateReferences.collectEndpoints m s) := by
  cases s <;> rfl

theorem runValidateState_toValue (quote : String → String) (diagram : StateDiagram) :
    NoDuplicateStates.runValidateState quote diagram.toValue =
        .ok (NoDuplicateStates.ValidateState quote diagram) ∧
      ValidStateReferences.runValidateState diagram.toValue =
        .ok (ValidStateReferences.ValidateState diagram) := by
  constructor
  · simp only [NoDuplicateStates.runValidateState, StateDiagram.toValue,
      rangeLoop_toValue _ _ (visitValue_toValue quote), NoDuplicateStates.ValidateState]
  · simp only [ValidStateReferences.runValidateState, StateDiagram.toValue,
      rangeLoop_toValue _ _ collectDeclaredValue_toValue,
      rangeLoop_toValue _ _ collectEndpointsValue_toValue, ValidStateReferences.ValidateState]

theorem visitValue_cases (quote : String → String) :
    (∀ (acc : DupScan) (s : StmtValue), ¬ NoDuplicateStates.Dereferences s →
      ∃ acc', NoDuplicateStates.visitValue quote acc s = .ok acc') ∧
    (∀ (acc : DupScan) (s : StmtValue), NoDuplicateStates.Dereferences s →
      NoDuplicateStates.visitValue quote acc s = .error Panic.nilDereference) := by
  constructor
  · intro acc s hs
    cases s with
    | state p =>
      cases p with
      | none => exact absurd rfl hs
      | some st => exact ⟨_, rfl⟩
    | _ => exact ⟨_, rfl⟩
  · intro acc s hs
    rw [hs]
    rfl

theorem collectDeclaredValue_cases :
    (∀ (m : List (String × Bool)) (s : StmtValue),
      ¬ (s = .state none ∨ s = .fork none ∨ s = .join none ∨ s = .choice none) →
      ∃ m', ValidStateReferences.collectDeclaredValue m s = .ok m') ∧
    (∀ (m : List (String × Bool)) (s : StmtValue),
      (s = .state none ∨ s = .fork none ∨ s = .join none ∨ s = .choice none) →
      ValidStateReferences.collectDeclaredValue m s = .error Panic.nilDereference) := by
  constructor
  · intro m s hs
    cases s with
    | state p => cases p with
      | none => exact absurd (Or.inl rfl) hs
      | some st => exact ⟨_, rfl⟩
    | fork p => cases p with
      | none => exact absurd (Or.inr (Or.inl rfl)) hs
      | some st => exact ⟨_, rfl⟩
    | join p => cases p with
      | none => exact absurd (Or.inr (Or.inr (Or.inl rfl))) hs
      | some st => exact ⟨_, rfl⟩
    | choice p => cases p with
      | none => exact absurd (Or.inr (Or.inr (Or.inr rfl))) hs
      | some st => exact ⟨_, rfl⟩
    | _ => exact ⟨_, rfl⟩
  · intro m s hs
    rcases hs with h | h | h | h <;> rw [h] <;> rfl

theorem collectEndpointsValue_cases :
    (∀ (m : List (String × Bool)) (s : StmtValue), ¬ s = .transition none →
      ∃ m', ValidStateReferences.collectEndpointsValue m s = .ok m') ∧
    (∀ (m : List (String × Bool)) (s : StmtValue), s = .transition none →
      ValidStateReferences.collectEndpointsValue m s = .error Panic.nilDereference) := by
  constructor
  · intro m s hs
    cases s with
    | transition p => cases p with
      | none => exact absurd rfl hs
      | some st => exact ⟨_, rfl⟩
    | _ => exact ⟨_, rfl⟩
  · intro m s hs
    rw [hs]
    rfl

theorem noDuplicateStates_run_ok_iff (quote : String → String)
    (diagram : Option StateDiagramValue) :
    (∃ errs, NoDuplicateStates.runValidateState quote diagram = .ok errs) ↔
      ∃ d, diagram = some d ∧ ∀ s ∈ d.Statements, ¬ NoDuplicateStates.Dereferences s := by
  cases diagram with
  | none =>
    constructor
    · rintro ⟨_, h⟩
      cases h
    · rintro ⟨_, h, _⟩
      cases h
  | some d =>
    have hloop := (rangeLoop_ok_iff (NoDuplicateStates.visitValue quote)
      NoDuplicateStates.Dereferences (visitValue_cases quote).1 (visitValue_cases quote).2
      d.Statements ⟨[], []⟩).1
    constructor
    · rintro ⟨errs, h⟩
      refine ⟨d, rfl, hloop.mp ?_⟩
      unfold NoDuplicateStates.runValidateState at h
      cases hr : rangeLoop (NoDuplicateStates.visitValue quote) d.Statements ⟨[], []⟩ with
      | error e =>
        simp only [hr] at h
        cases h
      | ok acc => exact ⟨acc, rfl⟩
    · rintro ⟨d', hd, hall⟩
      cases hd
      obtain ⟨acc, hacc⟩ := hloop.mpr hall
      exact ⟨acc.errors, by simp only [NoDuplicateStates.runValidateState, hacc]⟩

theorem validStateReferences_run_ok_iff (diagram : Option StateDiagramValue) :
    (∃ errs, ValidStateReferences.runValidateState diagram = .ok errs) ↔
      ∃ d, diagram = some d ∧ ∀ s ∈ d.Statements, ¬ ValidStateReferences.Dereferences s := by
  cases diagram with
  | none =>
    constructor
    · rintro ⟨_, h⟩
      cases h
    · rintro ⟨_, h, _⟩
      cases h
  | some d =>
    have h1 := fun acc => (rangeLoop_ok_iff ValidStateReferences.collectDeclaredValue
      (fun s => s = .state none ∨ s = .fork none ∨ s = .join none ∨ s = .choice none)
      collectDeclaredValue_cases.1 collectDeclaredValue_cases.2 d.Statements acc).1
    have h2 := fun acc => (rangeLoop_ok_iff ValidStateReferences.collectEndpointsValue
      (fun s => s = .transition none)
      collectEndpointsValue_cases.1 collectEndpointsValue_cases.2 d.Statements acc).1
    constructor
    · rintro ⟨errs, h⟩
      refine ⟨d, rfl, ?_⟩
      unfold ValidStateReferences.runValidateState at h
      cases hr1 : rangeLoop ValidStateReferences.collectDeclaredValue d.Statements [] with
      | error e =>
        simp only [hr1] at h
        cases h
      | ok m1 =>
        cases hr2 : rangeLoop ValidStateReferences.collectEndpointsValue d.Statements m1 with
        | error e =>
          simp only [hr1, hr2] at h
          cases h
        | ok m2 =>
          intro s hs hbad
          have g1 := (h1 []).mp ⟨m1, hr1⟩ s hs
          have g2 := (h2 m1).mp ⟨m2, hr2⟩ s hs
          rcases hbad with hb | hb | hb | hb | hb
          · exact g1 (Or.inl hb)
          · exact g1 (Or.inr (Or.inl hb))
          · exact g1 (Or.inr (Or.inr (Or.inl hb)))
          · exact g1 (Or.inr (Or.inr (Or.inr hb)))
          · exact g2 hb
    · rintro ⟨d', hd, hall⟩
      cases hd
      obtain ⟨m1, hm1⟩ := (h1 []).mpr (fun s hs hb => hall s hs (by
        rcases hb with hb | hb | hb | hb
        · exact Or.inl hb
        · exact Or.inr (Or.inl hb)
        · exact Or.inr (Or.inr (Or.inl hb))
        · exact Or.inr (Or.inr (Or.inr (Or.inl hb)))))
      obtain ⟨m2, hm2⟩ := (h2 m1).mpr (fun s hs hb => hall s hs
        (Or.inr (Or.inr (Or.inr (Or.inr hb)))))
      exact ⟨[], by simp only [ValidStateReferences.runValidateState, hm1, hm2]⟩

/-- C11, as the code has it: on a non-nil diagram that holds no nil pointer of
a type the method dereferences (for `NoDuplicateStates` the nil `*ast.State`,
for `ValidStateReferences` the nil `*ast.State`, `*ast.Fork`, `*ast.Join`,
`*ast.Choice` and `*ast.Transition`), so on every diagram whose statements are
non-nil pointers, each method runs its loops to the end and returns a list
without panicking, the list of the method read on such diagrams, of at most as
many diagnostics as there are statements; on a diagram with no statements both
return the empty list. On the nil diagram and on a diagram that holds such a
nil pointer the method panics, and in no other case. -/
theorem validateState_safe (quote : String → String) :
    (∀ diagram : StateDiagram,
      NoDuplicateStates.runValidateState quote diagram.toValue =
        .ok (NoDuplicateStates.ValidateState quote diagram) ∧
      ValidStateReferences.runValidateState diagram.toValue =
        .ok (ValidStateReferences.ValidateState diagram) ∧
      (NoDuplicateStates.ValidateState quote diagram).length ≤ diagram.Statements.length ∧
      (ValidStateReferences.ValidateState diagram).length ≤ diagram.Statements.length) ∧
    (∀ (ty src : String) (pos : Position),
      NoDuplicateStates.runValidateState quote
        (some { Type_ := ty, Source := src, Pos := pos, Statements := [] }) = .ok [] ∧
      ValidStateReferences.runValidateState
        (some { Type_ := ty, Source := src, Pos := pos, Statements := [] }) = .ok []) ∧
    (∀ diagram : Option StateDiagramValue,
      ((∃ errs, NoDuplicateStates.runValidateState quote diagram = .ok errs) ↔
        ∃ d, diagram = some d ∧
          ∀ s ∈ d.Statements, ¬ NoDuplicateStates.Dereferences s) ∧
      ((∃ errs, ValidStateReferences.runValidateState diagram = .ok errs) ↔
        ∃ d, diagram = some d ∧
          ∀ s ∈ d.Statements, ¬ ValidStateReferences.Dereferences s) ∧
      (∀ errs, ValidStateReferences.runValidateState diagram = .ok errs → errs = [])) := by
  refine ⟨?_, fun _ _ _ => ⟨rfl, rfl⟩, ?_⟩
  · intro diagram
    have h := runValidateState_toValue quote diagram
    refine ⟨h.1, h.2, ?_, Nat.zero_le _⟩
    have h1 := validateState_length_add_card quote diagram
    have h2 := length_stateIDs diagram.Statements
    have h3 : diagram.Statements.countP isStateStmt ≤ diagram.Statements.length :=
      List.countP_le_length _
    omega
  · intro diagram
    refine ⟨noDuplicateStates_run_ok_iff quote diagram,
      validStateReferences_run_ok_iff diagram, ?_⟩
    intro errs h
    cases diagram with
    | none => cases h
    | some d =>
      unfold ValidStateReferences.runValidateState at h
      cases hr1 : rangeLoop ValidStateReferences.collectDeclaredValue d.Statements [] with
      | error e =>
        simp only [hr1] at h
        cases h
      | ok m1 =>
        cases hr2 : rangeLoop ValidStateReferences.collectEndpointsValue d.Statements m1 with
        | error e =>
          simp only [hr1, hr2] at h
          cases h
        | ok m2 =>
          simp only [hr1, hr2] at h
          cases h
          rfl

/-- Witness for C11 as amended: `sampleDiagram`, whose statements are non-nil
pointers, is validated without a panic, with the three diagnostics of
`NoDuplicateStates` and none of `ValidStateReferences`. -/
theorem validateState_safe_witness :
    NoDuplicateStates.runValidateState plainQuote sampleDiagram.toValue =
      .ok (NoDuplicateStates.ValidateState plainQuote sampleDiagram) ∧
    (NoDuplicateStates.ValidateState plainQuote sampleDiagram).map (fun e => e.Line) =
      [5, 6, 7] ∧
    ValidStateReferences.runValidateState sampleDiagram.toValue = .ok [] :=
  ⟨((validateState_safe plainQuote).1 sampleDiagram).1, by decide,
    ((validateState_safe plainQuote).1 sampleDiagram).2.1⟩

/-- Counterexample to C11 as stated: the diagram whose one statement is the nil
pointer `(*ast.State)(nil)` makes both methods panic with a nil pointer
dereference (the type assertion and the type switch accept the nil pointer,
and `state.ID`, `s.ID` dereference it), and so does the nil diagram. -/
theorem validateState_nil_counterexample :
    NoDuplicateStates.runValidateState plainQuote nilStateDiagram =
      .error Panic.nilDereference ∧
    ValidStateReferences.runValidateState nilStateDiagram = .error Panic.nilDereference ∧
    NoDuplicateStates.runValidateState plainQuote none = .error Panic.nilDereference ∧
    ValidStateReferences.runValidateState none = .error Panic.nilDereference ∧
    ¬ (∀ diagram : Option StateDiagramValue,
        (∃ errs, NoDuplicateStates.runValidateState plainQuote diagram = .ok errs) ∧
        ∃ errs, ValidStateReferences.runValidateState diagram = .ok errs) := by
  refine ⟨rfl, rfl, rfl, rfl, ?_⟩
  intro h
  obtain ⟨errs, herr⟩ := (h nilStateDiagram).1
  cases herr

end MermaidCheck
